import Mathlib

/-! # lwr_testdriver: a shallow embedding of the control core

Source: `src/lwr_testdriver/src/lwr_testdriver-component.cpp`.

Modelling conventions.

* `float` and `double` values are modelled by exact rationals (`ℚ`); the casts
  between the two (`cast<double>()`, `cast<float>()`, `static_cast<double>`) are
  the identity.  Overflow, infinities and NaN are outside the model.
* Rounding is outside the definitions that carry the control flow.  Where a
  property depends on it (the scaling of the torque mapping, the mean of the
  averager, the accumulated error of the PID step), the arithmetic concerned is
  given a second time with the rounding of every operation made explicit
  (`computeTorquesUpperRounded`, `computeTorquesLowerRounded`, `averagingRounded`,
  `controlPIDRounded`), over a rounding operator `fl`; `roundFloat` and
  `roundDouble` are the IEEE 754 roundings to nearest, ties to even.
* Eigen vectors of a fixed length `n` are functions `Fin n → ℚ`; the joint counts
  of the two chains (`lower.getNrOfJoints()`, `upper.getNrOfJoints()`) are the
  parameters `nl` and `nu` of the controller state.
* The collaborators of the component (KDL solvers, the RTT ports, the RTT logger,
  the RTT time service) are not members of the controller: solvers are passed in
  as `ChainSolvers`, what a port read delivers and what the clock shows are
  inputs of a cycle, and what is logged or written to the output port is returned
  next to the new controller state.
-/

namespace LwrSim

/-- An Eigen vector with `n` coefficients. -/
abbrev Vec (n : Nat) := Fin n → ℚ

/-- Eigen `v.head(n)`: the first `n` coefficients of `v` (reading past the end of `v`
is undefined in Eigen; the model yields `0` there). -/
def Vec.head {m : Nat} (v : Vec m) (n : Nat) : Vec n :=
  fun i => if h : i.val < m then v ⟨i.val, h⟩ else 0

/-- Eigen `v.tail(n)`: the last `n` coefficients of `v`, coefficient `j` of the result
being `v[m - n + j]` (reading outside `v` is undefined in Eigen; the model yields
`0` there). -/
def Vec.tail {m : Nat} (v : Vec m) (n : Nat) : Vec n :=
  fun j => if h : m - n + j.val < m then v ⟨m - n + j.val, h⟩ else 0

/-- Eigen `t.head(n) = x`: overwrite the first `n` coefficients of `t` by `x`. -/
def Vec.setHead {m n : Nat} (t : Vec m) (x : Vec n) : Vec m :=
  fun i => if h : i.val < n then x ⟨i.val, h⟩ else t i

/-- Eigen `t.tail(n) = y`: overwrite the last `n` coefficients of `t` by `y`,
coefficient `m - n + j` of `t` receiving `y[j]`. -/
def Vec.setTail {m n : Nat} (t : Vec m) (y : Vec n) : Vec m :=
  fun i => if h : m - n ≤ i.val ∧ i.val - (m - n) < n then y ⟨i.val - (m - n), h.2⟩ else t i

/-- The type `RTT::FlowStatus`, the result of reading an input port. -/
inductive FlowStatus where
  | NoData
  | OldData
  | NewData
  deriving DecidableEq, Repr

/-- The joint-state sample delivered on `jointStateIn`. -/
structure JointState where
  angles : Vec 7
  velocities : Vec 7

/-- The type `KDL::Frame`: a rotation matrix `M` and a position `p`. -/
structure Frame where
  M : Matrix (Fin 3) (Fin 3) ℚ
  p : Vec 3

/-- The method `KDL::Frame::Inverse()` as the KDL library defines it: the rotation is
transposed and the position becomes `-(Mᵀ p)`. -/
def Frame.Inverse (f : Frame) : Frame :=
  { M := f.M.transpose, p := fun i => - (f.M.transpose.mulVec f.p) i }

/-- The accessor `KDL::Frame::operator()(i, j)`: entry `(i, j)` of the 4x4 homogeneous matrix
of the frame. -/
def Frame.get (f : Frame) (i j : Fin 4) : ℚ :=
  if hi : i.val < 3 then
    if hj : j.val < 3 then f.M ⟨i.val, hi⟩ ⟨j.val, hj⟩ else f.p ⟨i.val, hi⟩
  else
    if j.val = 3 then 1 else 0

/-- The two KDL solvers of one chain with `n` joints:
`ChainFkSolverPos_recursive::JntToCart` and `ChainJntToJacSolver::JntToJac`. -/
structure ChainSolvers (n : Nat) where
  JntToCart : Vec n → Frame
  JntToJac : Vec n → Matrix (Fin 6) (Fin n) ℚ

/-- The solvers of the lower and of the upper chain, as `loadModel` creates
them. -/
structure Kinematics (nl nu : Nat) where
  lower : ChainSolvers nl
  upper : ChainSolvers nu

/-- A message handed to the RTT logger. -/
inductive LogEntry where
  | Error (msg : String)
  | Info (msg : String)
  | AverageTau (frames_total : ℤ) (mean : Vec 7)

/-- The members of `Lwr_testdriver` (the solvers, ports and the parsed model
apart). -/
structure Lwr_testdriver (nl nu : Nat) where
  mode : String
  positioning_torque : ℚ
  epsilon : ℚ
  target_angles : Vec 7
  hand_forces : Vec 6
  elbow_forces : Vec 6
  q_upper : Vec nu
  q_lower : Vec nl
  elbow_to_base : Bool
  tau : Vec 7
  enable_pid : Bool
  k_p : ℚ
  k_i : ℚ
  k_d : ℚ
  joint_state_in_flow : FlowStatus
  joint_state_in_data : JointState
  torques_out_data : Vec 7
  model_loaded : Bool
  e_previous : Vec nl
  e_current : Vec nl
  e_total : Vec nl
  ramp_forces_hand : Bool
  ramp_forces_elbow : Bool
  total_time_hand : ℚ
  start_time_hand : ℚ
  end_time_hand : ℚ
  current_time_hand : ℚ
  hand_forces_diff : Vec 6
  total_time_elbow : ℚ
  start_time_elbow : ℚ
  end_time_elbow : ℚ
  current_time_elbow : ℚ
  elbow_forces_diff : Vec 6
  in_position : ℤ
  joint_counter : ℤ
  frames_total : ℤ
  frames_counter : ℤ
  tau_sum : Vec 7
  tip_upper : Frame
  inv_upper : Frame
  htb_upper : Matrix (Fin 6) (Fin 6) ℚ
  j_upper : Matrix (Fin 6) (Fin nu) ℚ
  j_htb_upper : Matrix (Fin 6) (Fin nu) ℚ
  tip_lower : Frame
  inv_lower : Frame
  htb_lower : Matrix (Fin 6) (Fin 6) ℚ
  j_lower : Matrix (Fin 6) (Fin nl) ℚ
  j_htb_lower : Matrix (Fin 6) (Fin nl) ℚ
  ind_i : ℤ
  ind_j : ℤ

/-- What one activation of `updateHook` receives from outside: the result of
`joint_state_in_port.read`, and the readings of the time service (in
nanoseconds) at the two places where the cycle asks for the time. -/
structure CycleInput where
  flow : FlowStatus
  sample : JointState
  nsecs_elbow : ℚ
  nsecs_hand : ℚ

/-- What one activation of `updateHook` hands to the outside: the log messages
and the sample written to `torquesOut`, if one is written. -/
structure CycleOutput where
  log : List LogEntry
  written : Option (Vec 7)

variable {nl nu : Nat}

/-- The constructor, run on an object whose members hold the arbitrary contents
`u`: the members it assigns get their initial values, the others keep what
`u` holds. -/
def Lwr_testdriver.construct (u : Lwr_testdriver nl nu) : Lwr_testdriver nl nu :=
  { u with
    mode := "none"
    positioning_torque := 1
    epsilon := 5 / 1000
    target_angles := fun i => ![70, 12, 90, -80, 0, 60, 0] i * (3141 / 1000) / 180
    hand_forces := fun _ => 0
    elbow_forces := fun _ => 0
    tau := fun _ => 0
    joint_state_in_flow := FlowStatus.NoData
    model_loaded := false }

/-- The member function `configureHook` of the source. -/
def Lwr_testdriver.configureHook (s : Lwr_testdriver nl nu) :
    Lwr_testdriver nl nu × Bool × List LogEntry :=
  let s1 := { s with torques_out_data := fun _ => 0 }
  if !s1.model_loaded then
    (s1, false, [LogEntry.Error "No model loaded"])
  else
    (s1, true, [LogEntry.Info "Lwr_testdriver configured"])

/-- The member function `startHook` of the source. -/
def Lwr_testdriver.startHook (s : Lwr_testdriver nl nu) :
    Lwr_testdriver nl nu × Bool × List LogEntry :=
  let s1 := { s with torques_out_data := fun _ => 0 }
  let s2 := { s1 with e_previous := fun _ => 0 }
  let s3 := { s2 with e_current := fun _ => 0 }
  let s4 := { s3 with e_total := fun _ => 0 }
  (s4, true, [LogEntry.Info "Lwr_testdriver started"])

/-- The member function `stopHook` of the source. -/
def Lwr_testdriver.stopHook (s : Lwr_testdriver nl nu) :
    Lwr_testdriver nl nu × List LogEntry :=
  ({ s with torques_out_data := fun _ => 0 }, [LogEntry.Info "Lwr_testdriver executes stopping"])

/-- The member function `setMode` of the source. -/
def Lwr_testdriver.setMode (s : Lwr_testdriver nl nu) (mode : String) :
    Lwr_testdriver nl nu × Bool × List LogEntry :=
  if mode = "position" ∨ mode = "torque" ∨ mode = "none" then
    ({ s with mode := mode }, true, [])
  else
    (s, false, [LogEntry.Error "Available modes are position, torque and none"])

/-- The member function `setForceAxisUpper` of the source. -/
def Lwr_testdriver.setForceAxisUpper (s : Lwr_testdriver nl nu) (x y z : ℚ) :
    Lwr_testdriver nl nu :=
  let s1 := { s with hand_forces := Function.update s.hand_forces 0 x }
  let s2 := { s1 with hand_forces := Function.update s1.hand_forces 1 y }
  { s2 with hand_forces := Function.update s2.hand_forces 2 z }

/-- The member function `setForceAxisLower` of the source. -/
def Lwr_testdriver.setForceAxisLower (s : Lwr_testdriver nl nu) (x y z : ℚ) :
    Lwr_testdriver nl nu :=
  let s1 := { s with elbow_forces := Function.update s.elbow_forces 0 x }
  let s2 := { s1 with elbow_forces := Function.update s1.elbow_forces 1 y }
  { s2 with elbow_forces := Function.update s2.elbow_forces 2 z }

/-- The member function `setTorqueAxisUpper` of the source. -/
def Lwr_testdriver.setTorqueAxisUpper (s : Lwr_testdriver nl nu) (x y z : ℚ) :
    Lwr_testdriver nl nu :=
  let s1 := { s with hand_forces := Function.update s.hand_forces 3 x }
  let s2 := { s1 with hand_forces := Function.update s1.hand_forces 4 y }
  { s2 with hand_forces := Function.update s2.hand_forces 5 z }

/-- The member function `setTorqueAxisLower` of the source. -/
def Lwr_testdriver.setTorqueAxisLower (s : Lwr_testdriver nl nu) (x y z : ℚ) :
    Lwr_testdriver nl nu :=
  let s1 := { s with elbow_forces := Function.update s.elbow_forces 3 x }
  let s2 := { s1 with elbow_forces := Function.update s1.elbow_forces 4 y }
  { s2 with elbow_forces := Function.update s2.elbow_forces 5 z }

/-- The member function `rampForcesUpper`; `nsecs` is the reading of the time service at the call. -/
def Lwr_testdriver.rampForcesUpper (s : Lwr_testdriver nl nu) (nsecs : ℚ) (time x y z : ℚ) :
    Lwr_testdriver nl nu :=
  let s1 := { s with total_time_hand := time }
  let s2 := { s1 with start_time_hand := nsecs }
  let s3 := { s2 with end_time_hand := s2.start_time_hand + s2.total_time_hand }
  let s4 := { s3 with hand_forces_diff := s3.hand_forces }
  let s5 := s4.setForceAxisUpper x y z
  { s5 with ramp_forces_hand := true }

/-- The member function `rampForcesLower`; `nsecs` is the reading of the time service at the call. -/
def Lwr_testdriver.rampForcesLower (s : Lwr_testdriver nl nu) (nsecs : ℚ) (time x y z : ℚ) :
    Lwr_testdriver nl nu :=
  let s1 := { s with total_time_elbow := time }
  let s2 := { s1 with start_time_elbow := nsecs }
  let s3 := { s2 with end_time_elbow := s2.start_time_elbow + s2.total_time_elbow }
  let s4 := { s3 with elbow_forces_diff := s3.elbow_forces }
  let s5 := s4.setForceAxisLower x y z
  { s5 with ramp_forces_elbow := true }

/-- The member function `controlPID`: the new state and the returned correction. -/
def Lwr_testdriver.controlPID (s : Lwr_testdriver nl nu) (target current : Vec nl) :
    Lwr_testdriver nl nu × Vec nl :=
  let s1 := { s with e_previous := s.e_current }
  let s2 := { s1 with e_current := fun i => target i - current i }
  let s3 := { s2 with e_total := fun i => s2.e_total i + s2.e_current i }
  (s3, fun i => s3.k_p * s3.e_current i + s3.k_i * s3.e_total i
                + s3.k_d * (s3.e_current i - s3.e_previous i))

/-- The member function `averageTau` of the source. -/
def Lwr_testdriver.averageTau (s : Lwr_testdriver nl nu) (frames : ℤ) : Lwr_testdriver nl nu :=
  { s with frames_total := frames, frames_counter := 0, tau_sum := fun _ => 0 }

/-- The assignment `A(i, j) = v` on a 6x6 Eigen matrix. -/
def setCoeff (A : Matrix (Fin 6) (Fin 6) ℚ) (i j : Fin 6) (v : ℚ) : Matrix (Fin 6) (Fin 6) ℚ :=
  fun a b => if a = i ∧ b = j then v else A a b

/-- The body of the two nested loops of `computeTorquesUpper` and
`computeTorquesLower`, at the indices `ind_i`, `ind_j`: the entry `(ind_i, ind_j)`
of the inverted frame is written to `(ind_i, ind_j)` and to
`(3 + ind_i, 3 + ind_j)`. -/
def htbBody (inv : Frame) (A : Matrix (Fin 6) (Fin 6) ℚ) (ind_i ind_j : Fin 3) :
    Matrix (Fin 6) (Fin 6) ℚ :=
  let v := inv.get ⟨ind_i.val, by omega⟩ ⟨ind_j.val, by omega⟩
  let A1 := setCoeff A ⟨ind_i.val, by omega⟩ ⟨ind_j.val, by omega⟩ v
  setCoeff A1 ⟨3 + ind_i.val, by omega⟩ ⟨3 + ind_j.val, by omega⟩ v

/-- The two nested loops, `ind_j` outside and `ind_i` inside, both running over
`0, 1, 2`. -/
def htbLoop (inv : Frame) (A : Matrix (Fin 6) (Fin 6) ℚ) : Matrix (Fin 6) (Fin 6) ℚ :=
  (List.finRange 3).foldl
    (fun Aj ind_j => (List.finRange 3).foldl (fun Ai ind_i => htbBody inv Ai ind_i ind_j) Aj) A

/-- Modelled from the spec: the default value of the trailing `magnitude`
argument of `computeTorquesUpper` and `computeTorquesLower` is declared in the
component header, which is not among the sources; the cycle never passes the
argument, and the spec (4.1, step 5) has the mapping return
`Jacobian_used^T * wrench`, that is, the factor is one. -/
def defaultMagnitude : ℚ := 1

/-- The member function `computeTorquesUpper`: the new state (the scratch members are overwritten)
and the returned torque vector. -/
def Lwr_testdriver.computeTorquesUpper (kin : Kinematics nl nu) (s : Lwr_testdriver nl nu)
    (axis : Vec 6) (magnitude : ℚ) : Lwr_testdriver nl nu × Vec nu :=
  let s1 := { s with tip_upper := kin.upper.JntToCart s.q_upper }
  let s2 := { s1 with inv_upper := s1.tip_upper.Inverse }
  let s3 := { s2 with htb_upper := 0 }
  let s4 := { s3 with htb_upper := htbLoop s3.inv_upper s3.htb_upper, ind_i := 3, ind_j := 3 }
  let s5 := { s4 with j_upper := kin.upper.JntToJac s4.q_upper }
  let s6 := { s5 with j_htb_upper := s5.htb_upper * s5.j_upper }
  (s6, fun k => (s6.j_htb_upper.transpose.mulVec axis) k * magnitude)

/-- The member function `computeTorquesLower`: the new state (the scratch members are overwritten)
and the returned torque vector. -/
def Lwr_testdriver.computeTorquesLower (kin : Kinematics nl nu) (s : Lwr_testdriver nl nu)
    (axis : Vec 6) (magnitude : ℚ) : Lwr_testdriver nl nu × Vec nl :=
  let s1 := { s with tip_lower := kin.lower.JntToCart s.q_lower }
  let s2 := { s1 with inv_lower := s1.tip_lower.Inverse }
  let s3 := { s2 with htb_lower := 0 }
  let s4 := { s3 with htb_lower := htbLoop s3.inv_lower s3.htb_lower, ind_i := 3, ind_j := 3 }
  let s5 := { s4 with j_lower := kin.lower.JntToJac s4.q_lower }
  let s6 := { s5 with j_htb_lower := s5.htb_lower * s5.j_lower }
  (s6,
    if s6.elbow_to_base then
      fun k => (s6.j_htb_lower.transpose.mulVec axis) k * magnitude
    else
      fun k => (s6.j_lower.transpose.mulVec axis) k * magnitude)

/-- The wrench a torque-mode cycle passes to `computeTorquesLower` while
`ramp_forces_elbow` is set:
`elbow_forces_diff * (current_time_elbow - start_time_elbow) / total_time_elbow`. -/
def Lwr_testdriver.rampedElbow (s : Lwr_testdriver nl nu) : Vec 6 :=
  fun i => s.elbow_forces_diff i * (s.current_time_elbow - s.start_time_elbow)
             / s.total_time_elbow

/-- The wrench a torque-mode cycle passes to `computeTorquesUpper` while
`ramp_forces_hand` is set:
`hand_forces_diff * (current_time_hand - start_time_hand) / total_time_hand`. -/
def Lwr_testdriver.rampedHand (s : Lwr_testdriver nl nu) : Vec 6 :=
  fun i => s.hand_forces_diff i * (s.current_time_hand - s.start_time_hand)
             / s.total_time_hand

/-- The lower-chain half of the `mode == "torque"` branch of `updateHook`. -/
def Lwr_testdriver.torqueLower (kin : Kinematics nl nu) (s : Lwr_testdriver nl nu)
    (inp : CycleInput) : Lwr_testdriver nl nu :=
  if s.enable_pid then
    let r := s.controlPID (fun _ => 0) (s.joint_state_in_data.velocities.head nl)
    { r.1 with tau := r.1.tau.setHead r.2 }
  else if s.ramp_forces_elbow then
    let s1 := { s with current_time_elbow := inp.nsecs_elbow }
    let r := s1.computeTorquesLower kin s1.rampedElbow defaultMagnitude
    { r.1 with tau := r.1.tau.setHead r.2 }
  else
    let r := s.computeTorquesLower kin s.elbow_forces defaultMagnitude
    { r.1 with tau := r.1.tau.setHead r.2 }

/-- The upper-chain half of the `mode == "torque"` branch of `updateHook`. -/
def Lwr_testdriver.torqueUpper (kin : Kinematics nl nu) (s : Lwr_testdriver nl nu)
    (inp : CycleInput) : Lwr_testdriver nl nu :=
  if s.ramp_forces_hand then
    let s1 := { s with current_time_hand := inp.nsecs_hand }
    let r := s1.computeTorquesUpper kin s1.rampedHand defaultMagnitude
    { r.1 with tau := r.1.tau.setTail r.2 }
  else
    let r := s.computeTorquesUpper kin s.hand_forces defaultMagnitude
    { r.1 with tau := r.1.tau.setTail r.2 }

/-- The `mode == "torque"` branch of `updateHook`. -/
def Lwr_testdriver.torqueBranch (kin : Kinematics nl nu) (s : Lwr_testdriver nl nu)
    (inp : CycleInput) : Lwr_testdriver nl nu :=
  let s1 := { s with tau := fun _ => 0 }
  let s2 := s1.torqueLower kin inp
  s2.torqueUpper kin inp

/-- The body of the loop of the `mode == "position"` branch, at joint
`joint_counter`. -/
def Lwr_testdriver.positionBody (s : Lwr_testdriver nl nu) (joint_counter : Fin 7) :
    Lwr_testdriver nl nu :=
  if s.target_angles joint_counter - s.joint_state_in_data.angles joint_counter > s.epsilon then
    { s with tau := Function.update s.tau joint_counter s.positioning_torque }
  else if s.target_angles joint_counter - s.joint_state_in_data.angles joint_counter
      < - s.epsilon then
    { s with tau := Function.update s.tau joint_counter (- s.positioning_torque) }
  else
    { s with tau := Function.update s.tau joint_counter 0, in_position := s.in_position + 1 }

/-- The `mode == "position"` branch of `updateHook`: `in_position` is cleared and
the loop body runs for `joint_counter = 0, ..., 6`. -/
def Lwr_testdriver.positionBranch (s : Lwr_testdriver nl nu) : Lwr_testdriver nl nu :=
  let s1 := { s with in_position := 0 }
  let s2 := (List.finRange 7).foldl Lwr_testdriver.positionBody s1
  { s2 with joint_counter := 7 }

/-- The averaging block of `updateHook`: the new state and what is logged. -/
def Lwr_testdriver.averaging (s : Lwr_testdriver nl nu) :
    Lwr_testdriver nl nu × List LogEntry :=
  if s.frames_total > s.frames_counter then
    let s1 := { s with tau_sum := fun i => s.tau_sum i + s.tau i }
    ({ s1 with frames_counter := s1.frames_counter + 1 }, [])
  else if s.frames_total > 0 then
    let msg := LogEntry.AverageTau s.frames_total (fun i => s.tau_sum i / (s.frames_total : ℚ))
    let s1 := { s with frames_total := 0 }
    ({ s1 with frames_counter := 0 }, [msg])
  else
    (s, [])

/-- The member function `updateHook`: one control cycle. -/
def Lwr_testdriver.updateHook (kin : Kinematics nl nu) (s : Lwr_testdriver nl nu)
    (inp : CycleInput) : Lwr_testdriver nl nu × CycleOutput :=
  let s1 := { s with
    joint_state_in_flow := inp.flow
    joint_state_in_data :=
      if inp.flow = FlowStatus.NoData then s.joint_state_in_data else inp.sample }
  if s1.joint_state_in_flow = FlowStatus.NoData then
    (s1, { log := [LogEntry.Error "No joint state input"], written := none })
  else
    let s2 := { s1 with q_lower := s1.joint_state_in_data.angles.head nl }
    let s3 := { s2 with q_upper := s2.joint_state_in_data.angles.tail nu }
    let s4 :=
      if s3.mode = "torque" then s3.torqueBranch kin inp
      else if s3.mode = "position" then s3.positionBranch
      else s3
    let r := s4.averaging
    let s5 := { r.1 with torques_out_data := r.1.tau }
    (s5, { log := r.2, written := some s5.torques_out_data })

/-! ## Concrete objects on which the model is exercised -/

/-- The frame with identity rotation at the origin. -/
def Frame.Identity : Frame := { M := 1, p := fun _ => 0 }

/-- An object all of whose members are zero (empty mode string, flags off). -/
def Lwr_testdriver.zeroed (nl nu : Nat) : Lwr_testdriver nl nu :=
  { mode := "", positioning_torque := 0, epsilon := 0, target_angles := fun _ => 0
    hand_forces := fun _ => 0, elbow_forces := fun _ => 0
    q_upper := fun _ => 0, q_lower := fun _ => 0, elbow_to_base := false
    tau := fun _ => 0, enable_pid := false, k_p := 0, k_i := 0, k_d := 0
    joint_state_in_flow := FlowStatus.NoData
    joint_state_in_data := { angles := fun _ => 0, velocities := fun _ => 0 }
    torques_out_data := fun _ => 0, model_loaded := false
    e_previous := fun _ => 0, e_current := fun _ => 0, e_total := fun _ => 0
    ramp_forces_hand := false, ramp_forces_elbow := false
    total_time_hand := 0, start_time_hand := 0, end_time_hand := 0, current_time_hand := 0
    hand_forces_diff := fun _ => 0
    total_time_elbow := 0, start_time_elbow := 0, end_time_elbow := 0, current_time_elbow := 0
    elbow_forces_diff := fun _ => 0
    in_position := 0, joint_counter := 0, frames_total := 0, frames_counter := 0
    tau_sum := fun _ => 0
    tip_upper := Frame.Identity, inv_upper := Frame.Identity, htb_upper := 0
    j_upper := 0, j_htb_upper := 0
    tip_lower := Frame.Identity, inv_lower := Frame.Identity, htb_lower := 0
    j_lower := 0, j_htb_lower := 0
    ind_i := 0, ind_j := 0 }

/-- A freshly constructed driver for a lower chain of 4 and an upper chain of 3
joints. -/
def fresh : Lwr_testdriver 4 3 := (Lwr_testdriver.zeroed 4 3).construct

/-- A quarter turn about the z axis, positioned at `(1, 2, 3)`. -/
def quarterTurn : Frame := { M := !![0, -1, 0; 1, 0, 0; 0, 0, 1], p := ![1, 2, 3] }

/-- Sample solvers: the pose is `pose` whatever the joints, and entry `(i, k)` of
the Jacobian is `i + 1 + q k`. -/
def sampleSolvers (n : Nat) (pose : Frame) : ChainSolvers n :=
  { JntToCart := fun _ => pose
    JntToJac := fun q => fun i k => (i.val : ℚ) + 1 + q k }

/-- Sample kinematics for the 4 + 3 split, both tips a quarter turn away from
the base. -/
def sampleKin : Kinematics 4 3 :=
  { lower := sampleSolvers 4 quarterTurn, upper := sampleSolvers 3 quarterTurn }

/-- A cycle input with fresh data: all seven angles equal `a`, all velocities
equal `v`, and the clock showing `t` at both readings. -/
def sampleInput (a v t : ℚ) : CycleInput :=
  { flow := FlowStatus.NewData
    sample := { angles := fun _ => a, velocities := fun _ => v }
    nsecs_elbow := t, nsecs_hand := t }

/-! ## The position branch -/

/-- The bang-bang law of one joint, the three tests in the order of the source. -/
def bangBang (target current torque eps : ℚ) : ℚ :=
  if target - current > eps then torque
  else if target - current < - eps then - torque
  else 0

/-- The joint counts as in position: neither of the two tests succeeds. -/
def inBand (target current eps : ℚ) : Prop :=
  ¬ (target - current > eps) ∧ ¬ (target - current < - eps)

instance (target current eps : ℚ) : Decidable (inBand target current eps) := by
  unfold inBand; infer_instance

/-! ## Runs of calls, and the matrix of the spec -/

/-- A run of successive calls of `controlPID`, one per `(target, current)` pair
of the list: the state after the last call and the corrections returned, in
order. -/
def Lwr_testdriver.controlPIDs (s : Lwr_testdriver nl nu) :
    List (Vec nl × Vec nl) → Lwr_testdriver nl nu × List (Vec nl)
  | [] => (s, [])
  | tc :: rest =>
    let r := s.controlPID tc.1 tc.2
    let rs := Lwr_testdriver.controlPIDs r.1 rest
    (rs.1, r.2 :: rs.2)

/-- The 6x6 matrix in the words of the spec (4.1, step 2): the top-left and the
bottom-right 3x3 blocks equal `R`, the two remaining blocks are zero. -/
def blockDiag (R : Matrix (Fin 3) (Fin 3) ℚ) : Matrix (Fin 6) (Fin 6) ℚ :=
  fun a b =>
    if h : a.val < 3 ∧ b.val < 3 then R ⟨a.val, h.1⟩ ⟨b.val, h.2⟩
    else if h : 3 ≤ a.val ∧ 3 ≤ b.val then
      R ⟨a.val - 3, by omega⟩ ⟨b.val - 3, by omega⟩
    else 0

/-! ## Ramp scenarios -/

/-- The constructed driver (both wrenches zero) put in torque mode, on which
`rampHandForces(2, 1, 0, 0)` is called while the clock shows 0. -/
def restRamp : Lwr_testdriver 4 3 :=
  (fresh.setMode "torque").1.rampForcesUpper 0 2 1 0 0

/-- The constructed driver put in torque mode with the hand force set to
`(1, 0, 0)`, on which `rampHandForces(2, 3, 0, 0)` is called while the clock
shows 10. -/
def loadedRamp : Lwr_testdriver 4 3 :=
  ((fresh.setMode "torque").1.setForceAxisUpper 1 0 0).rampForcesUpper 10 2 3 0 0

/-! ## Intermediate states of a cycle, runs of cycles and operations -/

/-- The state of a cycle that received data, right before the mode is looked at:
flow status and sample stored, the angles split into `q_lower` and `q_upper`. -/
def Lwr_testdriver.afterRead (s : Lwr_testdriver nl nu) (inp : CycleInput) :
    Lwr_testdriver nl nu :=
  { s with
    joint_state_in_flow := inp.flow
    joint_state_in_data := inp.sample
    q_lower := inp.sample.angles.head nl
    q_upper := inp.sample.angles.tail nu }

/-- The state of a cycle that received data, right after the branch selected by
the mode has run and before the averaging block. -/
def Lwr_testdriver.dispatched (kin : Kinematics nl nu) (s : Lwr_testdriver nl nu)
    (inp : CycleInput) : Lwr_testdriver nl nu :=
  if s.mode = "torque" then (s.afterRead inp).torqueBranch kin inp
  else if s.mode = "position" then (s.afterRead inp).positionBranch
  else s.afterRead inp

/-- The torque mapper in the words of the spec (4.1): the Jacobian at `q`,
premultiplied by the block-diagonal matrix of the inverted tip pose when
`applyFrameTransform` is on, transposed and applied to the wrench. -/
def mapWrench {n : Nat} (solvers : ChainSolvers n) (q : Vec n) (wrench : Vec 6)
    (applyFrameTransform : Bool) : Vec n :=
  if applyFrameTransform then
    (blockDiag (solvers.JntToCart q).Inverse.M * solvers.JntToJac q).transpose.mulVec wrench
  else
    (solvers.JntToJac q).transpose.mulVec wrench

/-- A run of consecutive cycles, one per input of the list: for each cycle, in
order, the state after it and what it handed to the outside. -/
def Lwr_testdriver.cycles (kin : Kinematics nl nu) (s : Lwr_testdriver nl nu) :
    List CycleInput → List (Lwr_testdriver nl nu × CycleOutput)
  | [] => []
  | inp :: rest =>
    s.updateHook kin inp :: Lwr_testdriver.cycles kin (s.updateHook kin inp).1 rest

/-- The state after a run of consecutive cycles. -/
def Lwr_testdriver.afterCycles (kin : Kinematics nl nu) (s : Lwr_testdriver nl nu)
    (inputs : List CycleInput) : Lwr_testdriver nl nu :=
  inputs.foldl (fun st inp => (st.updateHook kin inp).1) s

/-- The operations of the controller that act on its state, with their
arguments (for a cycle: what it receives from outside; for the two ramp
operations: the clock reading followed by the arguments of the call). -/
inductive Operation where
  | updateHook (inp : CycleInput)
  | setMode (mode : String)
  | setForceAxisUpper (x y z : ℚ)
  | setForceAxisLower (x y z : ℚ)
  | setTorqueAxisUpper (x y z : ℚ)
  | setTorqueAxisLower (x y z : ℚ)
  | rampForcesUpper (nsecs time x y z : ℚ)
  | rampForcesLower (nsecs time x y z : ℚ)
  | averageTau (frames : ℤ)
  | startHook
  | configureHook
  | stopHook

/-- The state after one operation. -/
def Lwr_testdriver.perform (kin : Kinematics nl nu) (s : Lwr_testdriver nl nu) :
    Operation → Lwr_testdriver nl nu
  | Operation.updateHook inp => (s.updateHook kin inp).1
  | Operation.setMode mode => (s.setMode mode).1
  | Operation.setForceAxisUpper x y z => s.setForceAxisUpper x y z
  | Operation.setForceAxisLower x y z => s.setForceAxisLower x y z
  | Operation.setTorqueAxisUpper x y z => s.setTorqueAxisUpper x y z
  | Operation.setTorqueAxisLower x y z => s.setTorqueAxisLower x y z
  | Operation.rampForcesUpper nsecs time x y z => s.rampForcesUpper nsecs time x y z
  | Operation.rampForcesLower nsecs time x y z => s.rampForcesLower nsecs time x y z
  | Operation.averageTau frames => s.averageTau frames
  | Operation.startHook => s.startHook.1
  | Operation.configureHook => s.configureHook.1
  | Operation.stopHook => s.stopHook.1

/-- The constructed driver in torque mode with both wrenches set to
`(1, 2, 0, 0, 0, 1)`. -/
def torqueScenario : Lwr_testdriver 4 3 :=
  ((((fresh.setMode "torque").1.setForceAxisUpper 1 2 0).setTorqueAxisUpper 0 0 1).setForceAxisLower
    1 2 0).setTorqueAxisLower 0 0 1

/-- The constructed driver in torque mode with hand force `(1, 0, 0)`, ramped
down by `rampHandForces(2, 0, 0, 0)` at clock 0: both live wrenches are zero and
the hand ramp flag is set. -/
def rampDown : Lwr_testdriver 4 3 :=
  ((fresh.setMode "torque").1.setForceAxisUpper 1 0 0).rampForcesUpper 0 2 0 0 0

/-- The constructed driver in position mode with every target at 1 rad. -/
def positionScenario : Lwr_testdriver 4 3 :=
  { fresh with mode := "position", target_angles := fun _ => 1 }

/-- The constructed driver in torque mode with PID enabled (`k_p = 2`,
`k_i = k_d = 0`), started by `startHook`. -/
def pidScenario : Lwr_testdriver 4 3 :=
  (Lwr_testdriver.startHook { fresh with mode := "torque", enable_pid := true, k_p := 2 }).1

/-! ## Floating-point rounding -/

/-- The integer nearest to `q`, a tie going to the even neighbour. -/
def roundEven (q : ℚ) : ℤ :=
  if q - ⌊q⌋ < 1 / 2 then ⌊q⌋
  else if 1 / 2 < q - ⌊q⌋ then ⌊q⌋ + 1
  else if ⌊q⌋ % 2 = 0 then ⌊q⌋
  else ⌊q⌋ + 1

/-- Rounding of `x` to the nearest binary floating-point number with `p`
significant bits, ties to even (the default rounding of IEEE 754 arithmetic):
with `k` the binary exponent of `x`, that is `2^k ≤ |x| < 2^(k+1)`, the result
is the multiple of `2^(k - (p - 1))` nearest to `x`. The exponent range is not
bounded: overflow, subnormal numbers, infinities and NaN are outside the
model. -/
def roundBinary (p : ℕ) (x : ℚ) : ℚ :=
  if x = 0 then 0
  else
    (roundEven (x / (2 : ℚ) ^ (Int.log 2 |x| - ((p : ℤ) - 1))) : ℚ)
      * (2 : ℚ) ^ (Int.log 2 |x| - ((p : ℤ) - 1))

/-- Rounding to `float` (IEEE 754 binary32, 24 significant bits). -/
def roundFloat (x : ℚ) : ℚ := roundBinary 24 x

/-- Rounding to `double` (IEEE 754 binary64, 53 significant bits). -/
def roundDouble (x : ℚ) : ℚ := roundBinary 53 x

/-! ## The arithmetic of the torque mapping, the averager and the PID step with
rounding made explicit

In the definitions below `fl` is the rounding applied to the result of every
arithmetic operation; with `fl := roundDouble` or `fl := roundFloat` they follow
the IEEE arithmetic of the source, with `fl := id` they are the exact
definitions above. -/

/-- The dot product of two vectors in rounded arithmetic: every product and
every partial sum is rounded, the terms being added in the order of the index.
(Eigen may add the terms in another order; the statements proved about this
definition concern doubling, zero operands and sums with two non-zero terms,
which do not depend on the order.) -/
def dotRounded (fl : ℚ → ℚ) {n : Nat} (a b : Vec n) : ℚ :=
  (List.finRange n).foldl (fun acc i => fl (acc + fl (a i * b i))) 0

/-- The matrix product `A * B` in rounded arithmetic. -/
def mulRounded (fl : ℚ → ℚ) {n : Nat} (A : Matrix (Fin 6) (Fin 6) ℚ)
    (B : Matrix (Fin 6) (Fin n) ℚ) : Matrix (Fin 6) (Fin n) ℚ :=
  fun i k => dotRounded fl (fun j => A i j) (fun j => B j k)

/-- The member function `computeTorquesUpper` with the rounding of its
arithmetic made explicit: the product `htb_upper * j_upper.data`, the product
with `axis` and the product with `magnitude`. -/
def Lwr_testdriver.computeTorquesUpperRounded (fl : ℚ → ℚ) (kin : Kinematics nl nu)
    (s : Lwr_testdriver nl nu) (axis : Vec 6) (magnitude : ℚ) :
    Lwr_testdriver nl nu × Vec nu :=
  let s1 := { s with tip_upper := kin.upper.JntToCart s.q_upper }
  let s2 := { s1 with inv_upper := s1.tip_upper.Inverse }
  let s3 := { s2 with htb_upper := 0 }
  let s4 := { s3 with htb_upper := htbLoop s3.inv_upper s3.htb_upper, ind_i := 3, ind_j := 3 }
  let s5 := { s4 with j_upper := kin.upper.JntToJac s4.q_upper }
  let s6 := { s5 with j_htb_upper := mulRounded fl s5.htb_upper s5.j_upper }
  (s6, fun k => fl (dotRounded fl (fun i => s6.j_htb_upper i k) axis * magnitude))

/-- The member function `computeTorquesLower` with the rounding of its
arithmetic made explicit. -/
def Lwr_testdriver.computeTorquesLowerRounded (fl : ℚ → ℚ) (kin : Kinematics nl nu)
    (s : Lwr_testdriver nl nu) (axis : Vec 6) (magnitude : ℚ) :
    Lwr_testdriver nl nu × Vec nl :=
  let s1 := { s with tip_lower := kin.lower.JntToCart s.q_lower }
  let s2 := { s1 with inv_lower := s1.tip_lower.Inverse }
  let s3 := { s2 with htb_lower := 0 }
  let s4 := { s3 with htb_lower := htbLoop s3.inv_lower s3.htb_lower, ind_i := 3, ind_j := 3 }
  let s5 := { s4 with j_lower := kin.lower.JntToJac s4.q_lower }
  let s6 := { s5 with j_htb_lower := mulRounded fl s5.htb_lower s5.j_lower }
  (s6,
    if s6.elbow_to_base then
      fun k => fl (dotRounded fl (fun i => s6.j_htb_lower i k) axis * magnitude)
    else
      fun k => fl (dotRounded fl (fun i => s6.j_lower i k) axis * magnitude))

/-- The averaging block of `updateHook` with the rounding of its arithmetic made
explicit: the sum `tau_sum += tau`, the conversion of `frames_total` to the
scalar type of the vector and the quotient `tau_sum / frames_total`. -/
def Lwr_testdriver.averagingRounded (fl : ℚ → ℚ) (s : Lwr_testdriver nl nu) :
    Lwr_testdriver nl nu × List LogEntry :=
  if s.frames_total > s.frames_counter then
    let s1 := { s with tau_sum := fun i => fl (s.tau_sum i + s.tau i) }
    ({ s1 with frames_counter := s1.frames_counter + 1 }, [])
  else if s.frames_total > 0 then
    let msg := LogEntry.AverageTau s.frames_total
      (fun i => fl (s.tau_sum i / fl (s.frames_total : ℚ)))
    let s1 := { s with frames_total := 0 }
    ({ s1 with frames_counter := 0 }, [msg])
  else
    (s, [])

/-- The averaging blocks of a run of consecutive cycles with data, the cycles
having computed the torque vectors of the list, in order: the state after the
run and what each cycle logged. -/
def Lwr_testdriver.averagingRun (fl : ℚ → ℚ) (s : Lwr_testdriver nl nu) :
    List (Vec 7) → Lwr_testdriver nl nu × List (List LogEntry)
  | [] => (s, [])
  | tau :: rest =>
    let r := Lwr_testdriver.averagingRounded fl { s with tau := tau }
    let rs := Lwr_testdriver.averagingRun fl r.1 rest
    (rs.1, r.2 :: rs.2)

/-- The member function `controlPID` in rounded arithmetic: the statements of
the source, every subtraction, addition and product being rounded by `fl`. -/
def Lwr_testdriver.controlPIDRounded (fl : ℚ → ℚ) (s : Lwr_testdriver nl nu)
    (target current : Vec nl) : Lwr_testdriver nl nu × Vec nl :=
  let s1 := { s with e_previous := s.e_current }
  let s2 := { s1 with e_current := fun i => fl (target i - current i) }
  let s3 := { s2 with e_total := fun i => fl (s2.e_total i + s2.e_current i) }
  (s3, fun i => fl (fl (fl (s3.k_p * s3.e_current i) + fl (s3.k_i * s3.e_total i))
                + fl (s3.k_d * fl (s3.e_current i - s3.e_previous i))))

/-- A run of successive calls of `controlPID` in rounded arithmetic, one per
`(target, current)` pair of the list: the state after the last call and the
corrections returned, in order. -/
def Lwr_testdriver.controlPIDsRounded (fl : ℚ → ℚ) (s : Lwr_testdriver nl nu) :
    List (Vec nl × Vec nl) → Lwr_testdriver nl nu × List (Vec nl)
  | [] => (s, [])
  | tc :: rest =>
    let r := s.controlPIDRounded fl tc.1 tc.2
    let rs := Lwr_testdriver.controlPIDsRounded fl r.1 rest
    (rs.1, r.2 :: rs.2)

/-! # Properties -/

theorem positionBody_eq (s : Lwr_testdriver nl nu) (j : Fin 7) :
    s.positionBody j =
      { s with
        tau := Function.update s.tau j
          (bangBang (s.target_angles j) (s.joint_state_in_data.angles j)
            s.positioning_torque s.epsilon)
        in_position := s.in_position +
          (if inBand (s.target_angles j) (s.joint_state_in_data.angles j) s.epsilon
            then 1 else 0) } := by
  unfold Lwr_testdriver.positionBody bangBang inBand
  by_cases h1 : s.target_angles j - s.joint_state_in_data.angles j > s.epsilon
  · simp [h1]
  · by_cases h2 : s.target_angles j - s.joint_state_in_data.angles j < - s.epsilon
    · simp [h1, h2]
    · simp [h1, h2]

theorem positionLoop_eq (l : List (Fin 7)) (s : Lwr_testdriver nl nu) :
    l.foldl Lwr_testdriver.positionBody s =
      { s with
        tau := fun i =>
          if i ∈ l then
            bangBang (s.target_angles i) (s.joint_state_in_data.angles i)
              s.positioning_torque s.epsilon
          else s.tau i
        in_position := s.in_position +
          (l.countP (fun i =>
            decide (inBand (s.target_angles i) (s.joint_state_in_data.angles i) s.epsilon)) : ℕ) } := by
  induction l generalizing s with
  | nil => simp
  | cons a l ih =>
    rw [List.foldl_cons, ih, positionBody_eq]
    congr 1
    · funext i
      by_cases hi : i ∈ l
      · simp [hi]
      · by_cases hia : i = a
        · subst hia; simp [hi]
        · simp [hi, hia, Function.update_noteq hia]
    · simp only [List.countP_cons]
      by_cases hb : inBand (s.target_angles a) (s.joint_state_in_data.angles a) s.epsilon
      · simp [hb]; ring
      · simp [hb]

theorem countP_finRange_eq_card (n : Nat) (p : Fin n → Prop) [DecidablePred p] :
    (List.finRange n).countP (fun i => decide (p i)) = (Finset.univ.filter p).card := by
  rw [List.countP_eq_length_filter]
  rfl

theorem positionBranch_eq (s : Lwr_testdriver nl nu) :
    s.positionBranch =
      { s with
        tau := fun i => bangBang (s.target_angles i) (s.joint_state_in_data.angles i)
          s.positioning_torque s.epsilon
        in_position := ((Finset.univ.filter (fun i : Fin 7 =>
          inBand (s.target_angles i) (s.joint_state_in_data.angles i) s.epsilon)).card : ℤ)
        joint_counter := 7 } := by
  unfold Lwr_testdriver.positionBranch
  simp only [positionLoop_eq, List.mem_finRange, if_true, zero_add]
  rw [countP_finRange_eq_card]

theorem averaging_eq (s : Lwr_testdriver nl nu) :
    s.averaging.1 =
      { s with
        tau_sum := s.averaging.1.tau_sum
        frames_counter := s.averaging.1.frames_counter
        frames_total := s.averaging.1.frames_total } := by
  unfold Lwr_testdriver.averaging
  split_ifs <;> rfl

/-- A cycle with data in mode `"position"`: the state after the cycle. -/
theorem updateHook_position (kin : Kinematics nl nu) (s : Lwr_testdriver nl nu) (inp : CycleInput)
    (hmode : s.mode = "position") (hflow : inp.flow ≠ FlowStatus.NoData) :
    (s.updateHook kin inp).1.tau =
        (fun i => bangBang (s.target_angles i) (inp.sample.angles i)
          s.positioning_torque s.epsilon) ∧
    (s.updateHook kin inp).1.in_position =
        ((Finset.univ.filter (fun i : Fin 7 =>
          inBand (s.target_angles i) (inp.sample.angles i) s.epsilon)).card : ℤ) ∧
    (s.updateHook kin inp).2.written =
        some (fun i => bangBang (s.target_angles i) (inp.sample.angles i)
          s.positioning_torque s.epsilon) := by
  have hne : ("position" : String) ≠ "torque" := by decide
  unfold Lwr_testdriver.updateHook
  simp only [hflow, if_false, hmode, hne, if_true]
  refine ⟨?_, ?_, ?_⟩
  · rw [averaging_eq, positionBranch_eq]
  · rw [averaging_eq, positionBranch_eq]
  · rw [averaging_eq, positionBranch_eq]

/-! ## C1: setMode -/

/-- C1: for every mode string `m` and every controller state `s`, `setMode(m)`
returns true exactly when `m` is `"position"`, `"torque"` or `"none"`; when it
returns true the stored mode is `m` and no other member changes; when it returns
false the whole controller state is as before; and after a successful
`setMode("position")` the next cycle with joint-state data takes the position
branch (its torques are the bang-bang torques of the position loop). -/
theorem C1_setMode_contract (kin : Kinematics nl nu) (s : Lwr_testdriver nl nu) (m : String) :
    ((s.setMode m).2.1 = true ↔ (m = "position" ∨ m = "torque" ∨ m = "none")) ∧
    ((s.setMode m).2.1 = true →
      (s.setMode m).1.mode = m ∧ (s.setMode m).1 = { s with mode := m }) ∧
    ((s.setMode m).2.1 = false →
      (s.setMode m).1.mode = s.mode ∧ (s.setMode m).1 = s) ∧
    ((s.setMode "position").2.1 = true ∧
      ∀ inp : CycleInput, inp.flow ≠ FlowStatus.NoData →
        ((s.setMode "position").1.updateHook kin inp).1.tau =
          fun i => bangBang (s.target_angles i) (inp.sample.angles i)
            s.positioning_torque s.epsilon) := by
  refine ⟨?_, ?_, ?_, ?_, ?_⟩
  · unfold Lwr_testdriver.setMode
    by_cases h : m = "position" ∨ m = "torque" ∨ m = "none"
    · simp [h]
    · simp [h]
  · unfold Lwr_testdriver.setMode
    by_cases h : m = "position" ∨ m = "torque" ∨ m = "none"
    · simp [h]
    · simp [h]
  · unfold Lwr_testdriver.setMode
    by_cases h : m = "position" ∨ m = "torque" ∨ m = "none"
    · simp [h]
    · simp [h]
  · simp [Lwr_testdriver.setMode]
  · intro inp hflow
    have h := (updateHook_position kin (s.setMode "position").1 inp
      (by simp [Lwr_testdriver.setMode]) hflow).1
    rw [h]
    simp [Lwr_testdriver.setMode]

/-- C1, on a freshly constructed driver (mode `"none"`): `setMode("banana")`
fails and leaves the driver as it was; `setMode("position")` succeeds, stores
`"position"`, and the next cycle (all angles 0, targets as constructed) commands
the positioning torque `+1` on joint 0, whose target is above the angle, and `-1`
on joint 3, whose target is below. -/
theorem C1_setMode_contract_witness :
    (fresh.setMode "banana").2.1 = false ∧
    (fresh.setMode "banana").1.mode = "none" ∧
    (fresh.setMode "banana").1 = fresh ∧
    (fresh.setMode "position").2.1 = true ∧
    (fresh.setMode "position").1.mode = "position" ∧
    ((fresh.setMode "position").1.updateHook sampleKin (sampleInput 0 0 0)).1.tau 0 = 1 ∧
    ((fresh.setMode "position").1.updateHook sampleKin (sampleInput 0 0 0)).1.tau 3 = -1 := by
  have hb := C1_setMode_contract sampleKin fresh "banana"
  have hp := C1_setMode_contract sampleKin fresh "position"
  have hbf : (fresh.setMode "banana").2.1 = false := by
    cases hret : (fresh.setMode "banana").2.1 with
    | false => rfl
    | true =>
      have h := hb.1.mp hret
      revert h
      decide
  have hpt : (fresh.setMode "position").2.1 = true := hp.1.mpr (Or.inl rfl)
  have hcyc := hp.2.2.2.2 (sampleInput 0 0 0) (by decide)
  refine ⟨hbf, ?_, (hb.2.2.1 hbf).2, hpt, (hp.2.1 hpt).1, ?_, ?_⟩
  · rw [(hb.2.2.1 hbf).1]; rfl
  · rw [hcyc]
    norm_num [bangBang, fresh, Lwr_testdriver.construct, sampleInput]
  · rw [hcyc]
    norm_num [bangBang, fresh, Lwr_testdriver.construct, sampleInput]

/-! ## C2, C3: the position branch of a cycle -/

/-- C2: for every controller state in mode `"position"` (so for every target
vector, torque magnitude `T = positioning_torque` and tolerance
`eps = epsilon`) and every cycle that receives joint-state data (so for every
current-angle vector), the cycle sets, for each of the 7 joints `i`, `tau[i]` to
`+T` if `target[i] - current[i] > eps`, else to `-T` if
`target[i] - current[i] < -eps`, else to `0`; the in-position count after the
cycle is the number of joints in the third case; and the vector written to the
torque output is this `tau`. -/
theorem C2_position_cycle (kin : Kinematics nl nu) (s : Lwr_testdriver nl nu) (inp : CycleInput)
    (hmode : s.mode = "position") (hflow : inp.flow ≠ FlowStatus.NoData) :
    (∀ i : Fin 7, (s.updateHook kin inp).1.tau i =
      if s.target_angles i - inp.sample.angles i > s.epsilon then s.positioning_torque
      else if s.target_angles i - inp.sample.angles i < - s.epsilon then - s.positioning_torque
      else 0) ∧
    (s.updateHook kin inp).1.in_position =
      ((Finset.univ.filter (fun i : Fin 7 =>
        ¬ (s.target_angles i - inp.sample.angles i > s.epsilon) ∧
        ¬ (s.target_angles i - inp.sample.angles i < - s.epsilon))).card : ℤ) ∧
    (s.updateHook kin inp).2.written = some (s.updateHook kin inp).1.tau := by
  obtain ⟨h1, h2, h3⟩ := updateHook_position kin s inp hmode hflow
  refine ⟨?_, ?_, ?_⟩
  · intro i
    rw [h1]
    rfl
  · rw [h2]
    rfl
  · rw [h3, h1]

/-- C2, on the constructed driver (tolerance 0.005, torque magnitude 1.0) put in
position mode with every target at 1 rad: with every angle at 0.9 rad the gap
is +0.1 rad on each joint, every joint is commanded +1.0 and none is in
position. -/
theorem C2_position_cycle_witness :
    (∀ i : Fin 7,
      (Lwr_testdriver.updateHook sampleKin
        { fresh with mode := "position", target_angles := fun _ => 1 }
        (sampleInput (9 / 10) 0 0)).1.tau i = 1) ∧
    (Lwr_testdriver.updateHook sampleKin
        { fresh with mode := "position", target_angles := fun _ => 1 }
        (sampleInput (9 / 10) 0 0)).1.in_position = 0 := by
  have h := C2_position_cycle sampleKin
    { fresh with mode := "position", target_angles := fun _ => 1 }
    (sampleInput (9 / 10) 0 0) rfl (by decide)
  refine ⟨?_, ?_⟩
  · intro i
    rw [h.1 i]
    norm_num [fresh, Lwr_testdriver.construct, sampleInput]
  · rw [h.2.1]
    norm_num [fresh, Lwr_testdriver.construct, sampleInput]

/-- C3: for every controller state in mode `"position"` with tolerance
`epsilon >= 0` (any torque magnitude, any 7-element target vector `a`), a cycle
whose joint-state data has the angles equal to the targets sets the torque
vector to all zeros, counts exactly 7 joints in position, and writes the zero
vector to the torque output. -/
theorem C3_position_at_target (kin : Kinematics nl nu) (s : Lwr_testdriver nl nu)
    (inp : CycleInput) (hmode : s.mode = "position") (hflow : inp.flow ≠ FlowStatus.NoData)
    (heps : 0 ≤ s.epsilon) (hsame : inp.sample.angles = s.target_angles) :
    (s.updateHook kin inp).1.tau = (fun _ => 0) ∧
    (s.updateHook kin inp).1.in_position = 7 ∧
    (s.updateHook kin inp).2.written = some (fun _ => 0) := by
  obtain ⟨h1, h2, h3⟩ := updateHook_position kin s inp hmode hflow
  have hb : ∀ i : Fin 7, bangBang (s.target_angles i) (inp.sample.angles i)
      s.positioning_torque s.epsilon = 0 := by
    intro i
    unfold bangBang
    rw [hsame, sub_self]
    have h1 : ¬ (0 > s.epsilon) := not_lt.mpr heps
    have h2 : ¬ ((0 : ℚ) < - s.epsilon) := by
      intro h; linarith
    simp [h1, h2]
  have hc : (Finset.univ.filter (fun i : Fin 7 =>
      inBand (s.target_angles i) (inp.sample.angles i) s.epsilon)) = Finset.univ := by
    apply Finset.filter_true_of_mem
    intro i _
    unfold inBand
    rw [hsame, sub_self]
    constructor
    · exact not_lt.mpr heps
    · intro h; linarith
  refine ⟨?_, ?_, ?_⟩
  · rw [h1]; funext i; exact hb i
  · rw [h2, hc]; simp
  · rw [h3]; congr 1; funext i; exact hb i

/-- C3, at target = current = [1,1,1,1,1,1,1] with the constructed tolerance
0.005: all-zero torque and 7 joints in position. -/
theorem C3_position_at_target_witness :
    (Lwr_testdriver.updateHook sampleKin
        { fresh with mode := "position", target_angles := fun _ => 1 }
        (sampleInput 1 0 0)).1.tau = (fun _ => 0) ∧
    (Lwr_testdriver.updateHook sampleKin
        { fresh with mode := "position", target_angles := fun _ => 1 }
        (sampleInput 1 0 0)).1.in_position = 7 ∧
    (Lwr_testdriver.updateHook sampleKin
        { fresh with mode := "position", target_angles := fun _ => 1 }
        (sampleInput 1 0 0)).2.written = some (fun _ => 0) :=
  C3_position_at_target sampleKin
    { fresh with mode := "position", target_angles := fun _ => 1 }
    (sampleInput 1 0 0) rfl (by decide)
    (by norm_num [fresh, Lwr_testdriver.construct]) rfl

/-! ## C4, C5: controlPID -/

/-- C4: for every controller state (previous error, current error, integral and
gains `k_p`, `k_i`, `k_d`) and all vectors `target`, `current` of the lower
chain's length, one call `controlPID(target, current)` computes
`error = target - current`, returns
`k_p*error + k_i*(old integral + error) + k_d*(error - old current error)`, and
leaves the state with integral = old integral + error, current error = error,
previous error = the current error before the call (the error of the preceding
call), every other member as before; hence the next call's derivative term uses
this call's error. -/
theorem C4_controlPID_step (s : Lwr_testdriver nl nu) (target current : Vec nl) :
    (s.controlPID target current).2 =
      (fun i => s.k_p * (target i - current i)
        + s.k_i * (s.e_total i + (target i - current i))
        + s.k_d * ((target i - current i) - s.e_current i)) ∧
    (s.controlPID target current).1.e_total = (fun i => s.e_total i + (target i - current i)) ∧
    (s.controlPID target current).1.e_current = (fun i => target i - current i) ∧
    (s.controlPID target current).1.e_previous = s.e_current ∧
    (s.controlPID target current).1 =
      { s with
        e_previous := s.e_current
        e_current := fun i => target i - current i
        e_total := fun i => s.e_total i + (target i - current i) } ∧
    (∀ target2 current2 : Vec nl,
      ((s.controlPID target current).1.controlPID target2 current2).2 =
        (fun i => s.k_p * (target2 i - current2 i)
          + s.k_i * (s.e_total i + (target i - current i) + (target2 i - current2 i))
          + s.k_d * ((target2 i - current2 i) - (target i - current i))) ∧
      ((s.controlPID target current).1.controlPID target2 current2).1.e_previous =
        (fun i => target i - current i)) := by
  refine ⟨rfl, rfl, rfl, rfl, rfl, ?_⟩
  intro target2 current2
  exact ⟨rfl, rfl⟩

theorem controlPID_result (s : Lwr_testdriver nl nu) (target current : Vec nl) (i : Fin nl) :
    (s.controlPID target current).2 i =
      s.k_p * (target i - current i)
        + s.k_i * (s.e_total i + (target i - current i))
        + s.k_d * ((target i - current i) - s.e_current i) :=
  rfl

theorem controlPID_gains (s : Lwr_testdriver nl nu) (target current : Vec nl) :
    (s.controlPID target current).1.k_p = s.k_p ∧
    (s.controlPID target current).1.k_i = s.k_i ∧
    (s.controlPID target current).1.k_d = s.k_d :=
  ⟨rfl, rfl, rfl⟩

/-- C5: with `k_i = 0` and `k_d = 0`, for every stored PID state and every run of
calls of `controlPID`, each call returns exactly `k_p * (target - current)` for
its own arguments, whatever the calls before it were. -/
theorem C5_proportional_only (s : Lwr_testdriver nl nu) (calls : List (Vec nl × Vec nl))
    (hi : s.k_i = 0) (hd : s.k_d = 0) :
    (s.controlPIDs calls).2 =
      calls.map (fun tc => fun i => s.k_p * (tc.1 i - tc.2 i)) := by
  induction calls generalizing s with
  | nil => rfl
  | cons tc rest ih =>
    obtain ⟨hp1, hi1, hd1⟩ := controlPID_gains s tc.1 tc.2
    have hrest := ih (s.controlPID tc.1 tc.2).1 (hi1.trans hi) (hd1.trans hd)
    show (s.controlPID tc.1 tc.2).2 :: ((s.controlPID tc.1 tc.2).1.controlPIDs rest).2 = _
    rw [hrest, hp1, List.map_cons]
    congr 1
    funext i
    rw [controlPID_result, hi, hd]
    ring

/-- C5, with `k_p = 2`, `k_i = k_d = 0`, target 0 and current 1 on each of the 4
lower joints: every one of three successive calls returns -2 on every joint. -/
theorem C5_proportional_only_witness :
    (Lwr_testdriver.controlPIDs { fresh with k_p := 2, k_i := 0, k_d := 0 }
      [(fun _ => 0, fun _ => 1), (fun _ => 0, fun _ => 1), (fun _ => 0, fun _ => 1)]).2 =
      [fun _ => -2, fun _ => -2, fun _ => -2] := by
  rw [C5_proportional_only { fresh with k_p := 2, k_i := 0, k_d := 0 } _ rfl rfl]
  norm_num

/-! ## C6, C7, C8: the torque mapping -/

theorem finRange_three : List.finRange 3 = [0, 1, 2] := rfl

/-- The two nested loops, run on the zero matrix, produce the block-diagonal
matrix of the spec with both blocks equal to the rotation of the inverted
frame. -/
theorem htbLoop_zero (inv : Frame) : htbLoop inv 0 = blockDiag inv.M := by
  funext a b
  fin_cases a <;> fin_cases b <;>
    simp [htbLoop, htbBody, setCoeff, finRange_three, blockDiag, Frame.get]

theorem computeTorquesUpper_result (kin : Kinematics nl nu) (s : Lwr_testdriver nl nu)
    (axis : Vec 6) (magnitude : ℚ) :
    (s.computeTorquesUpper kin axis magnitude).2 =
      fun k => ((blockDiag (kin.upper.JntToCart s.q_upper).Inverse.M
        * kin.upper.JntToJac s.q_upper).transpose.mulVec axis) k * magnitude := by
  unfold Lwr_testdriver.computeTorquesUpper
  simp only [htbLoop_zero]

theorem computeTorquesLower_result (kin : Kinematics nl nu) (s : Lwr_testdriver nl nu)
    (axis : Vec 6) (magnitude : ℚ) :
    (s.computeTorquesLower kin axis magnitude).2 =
      if s.elbow_to_base then
        fun k => ((blockDiag (kin.lower.JntToCart s.q_lower).Inverse.M
          * kin.lower.JntToJac s.q_lower).transpose.mulVec axis) k * magnitude
      else
        fun k => ((kin.lower.JntToJac s.q_lower).transpose.mulVec axis) k * magnitude := by
  unfold Lwr_testdriver.computeTorquesLower
  simp only [htbLoop_zero]

/-- C6: for every controller state (so every joint vector `q_upper`, `q_lower`),
all solvers and every wrench `w`, with the trailing magnitude factor equal to 1
(the value the cycle's calls use), `computeTorquesUpper` returns
`(H * J(q))^T * w`, and so does `computeTorquesLower` when `elbow_to_base` is on,
where `J(q)` is the chain's Jacobian and `H` is the 6x6 matrix whose top-left and
bottom-right 3x3 blocks both equal the rotation sub-matrix of the inverse of the
chain's end-effector pose `F(q)` and whose two off-diagonal blocks are zero. -/
theorem C6_frame_transformed_mapping (kin : Kinematics nl nu) (s : Lwr_testdriver nl nu)
    (w : Vec 6) :
    (s.computeTorquesUpper kin w 1).2 =
      (blockDiag (kin.upper.JntToCart s.q_upper).Inverse.M
        * kin.upper.JntToJac s.q_upper).transpose.mulVec w ∧
    (s.elbow_to_base = true →
      (s.computeTorquesLower kin w 1).2 =
        (blockDiag (kin.lower.JntToCart s.q_lower).Inverse.M
          * kin.lower.JntToJac s.q_lower).transpose.mulVec w) ∧
    (∀ (f : Frame) (i j : Fin 3),
      f.Inverse.M i j = f.Inverse.get ⟨i.val, by omega⟩ ⟨j.val, by omega⟩) := by
  refine ⟨?_, ?_, ?_⟩
  · rw [computeTorquesUpper_result]
    funext k
    rw [mul_one]
  · intro h
    rw [computeTorquesLower_result, h, if_pos rfl]
    funext k
    rw [mul_one]
  · intro f i j
    simp [Frame.get]

/-- C6, on the sample kinematics (tips a quarter turn about z away from the
base, Jacobian entries `i + 1` at the zero joint vector) with the wrench
`(1, 2, 0, 0, 0, 1)`: every joint of either chain gets
`1*2 + 2*(-1) + 1*6 = 6`. -/
theorem C6_frame_transformed_mapping_witness :
    (Lwr_testdriver.computeTorquesUpper sampleKin { fresh with elbow_to_base := true }
      ![1, 2, 0, 0, 0, 1] 1).2 = (fun _ => 6) ∧
    (Lwr_testdriver.computeTorquesLower sampleKin { fresh with elbow_to_base := true }
      ![1, 2, 0, 0, 0, 1] 1).2 = (fun _ => 6) := by
  have h := C6_frame_transformed_mapping sampleKin { fresh with elbow_to_base := true }
    ![1, 2, 0, 0, 0, 1]
  refine ⟨?_, ?_⟩
  · rw [h.1]
    funext k
    simp [Matrix.mulVec, Matrix.dotProduct, Matrix.mul_apply, Fin.sum_univ_succ, blockDiag,
      sampleKin, sampleSolvers, quarterTurn, Frame.Inverse, fresh, Lwr_testdriver.construct,
      Lwr_testdriver.zeroed]
    norm_num
  · rw [h.2.1 rfl]
    funext k
    simp [Matrix.mulVec, Matrix.dotProduct, Matrix.mul_apply, Fin.sum_univ_succ, blockDiag,
      sampleKin, sampleSolvers, quarterTurn, Frame.Inverse, fresh, Lwr_testdriver.construct,
      Lwr_testdriver.zeroed]
    norm_num

/-- C7: with `elbow_to_base` off, for every controller state, wrench `w` and
solvers, `computeTorquesLower` returns `J(q)^T * w` for the raw lower-chain
Jacobian `J(q)`; and replacing the forward-kinematics solver by any other one
(any end-effector pose whatever) leaves the returned torque vector the same. -/
theorem C7_raw_jacobian (kin : Kinematics nl nu) (s : Lwr_testdriver nl nu) (w : Vec 6)
    (hoff : s.elbow_to_base = false) :
    (s.computeTorquesLower kin w 1).2 = (kin.lower.JntToJac s.q_lower).transpose.mulVec w ∧
    (∀ (fk : Vec nl → Frame) (magnitude : ℚ),
      (s.computeTorquesLower { kin with lower := { kin.lower with JntToCart := fk } }
        w magnitude).2 = (s.computeTorquesLower kin w magnitude).2) := by
  refine ⟨?_, ?_⟩
  · rw [computeTorquesLower_result, hoff]
    funext k
    simp
  · intro fk magnitude
    rw [computeTorquesLower_result, computeTorquesLower_result, hoff]
    simp

/-- C7, on the constructed driver (toggle off) with the wrench
`(1, 2, 0, 0, 0, 1)`: the lower chain gets `1*1 + 2*2 + 1*6 = 11` on every
joint, with the tip a quarter turn away and with the tip aligned to the base
alike. -/
theorem C7_raw_jacobian_witness :
    (Lwr_testdriver.computeTorquesLower sampleKin { fresh with elbow_to_base := false }
      ![1, 2, 0, 0, 0, 1] 1).2 = (fun _ => 11) ∧
    (Lwr_testdriver.computeTorquesLower
      { sampleKin with lower := { sampleKin.lower with JntToCart := fun _ => Frame.Identity } }
      { fresh with elbow_to_base := false } ![1, 2, 0, 0, 0, 1] 1).2 = (fun _ => 11) := by
  have h := C7_raw_jacobian sampleKin { fresh with elbow_to_base := false }
    ![1, 2, 0, 0, 0, 1] rfl
  have hval : (sampleKin.lower.JntToJac
      (Lwr_testdriver.q_lower { fresh with elbow_to_base := false })).transpose.mulVec
      ![1, 2, 0, 0, 0, 1] = (fun _ => 11) := by
    funext k
    simp [Matrix.mulVec, Matrix.dotProduct, Fin.sum_univ_succ, sampleKin, sampleSolvers, fresh,
      Lwr_testdriver.construct, Lwr_testdriver.zeroed]
    norm_num
  refine ⟨?_, ?_⟩
  · rw [h.1, hval]
  · rw [h.2 (fun _ => Frame.Identity) 1, h.1, hval]

/-! ## C9, C10: ramp sampling -/

theorem computeTorquesUpper_zero (kin : Kinematics nl nu) (s : Lwr_testdriver nl nu)
    (magnitude : ℚ) :
    (s.computeTorquesUpper kin (fun _ => 0) magnitude).2 = (fun _ => 0) := by
  have hz : (fun _ => 0 : Vec 6) = 0 := rfl
  rw [computeTorquesUpper_result, hz]
  funext j
  simp

theorem computeTorquesLower_zero (kin : Kinematics nl nu) (s : Lwr_testdriver nl nu)
    (magnitude : ℚ) :
    (s.computeTorquesLower kin (fun _ => 0) magnitude).2 = (fun _ => 0) := by
  have hz : (fun _ => 0 : Vec 6) = 0 := rfl
  rw [computeTorquesLower_result, hz]
  split_ifs
  · funext j
    simp
  · funext j
    simp

/-- In a torque-mode cycle with the hand ramp flag set, the upper half of the
cycle hands `rampedHand`, evaluated with `current_time_hand` set to the clock
reading, to `computeTorquesUpper`. -/
theorem torqueUpper_ramping (kin : Kinematics nl nu) (s : Lwr_testdriver nl nu)
    (inp : CycleInput) (h : s.ramp_forces_hand = true) :
    s.torqueUpper kin inp =
      { (Lwr_testdriver.computeTorquesUpper kin { s with current_time_hand := inp.nsecs_hand }
          (Lwr_testdriver.rampedHand { s with current_time_hand := inp.nsecs_hand })
          defaultMagnitude).1 with
        tau := Vec.setTail s.tau
          (Lwr_testdriver.computeTorquesUpper kin { s with current_time_hand := inp.nsecs_hand }
            (Lwr_testdriver.rampedHand { s with current_time_hand := inp.nsecs_hand })
            defaultMagnitude).2 } := by
  unfold Lwr_testdriver.torqueUpper
  rw [if_pos h]
  rfl

/-- In a torque-mode cycle without PID and with the elbow ramp flag set, the
lower half of the cycle hands `rampedElbow`, evaluated with
`current_time_elbow` set to the clock reading, to `computeTorquesLower`. -/
theorem torqueLower_ramping (kin : Kinematics nl nu) (s : Lwr_testdriver nl nu)
    (inp : CycleInput) (hpid : s.enable_pid = false) (h : s.ramp_forces_elbow = true) :
    s.torqueLower kin inp =
      { (Lwr_testdriver.computeTorquesLower kin { s with current_time_elbow := inp.nsecs_elbow }
          (Lwr_testdriver.rampedElbow { s with current_time_elbow := inp.nsecs_elbow })
          defaultMagnitude).1 with
        tau := Vec.setHead s.tau
          (Lwr_testdriver.computeTorquesLower kin { s with current_time_elbow := inp.nsecs_elbow }
            (Lwr_testdriver.rampedElbow { s with current_time_elbow := inp.nsecs_elbow })
            defaultMagnitude).2 } := by
  unfold Lwr_testdriver.torqueLower
  rw [if_neg (by simp [hpid]), if_pos h]
  rfl

/-- The wrench sampled from a hand ramp at clock reading `now`, after
`rampForcesUpper(time, x, y, z)` was called at clock reading `t0` on state `s`:
the hand wrench of `s` (the snapshot) times `(now - t0) / time`. -/
theorem rampedHand_after_ramp (s : Lwr_testdriver nl nu) (t0 time x y z now : ℚ) :
    Lwr_testdriver.rampedHand { s.rampForcesUpper t0 time x y z with current_time_hand := now } =
      fun i => s.hand_forces i * (now - t0) / time :=
  rfl

/-- The wrench sampled from an elbow ramp at clock reading `now`, after
`rampForcesLower(time, x, y, z)` was called at clock reading `t0` on state `s`:
the elbow wrench of `s` (the snapshot) times `(now - t0) / time`. -/
theorem rampedElbow_after_ramp (s : Lwr_testdriver nl nu) (t0 time x y z now : ℚ) :
    Lwr_testdriver.rampedElbow
        { s.rampForcesLower t0 time x y z with current_time_elbow := now } =
      fun i => s.elbow_forces i * (now - t0) / time :=
  rfl


/-- The torque vector a torque-mode branch leaves: zero, then the lower half
overwritten by the PID correction or by the lower-chain mapping, then the upper
half overwritten by the upper-chain mapping. -/
theorem torqueBranch_tau (kin : Kinematics nl nu) (s : Lwr_testdriver nl nu) (inp : CycleInput) :
    (s.torqueBranch kin inp).tau =
      Vec.setTail
        (Vec.setHead (fun _ => 0)
          (if s.enable_pid then
            (s.controlPID (fun _ => 0) (s.joint_state_in_data.velocities.head nl)).2
          else if s.ramp_forces_elbow then
            (s.computeTorquesLower kin
              (Lwr_testdriver.rampedElbow { s with current_time_elbow := inp.nsecs_elbow })
              defaultMagnitude).2
          else (s.computeTorquesLower kin s.elbow_forces defaultMagnitude).2))
        (if s.ramp_forces_hand then
          (s.computeTorquesUpper kin
            (Lwr_testdriver.rampedHand { s with current_time_hand := inp.nsecs_hand })
            defaultMagnitude).2
        else (s.computeTorquesUpper kin s.hand_forces defaultMagnitude).2) := by
  unfold Lwr_testdriver.torqueBranch Lwr_testdriver.torqueUpper Lwr_testdriver.torqueLower
  by_cases hp : s.enable_pid = true <;> by_cases he : s.ramp_forces_elbow = true <;>
    by_cases hh : s.ramp_forces_hand = true <;>
    simp only [hp, he, hh, if_true, if_false, Bool.false_eq_true,
      computeTorquesUpper_result, computeTorquesLower_result] <;> rfl

/-- A cycle with data in mode `"torque"`: the torque vector after the cycle is
the one the torque branch leaves, and it is what the cycle writes. -/
theorem updateHook_torque (kin : Kinematics nl nu) (s : Lwr_testdriver nl nu) (inp : CycleInput)
    (hmode : s.mode = "torque") (hflow : inp.flow ≠ FlowStatus.NoData) :
    (s.updateHook kin inp).1.tau =
      (Lwr_testdriver.torqueBranch kin
        { s with
          joint_state_in_flow := inp.flow
          joint_state_in_data := inp.sample
          q_lower := inp.sample.angles.head nl
          q_upper := inp.sample.angles.tail nu } inp).tau ∧
    (s.updateHook kin inp).2.written = some (s.updateHook kin inp).1.tau := by
  refine ⟨?_, ?_⟩
  · unfold Lwr_testdriver.updateHook
    simp only [hflow, if_false, hmode, if_true]
    rw [averaging_eq]
  · unfold Lwr_testdriver.updateHook
    simp only [hflow, if_false]

/-- A ramp whose stored vector `hand_forces_diff` is zero samples the zero
wrench at every time. -/
theorem rampedHand_of_diff_zero (s : Lwr_testdriver nl nu)
    (h : s.hand_forces_diff = (fun _ => 0)) : s.rampedHand = (fun _ => 0) := by
  funext i
  simp [Lwr_testdriver.rampedHand, h]

/-- C9, the code at the failing input: on the constructed driver (hand wrench
zero) in torque mode, `rampHandForces(2, 1, 0, 0)` at clock 0 installs the live
wrench `(1, 0, 0, 0, 0, 0)` and stores the zero snapshot in `hand_forces_diff`;
a cycle at clock 1 then samples `hand_forces_diff * (1 - 0) / 2`, the zero
wrench, and commands zero torque, whereas `delta * (now - t0) / d` with
`delta` = live wrench minus snapshot is `(1/2, 0, 0, 0, 0, 0)`, which the torque
mapping would turn into torque 1 on each upper joint. -/
theorem C9_ramp_sample_at_failing_input :
    restRamp.mode = "torque" ∧
    restRamp.ramp_forces_hand = true ∧
    restRamp.hand_forces = ![1, 0, 0, 0, 0, 0] ∧
    restRamp.hand_forces_diff = (fun _ => 0) ∧
    Lwr_testdriver.rampedHand { restRamp with current_time_hand := 1 } = (fun _ => 0) ∧
    (fun i => (restRamp.hand_forces i - restRamp.hand_forces_diff i)
        * (1 - restRamp.start_time_hand) / restRamp.total_time_hand)
      = ![1 / 2, 0, 0, 0, 0, 0] ∧
    (restRamp.updateHook sampleKin (sampleInput 0 0 1)).1.tau = (fun _ => 0) ∧
    (restRamp.updateHook sampleKin (sampleInput 0 0 1)).2.written = some (fun _ => 0) ∧
    (restRamp.computeTorquesUpper sampleKin ![1 / 2, 0, 0, 0, 0, 0] defaultMagnitude).2
      = (fun _ => 1) := by
  have hforces : restRamp.hand_forces = ![1, 0, 0, 0, 0, 0] := by
    funext i
    fin_cases i <;> rfl
  have hdiff : restRamp.hand_forces_diff = (fun _ => 0) := by
    simp [restRamp, Lwr_testdriver.rampForcesUpper, Lwr_testdriver.setForceAxisUpper,
      Lwr_testdriver.setMode, fresh, Lwr_testdriver.construct]
  have hsample : Lwr_testdriver.rampedHand { restRamp with current_time_hand := 1 }
      = (fun _ => 0) := by
    funext i
    simp [Lwr_testdriver.rampedHand, hdiff]
  have htau : (restRamp.updateHook sampleKin (sampleInput 0 0 1)).1.tau = (fun _ => 0) := by
    have hramp : restRamp.ramp_forces_hand = true := rfl
    have hpid : restRamp.enable_pid = false := rfl
    have helb : restRamp.ramp_forces_elbow = false := rfl
    have hef : restRamp.elbow_forces = (fun _ => 0) := rfl
    rw [(updateHook_torque sampleKin restRamp (sampleInput 0 0 1) rfl (by decide)).1,
      torqueBranch_tau]
    simp only [hramp, hpid, helb, if_true, if_false, Bool.false_eq_true]
    rw [hef, computeTorquesLower_zero]
    rw [rampedHand_of_diff_zero, computeTorquesUpper_zero]
    · funext i
      simp [Vec.setTail, Vec.setHead]
    · exact hdiff
  refine ⟨?_, ?_, hforces, hdiff, hsample, ?_, htau, ?_, ?_⟩
  · simp [restRamp, Lwr_testdriver.rampForcesUpper, Lwr_testdriver.setForceAxisUpper,
      Lwr_testdriver.setMode]
  · simp [restRamp, Lwr_testdriver.rampForcesUpper]
  · rw [hforces, hdiff]
    funext i
    fin_cases i <;>
      norm_num [restRamp, Lwr_testdriver.rampForcesUpper, Lwr_testdriver.setForceAxisUpper]
  · rw [(updateHook_torque sampleKin restRamp (sampleInput 0 0 1) rfl (by decide)).2, htau]
  · rw [computeTorquesUpper_result]
    funext k
    simp [Matrix.mulVec, Matrix.dotProduct, Matrix.mul_apply, Fin.sum_univ_succ, blockDiag,
      sampleKin, sampleSolvers, quarterTurn, Frame.Inverse, defaultMagnitude, restRamp,
      Lwr_testdriver.rampForcesUpper, Lwr_testdriver.setForceAxisUpper, Lwr_testdriver.setMode,
      fresh, Lwr_testdriver.construct, Lwr_testdriver.zeroed]
    norm_num

/-- C10 fails as stated: on the constructed driver in torque mode with hand
force `(1, 0, 0)`, `rampHandForces(2, 3, 0, 0)` at clock 10 takes the snapshot
`p = (1, 0, 0, 0, 0, 0)` and installs the live wrench `(3, 0, 0, 0, 0, 0)`; the
wrench sampled at `now = 10` is the zero wrench, not `p`, and the wrench sampled
at `now = 10 + 2` is `(1, 0, 0, 0, 0, 0)`, not the live wrench. -/
theorem C10_ramp_endpoints_counterexample :
    loadedRamp.start_time_hand = 10 ∧
    loadedRamp.total_time_hand = 2 ∧
    ((fresh.setMode "torque").1.setForceAxisUpper 1 0 0).hand_forces = ![1, 0, 0, 0, 0, 0] ∧
    loadedRamp.hand_forces = ![3, 0, 0, 0, 0, 0] ∧
    Lwr_testdriver.rampedHand { loadedRamp with current_time_hand := 10 } = (fun _ => 0) ∧
    Lwr_testdriver.rampedHand { loadedRamp with current_time_hand := 10 + 2 }
      = ![1, 0, 0, 0, 0, 0] ∧
    ¬ (Lwr_testdriver.rampedHand { loadedRamp with current_time_hand := 10 }
        = ((fresh.setMode "torque").1.setForceAxisUpper 1 0 0).hand_forces) ∧
    ¬ (Lwr_testdriver.rampedHand { loadedRamp with current_time_hand := 10 + 2 }
        = loadedRamp.hand_forces) := by
  have hp : ((fresh.setMode "torque").1.setForceAxisUpper 1 0 0).hand_forces
      = ![1, 0, 0, 0, 0, 0] := by
    funext i
    fin_cases i <;> rfl
  have hlive : loadedRamp.hand_forces = ![3, 0, 0, 0, 0, 0] := by
    funext i
    fin_cases i <;> rfl
  have h0 : Lwr_testdriver.rampedHand { loadedRamp with current_time_hand := 10 }
      = (fun _ => 0) := by
    funext i
    simp [Lwr_testdriver.rampedHand, loadedRamp, Lwr_testdriver.rampForcesUpper,
      Lwr_testdriver.setForceAxisUpper]
  have h1 : Lwr_testdriver.rampedHand { loadedRamp with current_time_hand := 10 + 2 }
      = ![1, 0, 0, 0, 0, 0] := by
    rw [← hp]
    funext i
    simp [Lwr_testdriver.rampedHand, loadedRamp, Lwr_testdriver.rampForcesUpper,
      Lwr_testdriver.setForceAxisUpper]
  refine ⟨rfl, rfl, hp, hlive, h0, h1, ?_, ?_⟩
  · rw [h0, hp]
    intro h
    have := congrFun h 0
    norm_num at this
  · rw [h1, hlive]
    intro h
    have := congrFun h 0
    norm_num at this

/-- C10, amended: for every controller state, every ramp begun by
`rampForcesUpper` or `rampForcesLower` with duration `d > 0` at clock reading
`t0`, the wrench sampled at `now = t0` is the zero wrench, and the wrench sampled
at `now = t0 + d` is the vector the ramp stored in `hand_forces_diff`
(respectively `elbow_forces_diff`), taken with factor exactly one. -/
theorem C10_ramp_endpoints_amended (s : Lwr_testdriver nl nu) (t0 d x y z : ℚ) (hd : 0 < d) :
    Lwr_testdriver.rampedHand { s.rampForcesUpper t0 d x y z with current_time_hand := t0 }
      = (fun _ => 0) ∧
    Lwr_testdriver.rampedHand { s.rampForcesUpper t0 d x y z with current_time_hand := t0 + d }
      = (s.rampForcesUpper t0 d x y z).hand_forces_diff ∧
    Lwr_testdriver.rampedElbow { s.rampForcesLower t0 d x y z with current_time_elbow := t0 }
      = (fun _ => 0) ∧
    Lwr_testdriver.rampedElbow { s.rampForcesLower t0 d x y z with current_time_elbow := t0 + d }
      = (s.rampForcesLower t0 d x y z).elbow_forces_diff := by
  have hne : d ≠ 0 := ne_of_gt hd
  refine ⟨?_, ?_, ?_, ?_⟩
  · rw [rampedHand_after_ramp]
    funext i
    simp
  · rw [rampedHand_after_ramp]
    funext i
    show s.hand_forces i * (t0 + d - t0) / d = s.hand_forces i
    rw [add_sub_cancel_left, mul_div_assoc, div_self hne, mul_one]
  · rw [rampedElbow_after_ramp]
    funext i
    simp
  · rw [rampedElbow_after_ramp]
    funext i
    show s.elbow_forces i * (t0 + d - t0) / d = s.elbow_forces i
    rw [add_sub_cancel_left, mul_div_assoc, div_self hne, mul_one]

/-- C10 amended, on the driver with hand force `(1, 0, 0)` and a ramp of
duration 2 begun at clock 10: the sample at clock 10 is zero and the sample at
clock 12 is the stored ramp vector. -/
theorem C10_ramp_endpoints_amended_witness :
    Lwr_testdriver.rampedHand
        { ((fresh.setMode "torque").1.setForceAxisUpper 1 0 0).rampForcesUpper 10 2 3 0 0 with
          current_time_hand := 10 } = (fun _ => 0) ∧
    Lwr_testdriver.rampedHand
        { ((fresh.setMode "torque").1.setForceAxisUpper 1 0 0).rampForcesUpper 10 2 3 0 0 with
          current_time_hand := 10 + 2 }
      = (((fresh.setMode "torque").1.setForceAxisUpper 1 0 0).rampForcesUpper
          10 2 3 0 0).hand_forces_diff :=
  ⟨(C10_ramp_endpoints_amended ((fresh.setMode "torque").1.setForceAxisUpper 1 0 0)
      10 2 3 0 0 (by norm_num)).1,
   (C10_ramp_endpoints_amended ((fresh.setMode "torque").1.setForceAxisUpper 1 0 0)
      10 2 3 0 0 (by norm_num)).2.1⟩

/-- The lower half of the torque branch touches only the torque vector, the PID
errors, `current_time_elbow` and the scratch members of the lower chain. -/
theorem torqueLower_eq (kin : Kinematics nl nu) (s : Lwr_testdriver nl nu) (inp : CycleInput) :
    s.torqueLower kin inp =
      { s with
        tau := (s.torqueLower kin inp).tau
        e_previous := (s.torqueLower kin inp).e_previous
        e_current := (s.torqueLower kin inp).e_current
        e_total := (s.torqueLower kin inp).e_total
        current_time_elbow := (s.torqueLower kin inp).current_time_elbow
        tip_lower := (s.torqueLower kin inp).tip_lower
        inv_lower := (s.torqueLower kin inp).inv_lower
        htb_lower := (s.torqueLower kin inp).htb_lower
        j_lower := (s.torqueLower kin inp).j_lower
        j_htb_lower := (s.torqueLower kin inp).j_htb_lower
        ind_i := (s.torqueLower kin inp).ind_i
        ind_j := (s.torqueLower kin inp).ind_j } := by
  unfold Lwr_testdriver.torqueLower
  split_ifs <;> rfl

/-- The upper half of the torque branch touches only the torque vector,
`current_time_hand` and the scratch members of the upper chain. -/
theorem torqueUpper_eq (kin : Kinematics nl nu) (s : Lwr_testdriver nl nu) (inp : CycleInput) :
    s.torqueUpper kin inp =
      { s with
        tau := (s.torqueUpper kin inp).tau
        current_time_hand := (s.torqueUpper kin inp).current_time_hand
        tip_upper := (s.torqueUpper kin inp).tip_upper
        inv_upper := (s.torqueUpper kin inp).inv_upper
        htb_upper := (s.torqueUpper kin inp).htb_upper
        j_upper := (s.torqueUpper kin inp).j_upper
        j_htb_upper := (s.torqueUpper kin inp).j_htb_upper
        ind_i := (s.torqueUpper kin inp).ind_i
        ind_j := (s.torqueUpper kin inp).ind_j } := by
  unfold Lwr_testdriver.torqueUpper
  split_ifs <;> rfl

/-- The torque branch touches only the torque vector, the PID errors, the two
sampling times and the scratch members of the two chains. -/
theorem torqueBranch_eq (kin : Kinematics nl nu) (s : Lwr_testdriver nl nu) (inp : CycleInput) :
    s.torqueBranch kin inp =
      { s with
        tau := (s.torqueBranch kin inp).tau
        e_previous := (s.torqueBranch kin inp).e_previous
        e_current := (s.torqueBranch kin inp).e_current
        e_total := (s.torqueBranch kin inp).e_total
        current_time_elbow := (s.torqueBranch kin inp).current_time_elbow
        current_time_hand := (s.torqueBranch kin inp).current_time_hand
        tip_lower := (s.torqueBranch kin inp).tip_lower
        inv_lower := (s.torqueBranch kin inp).inv_lower
        htb_lower := (s.torqueBranch kin inp).htb_lower
        j_lower := (s.torqueBranch kin inp).j_lower
        j_htb_lower := (s.torqueBranch kin inp).j_htb_lower
        tip_upper := (s.torqueBranch kin inp).tip_upper
        inv_upper := (s.torqueBranch kin inp).inv_upper
        htb_upper := (s.torqueBranch kin inp).htb_upper
        j_upper := (s.torqueBranch kin inp).j_upper
        j_htb_upper := (s.torqueBranch kin inp).j_htb_upper
        ind_i := (s.torqueBranch kin inp).ind_i
        ind_j := (s.torqueBranch kin inp).ind_j } := by
  have hU := torqueUpper_eq kin
    (Lwr_testdriver.torqueLower kin { s with tau := fun _ => 0 } inp) inp
  have hL := torqueLower_eq kin { s with tau := fun _ => 0 } inp
  have h : s.torqueBranch kin inp =
      Lwr_testdriver.torqueUpper kin
        (Lwr_testdriver.torqueLower kin { s with tau := fun _ => 0 } inp) inp := rfl
  rw [h]
  generalize Lwr_testdriver.torqueUpper kin
    (Lwr_testdriver.torqueLower kin { s with tau := fun _ => 0 } inp) inp = u at hU ⊢
  generalize Lwr_testdriver.torqueLower kin { s with tau := fun _ => 0 } inp = l at hU hL
  rw [hU, hL]

/-- A cycle whose read yields no data: only the flow status is stored, an error
is logged and nothing is written. -/
theorem updateHook_nodata (kin : Kinematics nl nu) (s : Lwr_testdriver nl nu) (inp : CycleInput)
    (hflow : inp.flow = FlowStatus.NoData) :
    s.updateHook kin inp =
      ({ s with joint_state_in_flow := FlowStatus.NoData },
       { log := [LogEntry.Error "No joint state input"], written := none }) := by
  unfold Lwr_testdriver.updateHook
  simp only [hflow, if_true]

/-- A cycle whose read yields data, unfolded: after the branch selected by the
mode, the averaging block runs, and the torque vector is copied to the output
sample and written. -/
theorem updateHook_data (kin : Kinematics nl nu) (s : Lwr_testdriver nl nu) (inp : CycleInput)
    (hflow : inp.flow ≠ FlowStatus.NoData) :
    s.updateHook kin inp =
      ({ (s.dispatched kin inp).averaging.1 with
          torques_out_data := (s.dispatched kin inp).averaging.1.tau },
       { log := (s.dispatched kin inp).averaging.2
         written := some (s.dispatched kin inp).averaging.1.tau }) := by
  unfold Lwr_testdriver.updateHook Lwr_testdriver.dispatched Lwr_testdriver.afterRead
  simp only [hflow, if_false]

/-- The branch selected by the mode touches only the input members, the torque
vector, the PID errors, the sampling times, the scratch members of the torque
mapping and the two members of the position loop. -/
theorem dispatched_eq (kin : Kinematics nl nu) (s : Lwr_testdriver nl nu) (inp : CycleInput) :
    s.dispatched kin inp =
      { s with
        joint_state_in_flow := inp.flow
        joint_state_in_data := inp.sample
        q_lower := inp.sample.angles.head nl
        q_upper := inp.sample.angles.tail nu
        tau := (s.dispatched kin inp).tau
        e_previous := (s.dispatched kin inp).e_previous
        e_current := (s.dispatched kin inp).e_current
        e_total := (s.dispatched kin inp).e_total
        current_time_elbow := (s.dispatched kin inp).current_time_elbow
        current_time_hand := (s.dispatched kin inp).current_time_hand
        tip_lower := (s.dispatched kin inp).tip_lower
        inv_lower := (s.dispatched kin inp).inv_lower
        htb_lower := (s.dispatched kin inp).htb_lower
        j_lower := (s.dispatched kin inp).j_lower
        j_htb_lower := (s.dispatched kin inp).j_htb_lower
        tip_upper := (s.dispatched kin inp).tip_upper
        inv_upper := (s.dispatched kin inp).inv_upper
        htb_upper := (s.dispatched kin inp).htb_upper
        j_upper := (s.dispatched kin inp).j_upper
        j_htb_upper := (s.dispatched kin inp).j_htb_upper
        ind_i := (s.dispatched kin inp).ind_i
        ind_j := (s.dispatched kin inp).ind_j
        in_position := (s.dispatched kin inp).in_position
        joint_counter := (s.dispatched kin inp).joint_counter } := by
  unfold Lwr_testdriver.dispatched
  split_ifs
  · have h := torqueBranch_eq kin (s.afterRead inp) inp
    generalize Lwr_testdriver.torqueBranch kin (s.afterRead inp) inp = b at h ⊢
    rw [h]
    rfl
  · have h := positionBranch_eq (s.afterRead inp)
    generalize Lwr_testdriver.positionBranch (s.afterRead inp) = b at h ⊢
    rw [h]
    rfl
  · rfl

/-- The members no cycle ever changes. -/
theorem updateHook_frame (kin : Kinematics nl nu) (s : Lwr_testdriver nl nu) (inp : CycleInput) :
    (s.updateHook kin inp).1.mode = s.mode ∧
    (s.updateHook kin inp).1.hand_forces = s.hand_forces ∧
    (s.updateHook kin inp).1.elbow_forces = s.elbow_forces ∧
    (s.updateHook kin inp).1.ramp_forces_hand = s.ramp_forces_hand ∧
    (s.updateHook kin inp).1.ramp_forces_elbow = s.ramp_forces_elbow ∧
    (s.updateHook kin inp).1.hand_forces_diff = s.hand_forces_diff ∧
    (s.updateHook kin inp).1.elbow_forces_diff = s.elbow_forces_diff ∧
    (s.updateHook kin inp).1.start_time_hand = s.start_time_hand ∧
    (s.updateHook kin inp).1.total_time_hand = s.total_time_hand ∧
    (s.updateHook kin inp).1.end_time_hand = s.end_time_hand ∧
    (s.updateHook kin inp).1.start_time_elbow = s.start_time_elbow ∧
    (s.updateHook kin inp).1.total_time_elbow = s.total_time_elbow ∧
    (s.updateHook kin inp).1.end_time_elbow = s.end_time_elbow ∧
    (s.updateHook kin inp).1.enable_pid = s.enable_pid ∧
    (s.updateHook kin inp).1.k_p = s.k_p ∧
    (s.updateHook kin inp).1.k_i = s.k_i ∧
    (s.updateHook kin inp).1.k_d = s.k_d ∧
    (s.updateHook kin inp).1.elbow_to_base = s.elbow_to_base ∧
    (s.updateHook kin inp).1.target_angles = s.target_angles ∧
    (s.updateHook kin inp).1.epsilon = s.epsilon ∧
    (s.updateHook kin inp).1.positioning_torque = s.positioning_torque ∧
    (s.updateHook kin inp).1.model_loaded = s.model_loaded := by
  by_cases hflow : inp.flow = FlowStatus.NoData
  · rw [updateHook_nodata kin s inp hflow]
    simp only [and_self]
  · rw [updateHook_data kin s inp hflow]
    have h := dispatched_eq kin s inp
    generalize s.dispatched kin inp = d at h ⊢
    have ha := averaging_eq d
    generalize d.averaging = a at ha ⊢
    rw [ha, h]
    simp only [and_self]
/-! ## C11: beginning a ramp -/

/-- C11: for every controller state, clock reading `nsecs`, duration `time` and
triple `(x, y, z)`, `rampForcesUpper(time, x, y, z)` leaves the state with the
hand ramp snapshot `hand_forces_diff` equal to the hand wrench before the call
(all 6 components), the stored duration equal to `time`, the start time equal to
the clock reading, hand wrench components 0..2 equal to `(x, y, z)`, components
3..5 as before the call, and the hand ramp flag set; besides these members and
`end_time_hand` nothing changes, in particular not the elbow wrench, the elbow
ramp state, the mode or the PID state. The same holds for `rampForcesLower` with
hand and elbow exchanged. -/
theorem C11_rampForces_effect (s : Lwr_testdriver nl nu) (nsecs time x y z : ℚ) :
    ((s.rampForcesUpper nsecs time x y z).hand_forces_diff = s.hand_forces ∧
     (s.rampForcesUpper nsecs time x y z).total_time_hand = time ∧
     (s.rampForcesUpper nsecs time x y z).start_time_hand = nsecs ∧
     (s.rampForcesUpper nsecs time x y z).hand_forces 0 = x ∧
     (s.rampForcesUpper nsecs time x y z).hand_forces 1 = y ∧
     (s.rampForcesUpper nsecs time x y z).hand_forces 2 = z ∧
     (s.rampForcesUpper nsecs time x y z).hand_forces 3 = s.hand_forces 3 ∧
     (s.rampForcesUpper nsecs time x y z).hand_forces 4 = s.hand_forces 4 ∧
     (s.rampForcesUpper nsecs time x y z).hand_forces 5 = s.hand_forces 5 ∧
     (s.rampForcesUpper nsecs time x y z).ramp_forces_hand = true ∧
     s.rampForcesUpper nsecs time x y z =
       { s with
         total_time_hand := time
         start_time_hand := nsecs
         end_time_hand := nsecs + time
         hand_forces_diff := s.hand_forces
         hand_forces := (s.rampForcesUpper nsecs time x y z).hand_forces
         ramp_forces_hand := true }) ∧
    ((s.rampForcesLower nsecs time x y z).elbow_forces_diff = s.elbow_forces ∧
     (s.rampForcesLower nsecs time x y z).total_time_elbow = time ∧
     (s.rampForcesLower nsecs time x y z).start_time_elbow = nsecs ∧
     (s.rampForcesLower nsecs time x y z).elbow_forces 0 = x ∧
     (s.rampForcesLower nsecs time x y z).elbow_forces 1 = y ∧
     (s.rampForcesLower nsecs time x y z).elbow_forces 2 = z ∧
     (s.rampForcesLower nsecs time x y z).elbow_forces 3 = s.elbow_forces 3 ∧
     (s.rampForcesLower nsecs time x y z).elbow_forces 4 = s.elbow_forces 4 ∧
     (s.rampForcesLower nsecs time x y z).elbow_forces 5 = s.elbow_forces 5 ∧
     (s.rampForcesLower nsecs time x y z).ramp_forces_elbow = true ∧
     s.rampForcesLower nsecs time x y z =
       { s with
         total_time_elbow := time
         start_time_elbow := nsecs
         end_time_elbow := nsecs + time
         elbow_forces_diff := s.elbow_forces
         elbow_forces := (s.rampForcesLower nsecs time x y z).elbow_forces
         ramp_forces_elbow := true }) := by
  refine ⟨⟨rfl, rfl, rfl, ?_, ?_, ?_, ?_, ?_, ?_, rfl, rfl⟩,
    ⟨rfl, rfl, rfl, ?_, ?_, ?_, ?_, ?_, ?_, rfl, rfl⟩⟩ <;>
    simp [Lwr_testdriver.rampForcesUpper, Lwr_testdriver.rampForcesLower,
      Lwr_testdriver.setForceAxisUpper, Lwr_testdriver.setForceAxisLower, Function.update]
/-! ## C15, C16: cycles that compute no torque -/

/-- A cycle with data in a mode other than `"torque"` and `"position"`: the
branch does nothing beyond storing and splitting the sample. -/
theorem dispatched_idle (kin : Kinematics nl nu) (s : Lwr_testdriver nl nu) (inp : CycleInput)
    (ht : s.mode ≠ "torque") (hp : s.mode ≠ "position") :
    s.dispatched kin inp = s.afterRead inp := by
  unfold Lwr_testdriver.dispatched
  rw [if_neg ht, if_neg hp]

/-- C15: for every controller state in mode `"none"` and every cycle that
receives joint-state data, the cycle leaves the torque vector `tau` as it was
before the cycle and writes exactly that prior vector to the torque output; the
two wrenches, the ramp state of either chain, the PID state and the mode are
unchanged (the cycle changes only the stored input sample and joint vectors, the
averaging state and the output sample). -/
theorem C15_none_cycle (kin : Kinematics nl nu) (s : Lwr_testdriver nl nu) (inp : CycleInput)
    (hmode : s.mode = "none") (hflow : inp.flow ≠ FlowStatus.NoData) :
    (s.updateHook kin inp).1.tau = s.tau ∧
    (s.updateHook kin inp).2.written = some s.tau ∧
    (s.updateHook kin inp).1.hand_forces = s.hand_forces ∧
    (s.updateHook kin inp).1.elbow_forces = s.elbow_forces ∧
    ((s.updateHook kin inp).1.ramp_forces_hand = s.ramp_forces_hand ∧
     (s.updateHook kin inp).1.hand_forces_diff = s.hand_forces_diff ∧
     (s.updateHook kin inp).1.start_time_hand = s.start_time_hand ∧
     (s.updateHook kin inp).1.total_time_hand = s.total_time_hand ∧
     (s.updateHook kin inp).1.end_time_hand = s.end_time_hand ∧
     (s.updateHook kin inp).1.current_time_hand = s.current_time_hand) ∧
    ((s.updateHook kin inp).1.ramp_forces_elbow = s.ramp_forces_elbow ∧
     (s.updateHook kin inp).1.elbow_forces_diff = s.elbow_forces_diff ∧
     (s.updateHook kin inp).1.start_time_elbow = s.start_time_elbow ∧
     (s.updateHook kin inp).1.total_time_elbow = s.total_time_elbow ∧
     (s.updateHook kin inp).1.end_time_elbow = s.end_time_elbow ∧
     (s.updateHook kin inp).1.current_time_elbow = s.current_time_elbow) ∧
    ((s.updateHook kin inp).1.e_previous = s.e_previous ∧
     (s.updateHook kin inp).1.e_current = s.e_current ∧
     (s.updateHook kin inp).1.e_total = s.e_total) ∧
    (s.updateHook kin inp).1.mode = s.mode ∧
    (s.updateHook kin inp).1 =
      { s with
        joint_state_in_flow := inp.flow
        joint_state_in_data := inp.sample
        q_lower := inp.sample.angles.head nl
        q_upper := inp.sample.angles.tail nu
        tau_sum := (s.updateHook kin inp).1.tau_sum
        frames_counter := (s.updateHook kin inp).1.frames_counter
        frames_total := (s.updateHook kin inp).1.frames_total
        torques_out_data := s.tau } := by
  have ht : s.mode ≠ "torque" := by rw [hmode]; decide
  have hp : s.mode ≠ "position" := by rw [hmode]; decide
  have hstate : (s.updateHook kin inp).1 =
      { s with
        joint_state_in_flow := inp.flow
        joint_state_in_data := inp.sample
        q_lower := inp.sample.angles.head nl
        q_upper := inp.sample.angles.tail nu
        tau_sum := (s.updateHook kin inp).1.tau_sum
        frames_counter := (s.updateHook kin inp).1.frames_counter
        frames_total := (s.updateHook kin inp).1.frames_total
        torques_out_data := s.tau } := by
    rw [updateHook_data kin s inp hflow, dispatched_idle kin s inp ht hp]
    have ha := averaging_eq (s.afterRead inp)
    generalize (s.afterRead inp).averaging = a at ha ⊢
    rw [ha]
    rfl
  have hw : (s.updateHook kin inp).2.written = some s.tau := by
    rw [updateHook_data kin s inp hflow, dispatched_idle kin s inp ht hp]
    have ha := averaging_eq (s.afterRead inp)
    generalize (s.afterRead inp).averaging = a at ha ⊢
    rw [ha]
    rfl
  refine ⟨?_, hw, ?_, ?_, ⟨?_, ?_, ?_, ?_, ?_, ?_⟩, ⟨?_, ?_, ?_, ?_, ?_, ?_⟩, ⟨?_, ?_, ?_⟩, ?_,
    hstate⟩ <;> rw [hstate]

/-- C15, on the constructed driver (mode `"none"`) whose torque vector was set
to all ones: a cycle with data keeps the vector and writes it. -/
theorem C15_none_cycle_witness :
    (Lwr_testdriver.updateHook sampleKin { fresh with tau := fun _ => 1 }
      (sampleInput 0 0 0)).1.tau = (fun _ => 1) ∧
    (Lwr_testdriver.updateHook sampleKin { fresh with tau := fun _ => 1 }
      (sampleInput 0 0 0)).2.written = some (fun _ => 1) :=
  ⟨(C15_none_cycle sampleKin { fresh with tau := fun _ => 1 } (sampleInput 0 0 0) rfl
      (by decide)).1,
   (C15_none_cycle sampleKin { fresh with tau := fun _ => 1 } (sampleInput 0 0 0) rfl
      (by decide)).2.1⟩

/-- C16: for every controller state, whatever its mode, a cycle whose joint-state
read yields no data writes nothing to the torque output and leaves the torque
vector, the last written output sample, the PID state, the ramp state of either
chain, the mode and the averaging state (target, elapsed count, running sum)
unchanged: the only member that changes is the stored flow status. -/
theorem C16_no_data_cycle (kin : Kinematics nl nu) (s : Lwr_testdriver nl nu) (inp : CycleInput)
    (hflow : inp.flow = FlowStatus.NoData) :
    (s.updateHook kin inp).2.written = none ∧
    (s.updateHook kin inp).1.tau = s.tau ∧
    (s.updateHook kin inp).1.torques_out_data = s.torques_out_data ∧
    ((s.updateHook kin inp).1.e_previous = s.e_previous ∧
     (s.updateHook kin inp).1.e_current = s.e_current ∧
     (s.updateHook kin inp).1.e_total = s.e_total) ∧
    ((s.updateHook kin inp).1.ramp_forces_hand = s.ramp_forces_hand ∧
     (s.updateHook kin inp).1.hand_forces_diff = s.hand_forces_diff ∧
     (s.updateHook kin inp).1.start_time_hand = s.start_time_hand ∧
     (s.updateHook kin inp).1.total_time_hand = s.total_time_hand ∧
     (s.updateHook kin inp).1.ramp_forces_elbow = s.ramp_forces_elbow ∧
     (s.updateHook kin inp).1.elbow_forces_diff = s.elbow_forces_diff ∧
     (s.updateHook kin inp).1.start_time_elbow = s.start_time_elbow ∧
     (s.updateHook kin inp).1.total_time_elbow = s.total_time_elbow) ∧
    (s.updateHook kin inp).1.mode = s.mode ∧
    ((s.updateHook kin inp).1.frames_total = s.frames_total ∧
     (s.updateHook kin inp).1.frames_counter = s.frames_counter ∧
     (s.updateHook kin inp).1.tau_sum = s.tau_sum) ∧
    (s.updateHook kin inp).1 = { s with joint_state_in_flow := FlowStatus.NoData } := by
  rw [updateHook_nodata kin s inp hflow]
  simp only [and_self]

/-- C16, on the ramp scenario in torque mode: a read without data writes nothing
and keeps the torque vector and the mode. -/
theorem C16_no_data_cycle_witness :
    (restRamp.updateHook sampleKin
      { sampleInput 0 0 1 with flow := FlowStatus.NoData }).2.written = none ∧
    (restRamp.updateHook sampleKin
      { sampleInput 0 0 1 with flow := FlowStatus.NoData }).1.tau = restRamp.tau ∧
    (restRamp.updateHook sampleKin
      { sampleInput 0 0 1 with flow := FlowStatus.NoData }).1.mode = "torque" := by
  have h := C16_no_data_cycle sampleKin restRamp
    { sampleInput 0 0 1 with flow := FlowStatus.NoData } rfl
  exact ⟨h.1, h.2.1, h.2.2.2.2.2.1⟩
/-! ## C12, C13: the torque branch of a cycle -/

theorem computeTorquesUpper_mapWrench (kin : Kinematics nl nu) (s : Lwr_testdriver nl nu)
    (axis : Vec 6) :
    (s.computeTorquesUpper kin axis defaultMagnitude).2 =
      mapWrench kin.upper s.q_upper axis true := by
  rw [computeTorquesUpper_result]
  funext k
  simp [mapWrench, defaultMagnitude]

theorem computeTorquesLower_mapWrench (kin : Kinematics nl nu) (s : Lwr_testdriver nl nu)
    (axis : Vec 6) :
    (s.computeTorquesLower kin axis defaultMagnitude).2 =
      mapWrench kin.lower s.q_lower axis s.elbow_to_base := by
  rw [computeTorquesLower_result]
  unfold mapWrench
  split_ifs <;>
  · funext k
    simp [defaultMagnitude]

theorem setHead_setTail_head {n m : Nat} (t : Vec 7) (x : Vec n) (y : Vec m) (h : n + m = 7) :
    (Vec.setTail (Vec.setHead t x) y).head n = x := by
  funext i
  have hi := i.isLt
  have h1 : i.val < 7 := by omega
  have h2 : ¬ (7 - m ≤ i.val ∧ i.val - (7 - m) < m) := by omega
  simp only [Vec.head, Vec.setTail, Vec.setHead, h1, dite_true, h2, dite_false, hi]

theorem setHead_setTail_tail {n m : Nat} (t : Vec 7) (x : Vec n) (y : Vec m) (h : n + m = 7) :
    (Vec.setTail (Vec.setHead t x) y).tail m = y := by
  funext j
  have hj := j.isLt
  have h1 : 7 - m + j.val < 7 := by omega
  have h2 : 7 - m ≤ 7 - m + j.val ∧ 7 - m + j.val - (7 - m) < m := by omega
  have h3 : 7 - m + j.val - (7 - m) = j.val := by omega
  simp only [Vec.tail, Vec.setTail, h1, h2, dite_true, and_self]
  congr 1
  exact Fin.ext h3
/-- C12: for every controller state in mode `"torque"` and every cycle that
receives joint-state data, with `nl + nu = 7`, the torque vector after the cycle
has as its first `nl` entries the PID correction `controlPID(0, lower-joint
velocities)` if `enable_pid` is on, and otherwise the lower-chain torque mapping
of the elbow wrench (the ramp-sampled wrench if `ramp_forces_elbow` is set, else
the static `elbow_forces`) with the frame transform applied exactly when
`elbow_to_base` is on; its last `nu` entries are the upper-chain torque mapping,
with frame transform, of the hand wrench (ramp-sampled if `ramp_forces_hand` is
set, else the static `hand_forces`) whether or not PID is on; and this vector is
what the cycle writes. -/
theorem C12_torque_cycle (kin : Kinematics nl nu) (s : Lwr_testdriver nl nu) (inp : CycleInput)
    (hmode : s.mode = "torque") (hflow : inp.flow ≠ FlowStatus.NoData) (hsum : nl + nu = 7) :
    (s.updateHook kin inp).1.tau.head nl =
      (if s.enable_pid then
        (s.controlPID (fun _ => 0) (inp.sample.velocities.head nl)).2
      else
        mapWrench kin.lower (inp.sample.angles.head nl)
          (if s.ramp_forces_elbow then
            Lwr_testdriver.rampedElbow { s with current_time_elbow := inp.nsecs_elbow }
          else s.elbow_forces)
          s.elbow_to_base) ∧
    (s.updateHook kin inp).1.tau.tail nu =
      mapWrench kin.upper (inp.sample.angles.tail nu)
        (if s.ramp_forces_hand then
          Lwr_testdriver.rampedHand { s with current_time_hand := inp.nsecs_hand }
        else s.hand_forces)
        true ∧
    (s.updateHook kin inp).2.written = some (s.updateHook kin inp).1.tau := by
  obtain ⟨htau, hw⟩ := updateHook_torque kin s inp hmode hflow
  refine ⟨?_, ?_, hw⟩
  · rw [htau, torqueBranch_tau, setHead_setTail_head _ _ _ hsum]
    by_cases hp : s.enable_pid = true
    · rw [if_pos hp, if_pos hp]
      rfl
    · rw [if_neg hp, if_neg hp]
      by_cases he : s.ramp_forces_elbow = true
      · rw [if_pos he, if_pos he, computeTorquesLower_mapWrench]
        rfl
      · rw [if_neg he, if_neg he, computeTorquesLower_mapWrench]
  · rw [htau, torqueBranch_tau, setHead_setTail_tail _ _ _ hsum]
    by_cases hh : s.ramp_forces_hand = true
    · rw [if_pos hh, if_pos hh, computeTorquesUpper_mapWrench]
      rfl
    · rw [if_neg hh, if_neg hh, computeTorquesUpper_mapWrench]

theorem sample_mapWrench_raw (pose : Frame) :
    mapWrench (sampleSolvers 4 pose) (fun _ => 0) ![1, 2, 0, 0, 0, 1] false = (fun _ => 11) := by
  funext k
  simp [mapWrench, Matrix.mulVec, Matrix.dotProduct, Fin.sum_univ_succ, sampleSolvers]
  norm_num

theorem sample_mapWrench_turned :
    mapWrench (sampleSolvers 3 quarterTurn) (fun _ => 0) ![1, 2, 0, 0, 0, 1] true
      = (fun _ => 6) := by
  funext k
  simp [mapWrench, Matrix.mulVec, Matrix.dotProduct, Matrix.mul_apply, Fin.sum_univ_succ,
    blockDiag, sampleSolvers, quarterTurn, Frame.Inverse]
  norm_num

/-- C12, on the constructed driver in torque mode (PID off, no ramp, toggle off)
with both wrenches `(1, 2, 0, 0, 0, 1)` and all angles zero: the four lower
joints get the raw-Jacobian torque 11, the three upper joints the
frame-transformed torque 6. -/
theorem C12_torque_cycle_witness :
    (torqueScenario.updateHook sampleKin (sampleInput 0 0 0)).1.tau.head 4 = (fun _ => 11) ∧
    (torqueScenario.updateHook sampleKin (sampleInput 0 0 0)).1.tau.tail 3 = (fun _ => 6) := by
  have h := C12_torque_cycle sampleKin torqueScenario (sampleInput 0 0 0) rfl (by decide) rfl
  have hw : torqueScenario.elbow_forces = ![1, 2, 0, 0, 0, 1] := by
    funext i
    fin_cases i <;> rfl
  have hh : torqueScenario.hand_forces = ![1, 2, 0, 0, 0, 1] := by
    funext i
    fin_cases i <;> rfl
  have hp : torqueScenario.enable_pid = false := rfl
  have he : torqueScenario.ramp_forces_elbow = false := rfl
  have hr : torqueScenario.ramp_forces_hand = false := rfl
  have hb : torqueScenario.elbow_to_base = false := rfl
  have ha : (sampleInput 0 0 0).sample.angles.head 4 = (fun _ => 0) := by
    funext i
    simp [Vec.head, sampleInput]
  have ht : (sampleInput 0 0 0).sample.angles.tail 3 = (fun _ => 0) := by
    funext i
    simp [Vec.tail, sampleInput]
  refine ⟨?_, ?_⟩
  · rw [h.1, if_neg (by simp [hp]), if_neg (by simp [he]), hw, hb, ha]
    exact sample_mapWrench_raw quarterTurn
  · rw [h.2.1, if_neg (by simp [hr]), hh, ht]
    exact sample_mapWrench_turned
theorem cycles_length (kin : Kinematics nl nu) (s : Lwr_testdriver nl nu)
    (ins : List CycleInput) : (s.cycles kin ins).length = ins.length := by
  induction ins generalizing s with
  | nil => rfl
  | cons inp rest ih =>
    show ((s.updateHook kin inp).1.cycles kin rest).length + 1 = rest.length + 1
    rw [ih]

theorem map_eq_replicate_of_forall {α β : Type} (f : α → β) (c : β) (l : List α)
    (h : ∀ r ∈ l, f r = c) : l.map f = List.replicate l.length c := by
  induction l with
  | nil => rfl
  | cons a rest ih =>
    rw [List.map_cons, h a (List.mem_cons_self _ _),
      ih (fun r hr => h r (List.mem_cons_of_mem _ hr))]
    rfl

theorem setHead_setTail_zero {m n k : Nat} :
    Vec.setTail (Vec.setHead (fun _ => 0 : Vec m) (fun _ => 0 : Vec n)) (fun _ => 0 : Vec k)
      = (fun _ => 0) := by
  funext i
  simp [Vec.setTail, Vec.setHead]

/-- The torque branch with PID off, no ramp flag set and both wrenches zero
leaves the zero torque vector. -/
theorem torqueBranch_tau_zero (kin : Kinematics nl nu) (s : Lwr_testdriver nl nu)
    (inp : CycleInput) (hpid : s.enable_pid = false)
    (hhand : s.hand_forces = (fun _ => 0)) (helbow : s.elbow_forces = (fun _ => 0))
    (hrh : s.ramp_forces_hand = false) (hre : s.ramp_forces_elbow = false) :
    (s.torqueBranch kin inp).tau = (fun _ => 0) := by
  rw [torqueBranch_tau, if_neg (by simp [hpid]), if_neg (by simp [hre]), if_neg (by simp [hrh]),
    helbow, hhand, computeTorquesLower_zero, computeTorquesUpper_zero, setHead_setTail_zero]

/-- A torque-mode cycle with data, PID off, no ramp flag set and both wrenches
zero leaves and writes the zero torque vector. -/
theorem updateHook_torque_zero (kin : Kinematics nl nu) (s : Lwr_testdriver nl nu)
    (inp : CycleInput) (hmode : s.mode = "torque") (hflow : inp.flow ≠ FlowStatus.NoData)
    (hpid : s.enable_pid = false)
    (hhand : s.hand_forces = (fun _ => 0)) (helbow : s.elbow_forces = (fun _ => 0))
    (hrh : s.ramp_forces_hand = false) (hre : s.ramp_forces_elbow = false) :
    (s.updateHook kin inp).1.tau = (fun _ => 0) ∧
    (s.updateHook kin inp).2.written = some (fun _ => 0) := by
  obtain ⟨htau, hw⟩ := updateHook_torque kin s inp hmode hflow
  have h0 : (s.updateHook kin inp).1.tau = (fun _ => 0) := by
    rw [htau]
    exact torqueBranch_tau_zero kin _ inp hpid hhand helbow hrh hre
  exact ⟨h0, by rw [hw, h0]⟩

/-- C13 fails as stated: the state `rampDown` is in mode `"torque"` with PID
disabled and both wrenches zero (its hand force was ramped down to zero, so the
hand ramp flag is set and the ramp holds `(1, 0, 0, 0, 0, 0)`), and the cycle at
clock 2 writes torque 2 for each of the three upper joints. -/
theorem C13_zero_wrench_counterexample :
    rampDown.mode = "torque" ∧
    rampDown.enable_pid = false ∧
    rampDown.hand_forces = (fun _ => 0) ∧
    rampDown.elbow_forces = (fun _ => 0) ∧
    rampDown.ramp_forces_hand = true ∧
    (rampDown.updateHook sampleKin (sampleInput 0 0 2)).2.written
      = some ![0, 0, 0, 0, 2, 2, 2] ∧
    (rampDown.updateHook sampleKin (sampleInput 0 0 2)).2.written ≠ some (fun _ => 0) := by
  have hhand : rampDown.hand_forces = (fun _ => 0) := by
    funext i
    fin_cases i <;> rfl
  have hdiff : rampDown.hand_forces_diff = ![1, 0, 0, 0, 0, 0] := by
    funext i
    fin_cases i <;> rfl
  have hsample : Lwr_testdriver.rampedHand
      { rampDown with current_time_hand := (sampleInput 0 0 2).nsecs_hand }
      = ![1, 0, 0, 0, 0, 0] := by
    funext i
    simp only [Lwr_testdriver.rampedHand, hdiff]
    have h1 : rampDown.start_time_hand = 0 := rfl
    have h2 : rampDown.total_time_hand = 2 := rfl
    simp [h1, h2, sampleInput]
  have hmap : mapWrench (sampleSolvers 3 quarterTurn) (fun _ => 0) ![1, 0, 0, 0, 0, 0] true
      = (fun _ => 2) := by
    funext k
    simp [mapWrench, Matrix.mulVec, Matrix.dotProduct, Matrix.mul_apply, Fin.sum_univ_succ,
      blockDiag, sampleSolvers, quarterTurn, Frame.Inverse]
    norm_num
  have hmap0 : ∀ b : Bool,
      mapWrench (sampleSolvers 4 quarterTurn) (fun _ => 0) (fun _ => 0) b = (fun _ => 0) := by
    intro b
    have hz : (fun _ => 0 : Vec 6) = 0 := rfl
    funext k
    cases b <;> simp [mapWrench, hz]
  have ha : (sampleInput 0 0 2).sample.angles.head 4 = (fun _ => 0) := by
    funext i
    simp [Vec.head, sampleInput]
  have ht : (sampleInput 0 0 2).sample.angles.tail 3 = (fun _ => 0) := by
    funext i
    simp [Vec.tail, sampleInput]
  obtain ⟨htau, hw⟩ := updateHook_torque sampleKin rampDown (sampleInput 0 0 2) rfl (by decide)
  have hpid : rampDown.enable_pid = false := rfl
  have hre : rampDown.ramp_forces_elbow = false := rfl
  have hrh : rampDown.ramp_forces_hand = true := rfl
  have helb : rampDown.elbow_forces = (fun _ => 0) := rfl
  have hval : (rampDown.updateHook sampleKin (sampleInput 0 0 2)).1.tau
      = ![0, 0, 0, 0, 2, 2, 2] := by
    rw [htau, torqueBranch_tau, if_neg (by simp [hpid]), if_neg (by simp [hre]), if_pos hrh,
      computeTorquesLower_mapWrench, computeTorquesUpper_mapWrench]
    have e1 : Lwr_testdriver.rampedHand
        { ({ rampDown with
              joint_state_in_flow := (sampleInput 0 0 2).flow
              joint_state_in_data := (sampleInput 0 0 2).sample
              q_lower := (sampleInput 0 0 2).sample.angles.head 4
              q_upper := (sampleInput 0 0 2).sample.angles.tail 3 } : Lwr_testdriver 4 3) with
          current_time_hand := (sampleInput 0 0 2).nsecs_hand } = ![1, 0, 0, 0, 0, 0] := hsample
    rw [e1]
    show Vec.setTail (Vec.setHead (fun _ => 0)
        (mapWrench (sampleSolvers 4 quarterTurn) ((sampleInput 0 0 2).sample.angles.head 4)
          rampDown.elbow_forces rampDown.elbow_to_base))
        (mapWrench (sampleSolvers 3 quarterTurn) ((sampleInput 0 0 2).sample.angles.tail 3)
          ![1, 0, 0, 0, 0, 0] true) = _
    rw [ha, ht, helb, hmap0, hmap]
    funext i
    fin_cases i <;> rfl
  refine ⟨rfl, rfl, hhand, rfl, rfl, ?_, ?_⟩
  · rw [hw, hval]
  · rw [hw, hval]
    intro h
    have h4 := congrFun (Option.some.inj h) 4
    norm_num at h4

/-- C13, amended: for every chain pair (in particular `N_lower = 4`,
`N_upper = 3`), all solvers, and every controller state whose mode is
`"torque"`, whose PID is disabled, whose hand and elbow wrenches are both the
zero wrench and neither of whose ramp flags is set, every cycle of every run of
cycles with joint-state data leaves the zero torque vector and writes the
7-element zero vector to the torque output. -/
theorem C13_zero_wrench_cycles (kin : Kinematics nl nu) (s : Lwr_testdriver nl nu)
    (inputs : List CycleInput)
    (hmode : s.mode = "torque") (hpid : s.enable_pid = false)
    (hhand : s.hand_forces = (fun _ => 0)) (helbow : s.elbow_forces = (fun _ => 0))
    (hrh : s.ramp_forces_hand = false) (hre : s.ramp_forces_elbow = false)
    (hdata : ∀ inp ∈ inputs, inp.flow ≠ FlowStatus.NoData) :
    ∀ r ∈ s.cycles kin inputs,
      r.2.written = some (fun _ => 0) ∧ r.1.tau = (fun _ => 0) := by
  induction inputs generalizing s with
  | nil =>
    intro r hr
    simp [Lwr_testdriver.cycles] at hr
  | cons inp rest ih =>
    intro r hr
    have hflow : inp.flow ≠ FlowStatus.NoData := hdata inp (List.mem_cons_self _ _)
    obtain ⟨h0, hw⟩ := updateHook_torque_zero kin s inp hmode hflow hpid hhand helbow hrh hre
    have hf := updateHook_frame kin s inp
    rcases List.mem_cons.mp hr with h | h
    · rw [h]
      exact ⟨hw, h0⟩
    · exact ih (s.updateHook kin inp).1
        (hf.1.trans hmode) (hf.2.2.2.2.2.2.2.2.2.2.2.2.2.1.trans hpid)
        (hf.2.1.trans hhand) (hf.2.2.1.trans helbow)
        (hf.2.2.2.1.trans hrh) (hf.2.2.2.2.1.trans hre)
        (fun i hi => hdata i (List.mem_cons_of_mem _ hi)) r h

/-- C13 amended, on the constructed driver (4 + 3 joints, wrenches zero, no
ramp, PID off) put in torque mode: two cycles at different angles both write the
zero vector. -/
theorem C13_zero_wrench_cycles_witness :
    (Lwr_testdriver.cycles sampleKin { fresh with mode := "torque" }
        [sampleInput 0 0 0, sampleInput 1 2 3]).map (fun r => r.2.written)
      = [some (fun _ => 0), some (fun _ => 0)] := by
  have h := C13_zero_wrench_cycles sampleKin { fresh with mode := "torque" }
    [sampleInput 0 0 0, sampleInput 1 2 3] rfl rfl rfl rfl rfl rfl
    (by
      intro inp hinp
      simp only [List.mem_cons, List.mem_singleton, List.not_mem_nil, or_false] at hinp
      rcases hinp with h | h <;> rw [h] <;> decide)
  rw [map_eq_replicate_of_forall _ _ _ (fun r hr => (h r hr).1), cycles_length]
  rfl

/-! ## C14, C20: the torque averager -/

/-- The averaging block of a cycle with data, in its three cases: while the
elapsed count is below the target the cycle adds its torque vector to the sum
and counts itself; once the count has reached a positive target the cycle
reports `sum / target` and resets target and count without touching the sum;
otherwise it does nothing. -/
theorem updateHook_averaging (kin : Kinematics nl nu) (s : Lwr_testdriver nl nu)
    (inp : CycleInput) (hflow : inp.flow ≠ FlowStatus.NoData) :
    (s.frames_total > s.frames_counter →
      (s.updateHook kin inp).1.tau_sum
        = (fun i => s.tau_sum i + (s.updateHook kin inp).1.tau i) ∧
      (s.updateHook kin inp).1.frames_counter = s.frames_counter + 1 ∧
      (s.updateHook kin inp).1.frames_total = s.frames_total ∧
      (s.updateHook kin inp).2.log = []) ∧
    (¬ s.frames_total > s.frames_counter → s.frames_total > 0 →
      (s.updateHook kin inp).1.tau_sum = s.tau_sum ∧
      (s.updateHook kin inp).1.frames_counter = 0 ∧
      (s.updateHook kin inp).1.frames_total = 0 ∧
      (s.updateHook kin inp).2.log
        = [LogEntry.AverageTau s.frames_total
            (fun i => s.tau_sum i / (s.frames_total : ℚ))]) ∧
    (¬ s.frames_total > s.frames_counter → ¬ s.frames_total > 0 →
      (s.updateHook kin inp).1.tau_sum = s.tau_sum ∧
      (s.updateHook kin inp).1.frames_counter = s.frames_counter ∧
      (s.updateHook kin inp).1.frames_total = s.frames_total ∧
      (s.updateHook kin inp).2.log = []) := by
  rw [updateHook_data kin s inp hflow]
  have h := dispatched_eq kin s inp
  have hT : (s.dispatched kin inp).frames_total = s.frames_total := by rw [h]
  have hC : (s.dispatched kin inp).frames_counter = s.frames_counter := by rw [h]
  have hS : (s.dispatched kin inp).tau_sum = s.tau_sum := by rw [h]
  clear h
  generalize s.dispatched kin inp = d at hT hC hS ⊢
  rw [← hT, ← hC, ← hS]
  refine ⟨fun hgt => ?_, fun hle hpos => ?_, fun hle hnp => ?_⟩
  · unfold Lwr_testdriver.averaging
    rw [if_pos hgt]
    exact ⟨rfl, rfl, rfl, rfl⟩
  · unfold Lwr_testdriver.averaging
    rw [if_neg hle, if_pos hpos]
    exact ⟨rfl, rfl, rfl, rfl⟩
  · unfold Lwr_testdriver.averaging
    rw [if_neg hle, if_neg hnp]
    exact ⟨rfl, rfl, rfl, rfl⟩
theorem cycles_append (kin : Kinematics nl nu) (s : Lwr_testdriver nl nu)
    (ins : List CycleInput) (last : CycleInput) :
    s.cycles kin (ins ++ [last]) =
      s.cycles kin ins ++ [(s.afterCycles kin ins).updateHook kin last] := by
  induction ins generalizing s with
  | nil => rfl
  | cons inp rest ih =>
    show s.updateHook kin inp :: Lwr_testdriver.cycles kin (s.updateHook kin inp).1 (rest ++ [last])
      = _
    rw [ih]
    rfl

/-- While the window is open (the cycles of the run fit between the elapsed
count and the target), a run of cycles with data reports nothing, keeps the
target, counts every cycle once and adds every cycle's torque vector once. -/
theorem cycles_accumulate (kin : Kinematics nl nu) (s : Lwr_testdriver nl nu)
    (ins : List CycleInput) (hdata : ∀ inp ∈ ins, inp.flow ≠ FlowStatus.NoData)
    (hroom : s.frames_counter + (ins.length : ℤ) ≤ s.frames_total) :
    (∀ r ∈ s.cycles kin ins, r.2.log = []) ∧
    (s.afterCycles kin ins).frames_total = s.frames_total ∧
    (s.afterCycles kin ins).frames_counter = s.frames_counter + (ins.length : ℤ) ∧
    (s.afterCycles kin ins).tau_sum =
      (fun j => s.tau_sum j + ((s.cycles kin ins).map (fun r => r.1.tau j)).sum) := by
  induction ins generalizing s with
  | nil =>
    refine ⟨?_, rfl, ?_, ?_⟩
    · intro r hr
      simp [Lwr_testdriver.cycles] at hr
    · simp [Lwr_testdriver.afterCycles]
    · funext j
      simp [Lwr_testdriver.afterCycles, Lwr_testdriver.cycles]
  | cons inp rest ih =>
    have hflow : inp.flow ≠ FlowStatus.NoData := hdata inp (List.mem_cons_self _ _)
    have hlen : ((inp :: rest).length : ℤ) = (rest.length : ℤ) + 1 := by
      simp
    rw [hlen] at hroom
    have hgt : s.frames_total > s.frames_counter := by
      have := Int.natCast_nonneg rest.length
      omega
    obtain ⟨hS, hC, hT, hL⟩ := (updateHook_averaging kin s inp hflow).1 hgt
    have hroom2 : (s.updateHook kin inp).1.frames_counter + (rest.length : ℤ)
        ≤ (s.updateHook kin inp).1.frames_total := by
      rw [hC, hT]
      omega
    obtain ⟨iL, iT, iC, iS⟩ := ih (s.updateHook kin inp).1
      (fun i hi => hdata i (List.mem_cons_of_mem _ hi)) hroom2
    have hafter : s.afterCycles kin (inp :: rest)
        = (s.updateHook kin inp).1.afterCycles kin rest := rfl
    have hcyc : s.cycles kin (inp :: rest)
        = s.updateHook kin inp :: (s.updateHook kin inp).1.cycles kin rest := rfl
    refine ⟨?_, ?_, ?_, ?_⟩
    · intro r hr
      rw [hcyc] at hr
      rcases List.mem_cons.mp hr with h | h
      · rw [h]; exact hL
      · exact iL r h
    · rw [hafter, iT, hT]
    · rw [hafter, iC, hC, hlen]
      ring
    · rw [hafter, iS, hcyc, hS]
      funext j
      simp only [List.map_cons, List.sum_cons]
      ring
/-- Every cycle of a run with data in mode `"position"` leaves the bang-bang
torques for the angles of its own input. -/
theorem cycles_position (kin : Kinematics nl nu) (s : Lwr_testdriver nl nu)
    (ins : List CycleInput) (hmode : s.mode = "position")
    (hdata : ∀ inp ∈ ins, inp.flow ≠ FlowStatus.NoData) :
    ∀ r ∈ s.cycles kin ins, ∃ inp ∈ ins,
      r.1.tau = fun i => bangBang (s.target_angles i) (inp.sample.angles i)
        s.positioning_torque s.epsilon := by
  induction ins generalizing s with
  | nil =>
    intro r hr
    simp [Lwr_testdriver.cycles] at hr
  | cons inp rest ih =>
    intro r hr
    have hflow : inp.flow ≠ FlowStatus.NoData := hdata inp (List.mem_cons_self _ _)
    have hf := updateHook_frame kin s inp
    rcases List.mem_cons.mp hr with h | h
    · refine ⟨inp, List.mem_cons_self _ _, ?_⟩
      rw [h]
      exact (updateHook_position kin s inp hmode hflow).1
    · obtain ⟨i2, hi2, ht⟩ := ih (s.updateHook kin inp).1 (hf.1.trans hmode)
        (fun i hi => hdata i (List.mem_cons_of_mem _ hi)) r h
      refine ⟨i2, List.mem_cons_of_mem _ hi2, ?_⟩
      rw [ht, hf.2.2.2.2.2.2.2.2.2.2.2.2.2.2.2.2.2.2.1, hf.2.2.2.2.2.2.2.2.2.2.2.2.2.2.2.2.2.2.2.1,
        hf.2.2.2.2.2.2.2.2.2.2.2.2.2.2.2.2.2.2.2.2.1]

/-- C20: the torque averager never counts a cycle twice or outside its window.
For every controller state, `averageTau(n)` sets target = `n`, elapsed = 0 and
the running sum to the zero vector, and changes nothing else. For every cycle
with joint-state data: if elapsed is below the target, the cycle adds its own
torque vector to the sum exactly once and raises elapsed by one; if elapsed has
reached a positive target, the cycle reports `sum / target`, resets target and
elapsed to 0 and leaves the sum as it was (this cycle's torque is not added); in
the idle state (target = 0, elapsed count not negative) the cycle reports
nothing and leaves target, elapsed count and sum unchanged. A cycle without data
leaves the three members unchanged, and the elapsed count, once not negative (as
`averageTau` makes it), is not negative after any cycle. -/
theorem C20_averager_window (kin : Kinematics nl nu) (s : Lwr_testdriver nl nu)
    (inp : CycleInput) (n : ℤ) :
    ((s.averageTau n).frames_total = n ∧
     (s.averageTau n).frames_counter = 0 ∧
     (s.averageTau n).tau_sum = (fun _ => 0) ∧
     s.averageTau n =
       { s with frames_total := n, frames_counter := 0, tau_sum := fun _ => 0 }) ∧
    (inp.flow ≠ FlowStatus.NoData → s.frames_counter < s.frames_total →
      (s.updateHook kin inp).1.tau_sum
        = (fun i => s.tau_sum i + (s.updateHook kin inp).1.tau i) ∧
      (s.updateHook kin inp).1.frames_counter = s.frames_counter + 1 ∧
      (s.updateHook kin inp).1.frames_total = s.frames_total ∧
      (s.updateHook kin inp).2.log = []) ∧
    (inp.flow ≠ FlowStatus.NoData → 0 < s.frames_total → s.frames_total ≤ s.frames_counter →
      (s.updateHook kin inp).1.tau_sum = s.tau_sum ∧
      (s.updateHook kin inp).1.frames_total = 0 ∧
      (s.updateHook kin inp).1.frames_counter = 0 ∧
      (s.updateHook kin inp).2.log
        = [LogEntry.AverageTau s.frames_total
            (fun i => s.tau_sum i / (s.frames_total : ℚ))]) ∧
    (inp.flow ≠ FlowStatus.NoData → s.frames_total = 0 → 0 ≤ s.frames_counter →
      (s.updateHook kin inp).2.log = [] ∧
      (s.updateHook kin inp).1.frames_total = s.frames_total ∧
      (s.updateHook kin inp).1.frames_counter = s.frames_counter ∧
      (s.updateHook kin inp).1.tau_sum = s.tau_sum) ∧
    (inp.flow = FlowStatus.NoData →
      (s.updateHook kin inp).1.frames_total = s.frames_total ∧
      (s.updateHook kin inp).1.frames_counter = s.frames_counter ∧
      (s.updateHook kin inp).1.tau_sum = s.tau_sum) ∧
    (0 ≤ s.frames_counter → 0 ≤ (s.updateHook kin inp).1.frames_counter) := by
  refine ⟨⟨rfl, rfl, rfl, rfl⟩, ?_, ?_, ?_, ?_, ?_⟩
  · intro hflow hlt
    exact (updateHook_averaging kin s inp hflow).1 hlt
  · intro hflow hpos hle
    obtain ⟨h1, h2, h3, h4⟩ :=
      (updateHook_averaging kin s inp hflow).2.1 (not_lt.mpr hle) hpos
    exact ⟨h1, h3, h2, h4⟩
  · intro hflow hidle hc
    obtain ⟨h1, h2, h3, h4⟩ :=
      (updateHook_averaging kin s inp hflow).2.2 (by rw [hidle]; exact not_lt.mpr hc)
        (by rw [hidle]; exact lt_irrefl _)
    exact ⟨h4, h3, h2, h1⟩
  · intro hflow
    rw [updateHook_nodata kin s inp hflow]
    exact ⟨rfl, rfl, rfl⟩
  · intro hc
    by_cases hflow : inp.flow = FlowStatus.NoData
    · rw [updateHook_nodata kin s inp hflow]
      exact hc
    · by_cases hgt : s.frames_total > s.frames_counter
      · rw [((updateHook_averaging kin s inp hflow).1 hgt).2.1]
        omega
      · by_cases hpos : s.frames_total > 0
        · rw [((updateHook_averaging kin s inp hflow).2.1 hgt hpos).2.1]
        · rw [((updateHook_averaging kin s inp hflow).2.2 hgt hpos).2.1]
          exact hc

/-- C20, on the driver in position mode with every target at 1 rad: after
`averageTau(3)` and three accumulating cycles (each commanding `[1, ..., 1]`) the
sum is `[3, ..., 3]`; the fourth cycle reports and leaves the sum at
`[3, ..., 3]`, its own torque not added, and the averager is idle afterwards. -/
theorem C20_averager_window_witness :
    ((positionScenario.averageTau 3).afterCycles sampleKin
        [sampleInput (9 / 10) 0 0, sampleInput (9 / 10) 0 1,
          sampleInput (9 / 10) 0 2]).tau_sum = (fun _ => 3) ∧
    (((positionScenario.averageTau 3).afterCycles sampleKin
        [sampleInput (9 / 10) 0 0, sampleInput (9 / 10) 0 1, sampleInput (9 / 10) 0 2]).updateHook
      sampleKin (sampleInput (9 / 10) 0 3)).1.tau_sum = (fun _ => 3) ∧
    (((positionScenario.averageTau 3).afterCycles sampleKin
        [sampleInput (9 / 10) 0 0, sampleInput (9 / 10) 0 1, sampleInput (9 / 10) 0 2]).updateHook
      sampleKin (sampleInput (9 / 10) 0 3)).1.frames_total = 0 := by
  have hdata : ∀ inp ∈
      [sampleInput (9 / 10) 0 0, sampleInput (9 / 10) 0 1, sampleInput (9 / 10) 0 2],
      inp.flow ≠ FlowStatus.NoData := by
    intro inp hinp
    simp only [List.mem_cons, List.mem_singleton, List.not_mem_nil, or_false] at hinp
    rcases hinp with h | h | h <;> rw [h] <;> decide
  obtain ⟨-, aT, aC, aS⟩ := cycles_accumulate sampleKin (positionScenario.averageTau 3)
    [sampleInput (9 / 10) 0 0, sampleInput (9 / 10) 0 1, sampleInput (9 / 10) 0 2] hdata
    (by decide)
  have hT : ((positionScenario.averageTau 3).afterCycles sampleKin
      [sampleInput (9 / 10) 0 0, sampleInput (9 / 10) 0 1,
        sampleInput (9 / 10) 0 2]).frames_total = 3 := aT
  have hC : ((positionScenario.averageTau 3).afterCycles sampleKin
      [sampleInput (9 / 10) 0 0, sampleInput (9 / 10) 0 1,
        sampleInput (9 / 10) 0 2]).frames_counter = 3 := aC
  have hsum : ((positionScenario.averageTau 3).afterCycles sampleKin
      [sampleInput (9 / 10) 0 0, sampleInput (9 / 10) 0 1,
        sampleInput (9 / 10) 0 2]).tau_sum = (fun _ => 3) := by
    rw [aS]
    funext j
    have hone : ∀ r ∈ (positionScenario.averageTau 3).cycles sampleKin
        [sampleInput (9 / 10) 0 0, sampleInput (9 / 10) 0 1, sampleInput (9 / 10) 0 2],
        r.1.tau j = 1 := by
      intro r hr
      obtain ⟨inp, hinp, ht⟩ := cycles_position sampleKin (positionScenario.averageTau 3) _ rfl
        hdata r hr
      rw [ht]
      simp only [List.mem_cons, List.mem_singleton, List.not_mem_nil, or_false] at hinp
      rcases hinp with h | h | h <;> rw [h] <;>
        norm_num [bangBang, positionScenario, Lwr_testdriver.averageTau, fresh,
          Lwr_testdriver.construct, sampleInput]
    rw [List.sum_eq_card_nsmul _ (1 : ℚ)]
    · rw [List.length_map, cycles_length]
      norm_num [positionScenario, Lwr_testdriver.averageTau]
    · intro x hx
      obtain ⟨r, hr, hrx⟩ := List.mem_map.mp hx
      rw [← hrx, hone r hr]
  have h := (C20_averager_window sampleKin
    ((positionScenario.averageTau 3).afterCycles sampleKin
      [sampleInput (9 / 10) 0 0, sampleInput (9 / 10) 0 1, sampleInput (9 / 10) 0 2])
    (sampleInput (9 / 10) 0 3) 3).2.2.1 (by decide) (by rw [hT]; decide) (by rw [hT, hC])
  exact ⟨hsum, h.1.trans hsum, h.2.1⟩
/-! ## C17, C18: the life of the PID state -/

/-- With PID off the torque branch leaves the three PID error vectors alone. -/
theorem torqueBranch_pid_off (kin : Kinematics nl nu) (s : Lwr_testdriver nl nu)
    (inp : CycleInput) (hpid : s.enable_pid = false) :
    (s.torqueBranch kin inp).e_previous = s.e_previous ∧
    (s.torqueBranch kin inp).e_current = s.e_current ∧
    (s.torqueBranch kin inp).e_total = s.e_total := by
  have h : s.torqueBranch kin inp =
      Lwr_testdriver.torqueUpper kin
        (Lwr_testdriver.torqueLower kin { s with tau := fun _ => 0 } inp) inp := rfl
  have hL : (Lwr_testdriver.torqueLower kin { s with tau := fun _ => 0 } inp).e_previous
        = s.e_previous ∧
      (Lwr_testdriver.torqueLower kin { s with tau := fun _ => 0 } inp).e_current
        = s.e_current ∧
      (Lwr_testdriver.torqueLower kin { s with tau := fun _ => 0 } inp).e_total
        = s.e_total := by
    have hp : ¬ (Lwr_testdriver.enable_pid { s with tau := fun _ => 0 } = true) := by
      show ¬ (s.enable_pid = true)
      simp [hpid]
    unfold Lwr_testdriver.torqueLower
    rw [if_neg hp]
    split_ifs <;> exact ⟨rfl, rfl, rfl⟩
  rw [h, torqueUpper_eq]
  exact hL

/-- A cycle leaves the three PID error vectors alone unless it is a torque-mode
cycle with PID on. -/
theorem updateHook_pid_frame (kin : Kinematics nl nu) (s : Lwr_testdriver nl nu)
    (inp : CycleInput) (h : s.mode ≠ "torque" ∨ s.enable_pid = false) :
    (s.updateHook kin inp).1.e_previous = s.e_previous ∧
    (s.updateHook kin inp).1.e_current = s.e_current ∧
    (s.updateHook kin inp).1.e_total = s.e_total := by
  by_cases hflow : inp.flow = FlowStatus.NoData
  · rw [updateHook_nodata kin s inp hflow]
    exact ⟨rfl, rfl, rfl⟩
  · rw [updateHook_data kin s inp hflow]
    have hd : (s.dispatched kin inp).e_previous = s.e_previous ∧
        (s.dispatched kin inp).e_current = s.e_current ∧
        (s.dispatched kin inp).e_total = s.e_total := by
      unfold Lwr_testdriver.dispatched
      by_cases ht : s.mode = "torque"
      · rw [if_pos ht]
        have hpid : s.enable_pid = false := by
          rcases h with h | h
          · exact absurd ht h
          · exact h
        exact torqueBranch_pid_off kin (s.afterRead inp) inp hpid
      · rw [if_neg ht]
        split_ifs
        · rw [positionBranch_eq]
          exact ⟨rfl, rfl, rfl⟩
        · exact ⟨rfl, rfl, rfl⟩
    generalize s.dispatched kin inp = d at hd ⊢
    have ha := averaging_eq d
    generalize d.averaging = a at ha ⊢
    rw [ha]
    exact hd

/-- A run of cycles in a mode other than `"torque"` keeps the mode and the three
PID error vectors. -/
theorem afterCycles_pid_frame (kin : Kinematics nl nu) (s : Lwr_testdriver nl nu)
    (inputs : List CycleInput) (h : s.mode ≠ "torque") :
    (s.afterCycles kin inputs).mode = s.mode ∧
    (s.afterCycles kin inputs).e_previous = s.e_previous ∧
    (s.afterCycles kin inputs).e_current = s.e_current ∧
    (s.afterCycles kin inputs).e_total = s.e_total := by
  induction inputs generalizing s with
  | nil => exact ⟨rfl, rfl, rfl, rfl⟩
  | cons inp rest ih =>
    have hm := (updateHook_frame kin s inp).1
    obtain ⟨h1, h2, h3⟩ := updateHook_pid_frame kin s inp (Or.inl h)
    obtain ⟨i0, i1, i2, i3⟩ := ih (s.updateHook kin inp).1 (by rw [hm]; exact h)
    have hafter : s.afterCycles kin (inp :: rest)
        = (s.updateHook kin inp).1.afterCycles kin rest := rfl
    rw [hafter]
    exact ⟨i0.trans hm, i1.trans h1, i2.trans h2, i3.trans h3⟩

theorem setMode_eq (s : Lwr_testdriver nl nu) (m : String) :
    (s.setMode m).1 = { s with mode := (s.setMode m).1.mode } := by
  unfold Lwr_testdriver.setMode
  split_ifs <;> rfl

theorem configureHook_eq (s : Lwr_testdriver nl nu) :
    s.configureHook.1 = { s with torques_out_data := fun _ => 0 } := by
  cases hm : s.model_loaded <;> simp [Lwr_testdriver.configureHook, hm]

/-- C17: the PID state (previous error, current error, accumulated error) is set
to the zero vectors by `startHook`; it is left unchanged by `setMode` for every
argument, by every cycle in mode `"none"` or `"position"`, by every torque-mode
cycle with PID disabled, and by every other operation that is neither
`startHook` nor a cycle; hence switching the mode away from `"torque"`, running
any cycles there and switching back does not reset the accumulated error. -/
theorem C17_pid_state_reset_only_by_start (kin : Kinematics nl nu) (s : Lwr_testdriver nl nu) :
    (s.startHook.1.e_previous = (fun _ => 0) ∧
     s.startHook.1.e_current = (fun _ => 0) ∧
     s.startHook.1.e_total = (fun _ => 0)) ∧
    (∀ m : String,
      (s.setMode m).1.e_previous = s.e_previous ∧
      (s.setMode m).1.e_current = s.e_current ∧
      (s.setMode m).1.e_total = s.e_total) ∧
    (∀ inp : CycleInput,
      (s.mode = "none" ∨ s.mode = "position" ∨ (s.mode = "torque" ∧ s.enable_pid = false)) →
      (s.updateHook kin inp).1.e_previous = s.e_previous ∧
      (s.updateHook kin inp).1.e_current = s.e_current ∧
      (s.updateHook kin inp).1.e_total = s.e_total) ∧
    (∀ op : Operation, op ≠ Operation.startHook → (∀ inp, op ≠ Operation.updateHook inp) →
      (s.perform kin op).e_previous = s.e_previous ∧
      (s.perform kin op).e_current = s.e_current ∧
      (s.perform kin op).e_total = s.e_total) ∧
    (∀ (m : String) (inputs : List CycleInput), (m = "position" ∨ m = "none") →
      (((s.setMode m).1.afterCycles kin inputs).setMode "torque").1.mode = "torque" ∧
      (((s.setMode m).1.afterCycles kin inputs).setMode "torque").1.e_previous = s.e_previous ∧
      (((s.setMode m).1.afterCycles kin inputs).setMode "torque").1.e_current = s.e_current ∧
      (((s.setMode m).1.afterCycles kin inputs).setMode "torque").1.e_total = s.e_total) := by
  have hset : ∀ (t : Lwr_testdriver nl nu) (m : String),
      (t.setMode m).1.e_previous = t.e_previous ∧
      (t.setMode m).1.e_current = t.e_current ∧
      (t.setMode m).1.e_total = t.e_total := by
    intro t m
    rw [setMode_eq]
    exact ⟨rfl, rfl, rfl⟩
  refine ⟨⟨rfl, rfl, rfl⟩, hset s, ?_, ?_, ?_⟩
  · intro inp hcase
    apply updateHook_pid_frame
    rcases hcase with h | h | h
    · left; rw [h]; decide
    · left; rw [h]; decide
    · right; exact h.2
  · intro op hstart hcycle
    cases op with
    | updateHook inp => exact absurd rfl (hcycle inp)
    | setMode m => exact hset s m
    | startHook => exact absurd rfl hstart
    | configureHook =>
      show s.configureHook.1.e_previous = _ ∧ s.configureHook.1.e_current = _ ∧
        s.configureHook.1.e_total = _
      rw [configureHook_eq]
      exact ⟨rfl, rfl, rfl⟩
    | _ => exact ⟨rfl, rfl, rfl⟩
  · intro m inputs hm
    have hmode : (s.setMode m).1.mode = m := by
      unfold Lwr_testdriver.setMode
      rcases hm with h | h <;> rw [h] <;> rfl
    have hne : (s.setMode m).1.mode ≠ "torque" := by
      rw [hmode]
      rcases hm with h | h <;> rw [h] <;> decide
    obtain ⟨-, a1, a2, a3⟩ := afterCycles_pid_frame kin (s.setMode m).1 inputs hne
    obtain ⟨b1, b2, b3⟩ := hset ((s.setMode m).1.afterCycles kin inputs) "torque"
    obtain ⟨c1, c2, c3⟩ := hset s m
    refine ⟨?_, b1.trans (a1.trans c1), b2.trans (a2.trans c2), b3.trans (a3.trans c3)⟩
    simp [Lwr_testdriver.setMode]
/-- A torque-mode cycle with data and PID on makes exactly one call
`controlPID(0, lower-joint velocities)`: the PID errors after the cycle. -/
theorem updateHook_pid_on (kin : Kinematics nl nu) (s : Lwr_testdriver nl nu)
    (inp : CycleInput) (hmode : s.mode = "torque") (hpid : s.enable_pid = true)
    (hflow : inp.flow ≠ FlowStatus.NoData) :
    (s.updateHook kin inp).1.e_previous = s.e_current ∧
    (s.updateHook kin inp).1.e_current = (fun i => 0 - inp.sample.velocities.head nl i) ∧
    (s.updateHook kin inp).1.e_total =
      (fun i => s.e_total i + (0 - inp.sample.velocities.head nl i)) := by
  rw [updateHook_data kin s inp hflow]
  have hd : (s.dispatched kin inp).e_previous = s.e_current ∧
      (s.dispatched kin inp).e_current = (fun i => 0 - inp.sample.velocities.head nl i) ∧
      (s.dispatched kin inp).e_total =
        (fun i => s.e_total i + (0 - inp.sample.velocities.head nl i)) := by
    unfold Lwr_testdriver.dispatched
    rw [if_pos hmode]
    have h : (s.afterRead inp).torqueBranch kin inp =
        Lwr_testdriver.torqueUpper kin
          (Lwr_testdriver.torqueLower kin { s.afterRead inp with tau := fun _ => 0 } inp)
          inp := rfl
    rw [h, torqueUpper_eq]
    have hp : Lwr_testdriver.enable_pid { s.afterRead inp with tau := fun _ => 0 } = true :=
      hpid
    unfold Lwr_testdriver.torqueLower
    rw [if_pos hp]
    exact ⟨rfl, rfl, rfl⟩
  generalize s.dispatched kin inp = d at hd ⊢
  have ha := averaging_eq d
  generalize d.averaging = a at ha ⊢
  rw [ha]
  exact hd

/-- C17, on the started driver with PID on: one torque-mode cycle with all
velocities 1 brings the accumulated error to -1 on each lower joint; switching
to `"position"`, running two cycles there and switching back to `"torque"`
leaves it at -1, while `startHook` puts it back to zero. -/
theorem C17_pid_state_reset_only_by_start_witness :
    (pidScenario.updateHook sampleKin (sampleInput 0 1 0)).1.e_total = (fun _ => -1) ∧
    (Lwr_testdriver.setMode
      (Lwr_testdriver.afterCycles sampleKin
        ((pidScenario.updateHook sampleKin (sampleInput 0 1 0)).1.setMode "position").1
        [sampleInput 0 1 1, sampleInput 0 1 2])
      "torque").1.e_total = (fun _ => -1) ∧
    (Lwr_testdriver.startHook
      (pidScenario.updateHook sampleKin (sampleInput 0 1 0)).1).1.e_total = (fun _ => 0) := by
  have he : (pidScenario.updateHook sampleKin (sampleInput 0 1 0)).1.e_total
      = (fun _ => -1) := by
    rw [(updateHook_pid_on sampleKin pidScenario (sampleInput 0 1 0) rfl rfl (by decide)).2.2]
    funext i
    have h0 : pidScenario.e_total i = 0 := rfl
    have hi : i.val < 7 := by omega
    rw [h0]
    simp [Vec.head, sampleInput, hi]
  have h := C17_pid_state_reset_only_by_start sampleKin
    (pidScenario.updateHook sampleKin (sampleInput 0 1 0)).1
  refine ⟨he, ?_, h.1.2.2⟩
  rw [(h.2.2.2.2 "position" [sampleInput 0 1 1, sampleInput 0 1 2] (Or.inl rfl)).2.2.2, he]
/-- The accumulated error after a run of calls of `controlPID`: the accumulated
error before the run plus the sum of the errors of the calls. -/
theorem controlPIDs_e_total (s : Lwr_testdriver nl nu) (calls : List (Vec nl × Vec nl)) :
    (s.controlPIDs calls).1.e_total =
      (fun j => s.e_total j + (calls.map (fun tc => tc.1 j - tc.2 j)).sum) := by
  induction calls generalizing s with
  | nil =>
    funext j
    simp [Lwr_testdriver.controlPIDs]
  | cons tc rest ih =>
    show ((s.controlPID tc.1 tc.2).1.controlPIDs rest).1.e_total = _
    rw [ih]
    funext j
    show s.e_total j + (tc.1 j - tc.2 j) + _ = _
    simp only [List.map_cons, List.sum_cons]
    ring

/-! ## C19: the ramp flags -/

/-- No operation clears a ramp flag that is set. -/
theorem perform_keeps_flags (kin : Kinematics nl nu) (s : Lwr_testdriver nl nu) (op : Operation) :
    (s.ramp_forces_hand = true → (s.perform kin op).ramp_forces_hand = true) ∧
    (s.ramp_forces_elbow = true → (s.perform kin op).ramp_forces_elbow = true) := by
  cases op with
  | updateHook inp =>
    have hf := updateHook_frame kin s inp
    exact ⟨fun h => hf.2.2.2.1.trans h, fun h => hf.2.2.2.2.1.trans h⟩
  | setMode m =>
    show (_ → (s.setMode m).1.ramp_forces_hand = true) ∧
      (_ → (s.setMode m).1.ramp_forces_elbow = true)
    rw [setMode_eq]
    exact ⟨fun h => h, fun h => h⟩
  | configureHook =>
    show (_ → s.configureHook.1.ramp_forces_hand = true) ∧
      (_ → s.configureHook.1.ramp_forces_elbow = true)
    rw [configureHook_eq]
    exact ⟨fun h => h, fun h => h⟩
  | rampForcesUpper nsecs time x y z => exact ⟨fun _ => rfl, fun h => h⟩
  | rampForcesLower nsecs time x y z => exact ⟨fun h => h, fun _ => rfl⟩
  | _ => exact ⟨fun h => h, fun h => h⟩

/-- C19: once the hand (respectively elbow) ramp flag is set, it is set in every
state reached afterwards by any sequence of controller operations: cycles in any
mode and at any clock reading (with or without data), `setMode`, the four
wrench-axis setters, `rampForcesUpper` / `rampForcesLower`, `averageTau`,
`startHook` (and `configureHook`, `stopHook`); no operation clears it. -/
theorem C19_ramp_flag_never_cleared (kin : Kinematics nl nu) (s : Lwr_testdriver nl nu)
    (ops : List Operation) :
    (s.ramp_forces_hand = true →
      (ops.foldl (Lwr_testdriver.perform kin) s).ramp_forces_hand = true) ∧
    (s.ramp_forces_elbow = true →
      (ops.foldl (Lwr_testdriver.perform kin) s).ramp_forces_elbow = true) := by
  induction ops generalizing s with
  | nil => exact ⟨fun h => h, fun h => h⟩
  | cons op rest ih =>
    have hp := perform_keeps_flags kin s op
    have hi := ih (s.perform kin op)
    exact ⟨fun h => hi.1 (hp.1 h), fun h => hi.2 (hp.2 h)⟩

/-- C19, on the ramp scenario (hand ramp of duration 2 begun at clock 0): after
a cycle at clock 5, a change of mode, a cycle there, new wrench settings, an
averaging request, a restart and a cycle without data, the hand ramp flag is
still set. -/
theorem C19_ramp_flag_never_cleared_witness :
    (List.foldl (Lwr_testdriver.perform sampleKin) restRamp
      [Operation.updateHook (sampleInput 0 0 5), Operation.setMode "position",
        Operation.updateHook (sampleInput 0 0 6), Operation.setForceAxisUpper 0 0 0,
        Operation.setTorqueAxisUpper 0 0 0, Operation.averageTau 2, Operation.startHook,
        Operation.updateHook { sampleInput 0 0 7 with flow := FlowStatus.NoData }]
      ).ramp_forces_hand = true :=
  (C19_ramp_flag_never_cleared sampleKin restRamp _).1 rfl

/-! ## Rounding: general facts -/

theorem roundEven_intCast (n : ℤ) : roundEven (n : ℚ) = n := by
  simp [roundEven]

theorem roundBinary_zero (p : ℕ) : roundBinary p 0 = 0 := by
  simp [roundBinary]

theorem log_two_eq {x : ℚ} {k : ℤ} (h1 : (2 : ℚ) ^ k ≤ x) (h2 : x < (2 : ℚ) ^ (k + 1)) :
    Int.log 2 x = k := by
  have hpos : 0 < x := lt_of_lt_of_le (by positivity) h1
  have ha : k ≤ Int.log 2 x := by
    apply (Int.zpow_le_iff_le_log (by norm_num) hpos).mp
    simpa using h1
  have hb : Int.log 2 x < k + 1 := by
    apply (Int.lt_zpow_iff_log_lt (by norm_num) hpos).mp
    simpa using h2
  omega

theorem log_two_bounds {x : ℚ} (hpos : 0 < x) :
    (2 : ℚ) ^ Int.log 2 x ≤ x ∧ x < (2 : ℚ) ^ (Int.log 2 x + 1) := by
  have h1 := Int.zpow_log_le_self (b := 2) (by norm_num) hpos
  have h2 := Int.lt_zpow_succ_log_self (b := 2) (by norm_num) x
  constructor
  · simpa using h1
  · simpa using h2

/-- A number `m * 2^e` whose integer significand `m` has fewer than `p + 1` bits
is a floating-point number of precision `p`: rounding leaves it as it is. -/
theorem roundBinary_of_representable (p : ℕ) (m e : ℤ) (hm : |m| < 2 ^ p) :
    roundBinary p ((m : ℚ) * (2 : ℚ) ^ e) = (m : ℚ) * (2 : ℚ) ^ e := by
  by_cases hm0 : m = 0
  · simp [hm0, roundBinary]
  · have h2e : (0 : ℚ) < (2 : ℚ) ^ e := by positivity
    have hmq : (m : ℚ) ≠ 0 := by exact_mod_cast hm0
    have hx : (m : ℚ) * (2 : ℚ) ^ e ≠ 0 := mul_ne_zero hmq (ne_of_gt h2e)
    have hmpos : (0 : ℚ) < |(m : ℚ)| := abs_pos.mpr hmq
    obtain ⟨hj1, hj2⟩ := log_two_bounds hmpos
    have hmlt : |(m : ℚ)| < (2 : ℚ) ^ (p : ℤ) := by
      have : ((|m| : ℤ) : ℚ) < ((2 ^ p : ℤ) : ℚ) := by exact_mod_cast hm
      simpa using this
    have hjp : Int.log 2 |(m : ℚ)| < (p : ℤ) := by
      have hlt : (2 : ℚ) ^ Int.log 2 |(m : ℚ)| < (2 : ℚ) ^ (p : ℤ) := lt_of_le_of_lt hj1 hmlt
      exact (zpow_lt_zpow_iff_right₀ (by norm_num : (1 : ℚ) < 2)).mp hlt
    have habs : |(m : ℚ) * (2 : ℚ) ^ e| = |(m : ℚ)| * (2 : ℚ) ^ e := by
      rw [abs_mul, abs_of_pos h2e]
    have hlog : Int.log 2 |(m : ℚ) * (2 : ℚ) ^ e| = Int.log 2 |(m : ℚ)| + e := by
      rw [habs]
      apply log_two_eq
      · rw [zpow_add₀ (by norm_num : (2 : ℚ) ≠ 0)]
        exact mul_le_mul_of_nonneg_right hj1 (le_of_lt h2e)
      · have : Int.log 2 |(m : ℚ)| + e + 1 = (Int.log 2 |(m : ℚ)| + 1) + e := by ring
        rw [this, zpow_add₀ (by norm_num : (2 : ℚ) ≠ 0)]
        exact mul_lt_mul_of_pos_right hj2 h2e
    obtain ⟨n, hn⟩ : ∃ n : ℕ, (n : ℤ) = (p : ℤ) - 1 - Int.log 2 |(m : ℚ)| :=
      ⟨((p : ℤ) - 1 - Int.log 2 |(m : ℚ)|).toNat, Int.toNat_of_nonneg (by omega)⟩
    unfold roundBinary
    rw [if_neg hx, hlog]
    have hs : Int.log 2 |(m : ℚ)| + e - ((p : ℤ) - 1) = e - (n : ℤ) := by
      rw [hn]
      ring
    rw [hs]
    have hq : (m : ℚ) * (2 : ℚ) ^ e / (2 : ℚ) ^ (e - (n : ℤ)) = ((m * 2 ^ n : ℤ) : ℚ) := by
      rw [zpow_sub₀ (by norm_num : (2 : ℚ) ≠ 0), zpow_natCast]
      push_cast
      field_simp
      ring
    rw [hq, roundEven_intCast]
    rw [zpow_sub₀ (by norm_num : (2 : ℚ) ≠ 0), zpow_natCast]
    push_cast
    field_simp
    ring

/-! ## C8: the torque mapping under scaling of the wrench -/

theorem foldl_add_eq_sum {n : Nat} (f : Fin n → ℚ) :
    (List.finRange n).foldl (fun acc i => acc + f i) 0 = ∑ i, f i := by
  have h : ∀ (l : List (Fin n)) (a : ℚ),
      l.foldl (fun acc i => acc + f i) a = a + (l.map f).sum := by
    intro l
    induction l with
    | nil => intro a; simp
    | cons x rest ih =>
      intro a
      rw [List.foldl_cons, ih, List.map_cons, List.sum_cons]
      ring
  rw [h, zero_add]
  rfl

/-- Without rounding the rounded dot product is the dot product. -/
theorem dotRounded_id {n : Nat} (a b : Vec n) : dotRounded id a b = ∑ i, a i * b i := by
  unfold dotRounded
  exact foldl_add_eq_sum (fun i => a i * b i)

theorem computeTorquesUpperRounded_result (fl : ℚ → ℚ) (kin : Kinematics nl nu)
    (s : Lwr_testdriver nl nu) (axis : Vec 6) (magnitude : ℚ) :
    (s.computeTorquesUpperRounded fl kin axis magnitude).2 =
      fun k => fl (dotRounded fl
        (fun i => mulRounded fl (blockDiag (kin.upper.JntToCart s.q_upper).Inverse.M)
          (kin.upper.JntToJac s.q_upper) i k) axis * magnitude) := by
  unfold Lwr_testdriver.computeTorquesUpperRounded
  simp only [htbLoop_zero]

theorem computeTorquesLowerRounded_result (fl : ℚ → ℚ) (kin : Kinematics nl nu)
    (s : Lwr_testdriver nl nu) (axis : Vec 6) (magnitude : ℚ) :
    (s.computeTorquesLowerRounded fl kin axis magnitude).2 =
      if s.elbow_to_base then
        fun k => fl (dotRounded fl
          (fun i => mulRounded fl (blockDiag (kin.lower.JntToCart s.q_lower).Inverse.M)
            (kin.lower.JntToJac s.q_lower) i k) axis * magnitude)
      else
        fun k => fl (dotRounded fl (fun i => kin.lower.JntToJac s.q_lower i k) axis
          * magnitude) := by
  unfold Lwr_testdriver.computeTorquesLowerRounded
  simp only [htbLoop_zero]

/-- Without rounding `computeTorquesUpperRounded` and `computeTorquesLowerRounded`
return what `computeTorquesUpper` and `computeTorquesLower` return. -/
theorem computeTorquesRounded_id (kin : Kinematics nl nu) (s : Lwr_testdriver nl nu)
    (axis : Vec 6) (magnitude : ℚ) :
    (s.computeTorquesUpperRounded id kin axis magnitude).2
      = (s.computeTorquesUpper kin axis magnitude).2 ∧
    (s.computeTorquesLowerRounded id kin axis magnitude).2
      = (s.computeTorquesLower kin axis magnitude).2 := by
  refine ⟨?_, ?_⟩
  · rw [computeTorquesUpperRounded_result, computeTorquesUpper_result]
    funext k
    simp only [id, dotRounded_id, mulRounded, Matrix.mulVec, Matrix.dotProduct,
      Matrix.transpose_apply, Matrix.mul_apply]
  · rw [computeTorquesLowerRounded_result, computeTorquesLower_result]
    split_ifs
    · funext k
      simp only [id, dotRounded_id, mulRounded, Matrix.mulVec, Matrix.dotProduct,
        Matrix.transpose_apply, Matrix.mul_apply]
    · funext k
      simp only [id, dotRounded_id, Matrix.mulVec, Matrix.dotProduct, Matrix.transpose_apply]

theorem roundEven_of_lt_half {q : ℚ} {n : ℤ} (h1 : (n : ℚ) ≤ q) (h2 : q < n + 1 / 2) :
    roundEven q = n := by
  have hf : ⌊q⌋ = n := Int.floor_eq_iff.mpr ⟨h1, by linarith⟩
  unfold roundEven
  rw [hf, if_pos (by linarith)]

theorem roundEven_of_gt_half {q : ℚ} {n : ℤ} (h1 : (n : ℚ) + 1 / 2 < q) (h2 : q < n + 1) :
    roundEven q = n + 1 := by
  have hf : ⌊q⌋ = n := Int.floor_eq_iff.mpr ⟨by linarith, h2⟩
  unfold roundEven
  rw [hf, if_neg (by linarith), if_pos (by linarith)]

theorem roundEven_tie_even {q : ℚ} {n : ℤ} (h : q = n + 1 / 2) (he : n % 2 = 0) :
    roundEven q = n := by
  have hf : ⌊q⌋ = n := Int.floor_eq_iff.mpr ⟨by linarith, by linarith⟩
  unfold roundEven
  rw [hf, if_neg (by linarith), if_neg (by linarith), if_pos he]

/-- The rounding of a positive `x` with binary exponent `k`. -/
theorem roundBinary_eval (p : ℕ) {x : ℚ} (k : ℤ) (m : ℤ)
    (h1 : (2 : ℚ) ^ k ≤ x) (h2 : x < (2 : ℚ) ^ (k + 1))
    (hm : roundEven (x / (2 : ℚ) ^ (k - ((p : ℤ) - 1))) = m) :
    roundBinary p x = (m : ℚ) * (2 : ℚ) ^ (k - ((p : ℤ) - 1)) := by
  have hpos : 0 < x := lt_of_lt_of_le (by positivity) h1
  unfold roundBinary
  rw [if_neg (ne_of_gt hpos), abs_of_pos hpos, log_two_eq h1 h2, hm]

theorem finRange_six : List.finRange 6 = [0, 1, 2, 3, 4, 5] := rfl

theorem roundDouble_zero : roundDouble 0 = 0 := roundBinary_zero 53

theorem roundDouble_natCast_small (n : ℕ) (h : n < 2 ^ 53) : roundDouble (n : ℚ) = n := by
  have h1 := roundBinary_of_representable 53 (n : ℤ) 0
    (by rw [abs_of_nonneg (Int.natCast_nonneg n)]; exact_mod_cast h)
  simpa [roundDouble] using h1

theorem roundDouble_one : roundDouble 1 = 1 := by
  simpa using roundDouble_natCast_small 1 (by norm_num)

/-- Without rounding `averagingRounded` is `averaging`. -/
theorem averagingRounded_id (s : Lwr_testdriver nl nu) :
    s.averagingRounded id = s.averaging :=
  rfl

/-- While the window is open, a run of averaging blocks logs nothing, keeps the
target, counts every cycle and adds every torque vector with one rounded
addition. -/
theorem averagingRun_accumulate (fl : ℚ → ℚ) (s : Lwr_testdriver nl nu) (taus : List (Vec 7))
    (hroom : s.frames_counter + (taus.length : ℤ) ≤ s.frames_total) :
    (s.averagingRun fl taus).2 = List.replicate taus.length [] ∧
    (s.averagingRun fl taus).1.frames_total = s.frames_total ∧
    (s.averagingRun fl taus).1.frames_counter = s.frames_counter + (taus.length : ℤ) ∧
    (s.averagingRun fl taus).1.tau_sum =
      (fun j => taus.foldl (fun acc t => fl (acc + t j)) (s.tau_sum j)) := by
  induction taus generalizing s with
  | nil =>
    refine ⟨rfl, rfl, ?_, rfl⟩
    simp [Lwr_testdriver.averagingRun]
  | cons tau rest ih =>
    have hlen : ((tau :: rest).length : ℤ) = (rest.length : ℤ) + 1 := by simp
    rw [hlen] at hroom
    have hgt : s.frames_total > s.frames_counter := by
      have := Int.natCast_nonneg rest.length
      omega
    have hstep : Lwr_testdriver.averagingRounded fl { s with tau := tau } =
        ({ s with
            tau := tau
            tau_sum := fun i => fl (s.tau_sum i + tau i)
            frames_counter := s.frames_counter + 1 }, []) := by
      unfold Lwr_testdriver.averagingRounded
      rw [if_pos hgt]
    have hrun : s.averagingRun fl (tau :: rest) =
        ((Lwr_testdriver.averagingRun fl
            (Lwr_testdriver.averagingRounded fl { s with tau := tau }).1 rest).1,
          (Lwr_testdriver.averagingRounded fl { s with tau := tau }).2 ::
            (Lwr_testdriver.averagingRun fl
              (Lwr_testdriver.averagingRounded fl { s with tau := tau }).1 rest).2) := rfl
    rw [hrun, hstep]
    obtain ⟨i1, i2, i3, i4⟩ := ih
      { s with
        tau := tau
        tau_sum := fun i => fl (s.tau_sum i + tau i)
        frames_counter := s.frames_counter + 1 }
      (by show s.frames_counter + 1 + (rest.length : ℤ) ≤ s.frames_total; omega)
    refine ⟨?_, ?_, ?_, ?_⟩
    · show [] :: _ = _
      rw [i1]
      rfl
    · exact i2
    · show _ = s.frames_counter + ((tau :: rest).length : ℤ)
      rw [i3, hlen]
      show s.frames_counter + 1 + (rest.length : ℤ) = _
      ring
    · rw [i4]
      rfl

theorem averagingRun_append (fl : ℚ → ℚ) (s : Lwr_testdriver nl nu) (taus : List (Vec 7))
    (last : Vec 7) :
    (s.averagingRun fl (taus ++ [last])).2 =
      (s.averagingRun fl taus).2 ++
        [(Lwr_testdriver.averagingRounded fl
          { (s.averagingRun fl taus).1 with tau := last }).2] ∧
    (s.averagingRun fl (taus ++ [last])).1 =
      (Lwr_testdriver.averagingRounded fl { (s.averagingRun fl taus).1 with tau := last }).1 := by
  induction taus generalizing s with
  | nil => exact ⟨rfl, rfl⟩
  | cons tau rest ih =>
    obtain ⟨h1, h2⟩ := ih (Lwr_testdriver.averagingRounded fl { s with tau := tau }).1
    refine ⟨?_, ?_⟩
    · show (Lwr_testdriver.averagingRounded fl { s with tau := tau }).2 ::
        (Lwr_testdriver.averagingRun fl
          (Lwr_testdriver.averagingRounded fl { s with tau := tau }).1 (rest ++ [last])).2 = _
      rw [h1]
      rfl
    · show (Lwr_testdriver.averagingRun fl
          (Lwr_testdriver.averagingRounded fl { s with tau := tau }).1 (rest ++ [last])).1 = _
      rw [h2]
      rfl

/-- After `averageTau(n)`, `n > 0`, the averaging blocks of `n + 1` cycles: the
first `n` log nothing, the last one logs the rounded quotient of the rounded
running sum by `n`, and resets the target. -/
theorem averagingRun_report (fl : ℚ → ℚ) (s : Lwr_testdriver nl nu) (n : ℕ)
    (taus : List (Vec 7)) (last : Vec 7) (hn : 0 < n) (hlen : taus.length = n) :
    ((s.averageTau n).averagingRun fl (taus ++ [last])).2 =
      List.replicate n [] ++
        [[LogEntry.AverageTau n
          (fun j => fl (taus.foldl (fun acc t => fl (acc + t j)) 0 / fl (n : ℚ)))]] ∧
    ((s.averageTau n).averagingRun fl (taus ++ [last])).1.frames_total = 0 := by
  obtain ⟨a1, a2, a3, a4⟩ := averagingRun_accumulate fl (s.averageTau n) taus
    (by
      show (0 : ℤ) + (taus.length : ℤ) ≤ (n : ℤ)
      rw [hlen]
      simp)
  obtain ⟨b1, b2⟩ := averagingRun_append fl (s.averageTau n) taus last
  have hT : ((s.averageTau n).averagingRun fl taus).1.frames_total = (n : ℤ) := a2
  have hC : ((s.averageTau n).averagingRun fl taus).1.frames_counter = (n : ℤ) := by
    rw [a3, hlen]
    show (0 : ℤ) + (n : ℤ) = n
    ring
  have hS : ((s.averageTau n).averagingRun fl taus).1.tau_sum =
      (fun j => taus.foldl (fun acc t => fl (acc + t j)) 0) := a4
  have hlast : Lwr_testdriver.averagingRounded fl
      { ((s.averageTau n).averagingRun fl taus).1 with tau := last } =
      ({ ((s.averageTau n).averagingRun fl taus).1 with
          tau := last, frames_total := 0, frames_counter := 0 },
        [LogEntry.AverageTau n
          (fun j => fl (taus.foldl (fun acc t => fl (acc + t j)) 0 / fl (n : ℚ)))]) := by
    unfold Lwr_testdriver.averagingRounded
    have hle : ¬ (Lwr_testdriver.frames_total
        { ((s.averageTau n).averagingRun fl taus).1 with tau := last }
        > Lwr_testdriver.frames_counter
          { ((s.averageTau n).averagingRun fl taus).1 with tau := last }) := by
      show ¬ (((s.averageTau n).averagingRun fl taus).1.frames_total
        > ((s.averageTau n).averagingRun fl taus).1.frames_counter)
      rw [hT, hC]
      exact lt_irrefl _
    have hpos : Lwr_testdriver.frames_total
        { ((s.averageTau n).averagingRun fl taus).1 with tau := last } > 0 := by
      show ((s.averageTau n).averagingRun fl taus).1.frames_total > 0
      rw [hT]
      exact_mod_cast hn
    rw [if_neg hle, if_pos hpos]
    refine Prod.ext rfl ?_
    show [LogEntry.AverageTau ((s.averageTau n).averagingRun fl taus).1.frames_total
      (fun i => fl (((s.averageTau n).averagingRun fl taus).1.tau_sum i
        / fl (((s.averageTau n).averagingRun fl taus).1.frames_total : ℚ)))] = _
    rw [hT, hS]
    simp
  refine ⟨?_, ?_⟩
  · rw [b1, a1, hlen, hlast]
  · rw [b2, hlast]

/-! ### The sum of seven times `0.1f` in float -/

theorem roundFloat_zero : roundFloat 0 = 0 := roundBinary_zero 24

/-- The float nearest to 1/10 is a float. -/
theorem roundFloat_tenthF :
    roundFloat (13421773 / 134217728) = 13421773 / 134217728 := by
  have h := roundBinary_of_representable 24 13421773 (-27) (by norm_num)
  have e : ((13421773 : ℤ) : ℚ) * (2 : ℚ) ^ (-27 : ℤ) = 13421773 / 134217728 := by norm_num
  rw [e] at h
  exact h

/-- In float, the running sum of 2 times `0.1f`, without rounding. -/
theorem roundFloat_sum_two :
    roundFloat (13421773 / 134217728 + 13421773 / 134217728) = 13421773 / 67108864 := by
  have h := roundBinary_of_representable 24 13421773 (-26) (by norm_num)
  have e : ((13421773 : ℤ) : ℚ) * (2 : ℚ) ^ (-26 : ℤ)
      = 13421773 / 134217728 + 13421773 / 134217728 := by norm_num
  rw [e] at h
  unfold roundFloat
  rw [h]
  norm_num

/-- The integer 7 is a float. -/
theorem roundFloat_seven : roundFloat 7 = 7 := by
  have h := roundBinary_of_representable 24 7 0 (by norm_num)
  simpa [roundFloat] using h

/-- The float nearest to 1/10. -/
theorem roundFloat_tenth : roundFloat (1 / 10) = 13421773 / 134217728 := by
  unfold roundFloat
  rw [roundBinary_eval 24 (-4) 13421773 (by norm_num) (by norm_num)
    (roundEven_of_gt_half (n := 13421772) (by norm_num) (by norm_num))]
  norm_num

/-- In float, the running sum of 3 times `0.1f`. -/
theorem roundFloat_sum_three : roundFloat (13421773 / 67108864 + 13421773 / 134217728) = 5033165 / 16777216 := by
  unfold roundFloat
  rw [roundBinary_eval 24 (-2) 10066330 (by norm_num) (by norm_num)
    (roundEven_of_gt_half (n := 10066329) (by norm_num) (by norm_num))]
  norm_num

/-- In float, the running sum of 4 times `0.1f`. -/
theorem roundFloat_sum_four : roundFloat (5033165 / 16777216 + 13421773 / 134217728) = 13421773 / 33554432 := by
  unfold roundFloat
  rw [roundBinary_eval 24 (-2) 13421773 (by norm_num) (by norm_num)
    (roundEven_of_lt_half (n := 13421773) (by norm_num) (by norm_num))]
  norm_num

/-- In float, the running sum of 5 times `0.1f`. -/
theorem roundFloat_sum_five : roundFloat (13421773 / 33554432 + 13421773 / 134217728) = 1 / 2 := by
  unfold roundFloat
  rw [roundBinary_eval 24 (-1) 8388608 (by norm_num) (by norm_num)
    (roundEven_of_lt_half (n := 8388608) (by norm_num) (by norm_num))]
  norm_num

/-- In float, the running sum of 6 times `0.1f`. -/
theorem roundFloat_sum_six : roundFloat (1 / 2 + 13421773 / 134217728) = 5033165 / 8388608 := by
  unfold roundFloat
  rw [roundBinary_eval 24 (-1) 10066330 (by norm_num) (by norm_num)
    (roundEven_of_gt_half (n := 10066329) (by norm_num) (by norm_num))]
  norm_num

/-- In float, the running sum of 7 times `0.1f`. -/
theorem roundFloat_sum_seven : roundFloat (5033165 / 8388608 + 13421773 / 134217728) = 2936013 / 4194304 := by
  unfold roundFloat
  rw [roundBinary_eval 24 (-1) 11744052 (by norm_num) (by norm_num)
    (roundEven_of_gt_half (n := 11744051) (by norm_num) (by norm_num))]
  norm_num

/-- In float, the running sum of 7 times `0.1f` divided by 7. -/
theorem roundFloat_mean_seven : roundFloat (2936013 / 4194304 / 7) = 6710887 / 67108864 := by
  unfold roundFloat
  rw [roundBinary_eval 24 (-4) 13421774 (by norm_num) (by norm_num)
    (roundEven_of_gt_half (n := 13421773) (by norm_num) (by norm_num))]
  norm_num

/-- In float, the mean of seven times `0.1f` is the float above `0.1f`. -/
theorem roundFloat_fold_seven (j : Fin 7) :
    roundFloat (List.foldl (fun acc (t : Vec 7) => roundFloat (acc + t j)) 0
      (List.replicate 7 (fun _ => 13421773 / 134217728)) / roundFloat 7)
      = 6710887 / 67108864 := by
  rw [List.replicate_succ, List.replicate_succ, List.replicate_succ, List.replicate_succ,
    List.replicate_succ, List.replicate_succ, List.replicate_succ, List.replicate_zero]
  rw [List.foldl_cons, List.foldl_cons, List.foldl_cons, List.foldl_cons, List.foldl_cons,
    List.foldl_cons, List.foldl_cons, List.foldl_nil]
  beta_reduce
  rw [zero_add, roundFloat_tenthF, roundFloat_sum_two, roundFloat_sum_three,
    roundFloat_sum_four, roundFloat_sum_five, roundFloat_sum_six, roundFloat_sum_seven,
    roundFloat_seven, roundFloat_mean_seven]

/-- C14 fails as stated in its last part: after `averageTau(7)`, seven cycles
that each compute the torque vector `v = [0.1f, ..., 0.1f]` log nothing, and the
eighth cycle reports the mean `0.10000001` (the float `6710887 / 2^26`) on every
joint, not `v`: the float sum of seven times `0.1f` is `0.70000005`, and its
quotient by 7 rounds to the float above `0.1f`. -/
theorem C14_mean_of_equal_counterexample :
    roundFloat (1 / 10) = 13421773 / 134217728 ∧
    (Lwr_testdriver.averagingRun roundFloat (fresh.averageTau 7)
      (List.replicate 7 (fun _ => 13421773 / 134217728)
        ++ [fun _ => 13421773 / 134217728])).2 =
      List.replicate 7 [] ++ [[LogEntry.AverageTau 7 (fun _ => 6710887 / 67108864)]] ∧
    (6710887 / 67108864 : ℚ) ≠ 13421773 / 134217728 := by
  refine ⟨roundFloat_tenth, ?_, by norm_num⟩
  have h := (averagingRun_report roundFloat fresh 7
    (List.replicate 7 (fun _ => 13421773 / 134217728)) (fun _ => 13421773 / 134217728)
    (by norm_num) (List.length_replicate _ _)).1
  have h7 : ((7 : ℕ) : ℤ) = 7 := rfl
  have h7q : ((7 : ℕ) : ℚ) = 7 := by norm_num
  rw [h7, h7q] at h
  rw [h, funext roundFloat_fold_seven]

/-- The integers below `2^24` are floats. -/
theorem roundFloat_natCast_small (n : ℕ) (h : n < 2 ^ 24) : roundFloat (n : ℚ) = n := by
  have h1 := roundBinary_of_representable 24 (n : ℤ) 0
    (by rw [abs_of_nonneg (Int.natCast_nonneg n)]; exact_mod_cast h)
  simpa [roundFloat] using h1

/-- A list of `n + 1` copies ends with a copy. -/
theorem replicate_succ_append {α : Type} (n : ℕ) (a : α) :
    List.replicate (n + 1) a = List.replicate n a ++ [a] := by
  induction n with
  | zero => rfl
  | succ m ih => exact congrArg (List.cons a) ih

/-- The running sum of `k` equal terms `x`, none of whose additions rounds. -/
theorem foldl_rounded_replicate (fl : ℚ → ℚ) (x : ℚ) (n : ℕ)
    (hexact : ∀ k : ℕ, k ≤ n → fl ((k : ℚ) * x) = (k : ℚ) * x) (k : ℕ) (hk : k ≤ n) :
    (List.replicate k x).foldl (fun acc t => fl (acc + t)) 0 = (k : ℚ) * x := by
  induction k with
  | zero => simp
  | succ m ih =>
    rw [replicate_succ_append, List.foldl_append, ih (Nat.le_of_succ_le hk)]
    show fl ((m : ℚ) * x + x) = ((m + 1 : ℕ) : ℚ) * x
    have e : (m : ℚ) * x + x = ((m + 1 : ℕ) : ℚ) * x := by push_cast; ring
    rw [e]
    exact hexact (m + 1) hk

/-- The running sum at joint `j` of a list of torque vectors that all equal `v`. -/
theorem foldl_rounded_const (fl : ℚ → ℚ) (taus : List (Vec 7)) (v : Vec 7) (j : Fin 7)
    (hv : ∀ t ∈ taus, t = v) :
    taus.foldl (fun acc t => fl (acc + t j)) 0
      = (List.replicate taus.length (v j)).foldl (fun acc t => fl (acc + t)) 0 := by
  have h : ∀ (l : List (Vec 7)) (a : ℚ), (∀ t ∈ l, t = v) →
      l.foldl (fun acc t => fl (acc + t j)) a
        = (List.replicate l.length (v j)).foldl (fun acc t => fl (acc + t)) a := by
    intro l
    induction l with
    | nil => intro a _; rfl
    | cons t rest ih =>
      intro a hl
      rw [List.foldl_cons, List.length_cons, List.replicate_succ, List.foldl_cons,
        hl t (List.mem_cons_self _ _)]
      exact ih _ (fun u hu => hl u (List.mem_cons_of_mem _ hu))
  exact h taus 0 hv

/-- The window of the averager over a run of cycles, in the exact model: after
`averageTau(n)` with `n > 0`, the first `n` cycles with data log nothing, and
the next cycle with data logs the sum of their torque vectors divided by `n`, as
its only message, and resets the target to 0. -/
theorem cycles_average_report (kin : Kinematics nl nu) (s : Lwr_testdriver nl nu) (n : ℕ)
    (ins : List CycleInput) (last : CycleInput) (hn : 0 < n) (hlen : ins.length = n)
    (hdata : ∀ inp ∈ ins, inp.flow ≠ FlowStatus.NoData)
    (hlast : last.flow ≠ FlowStatus.NoData) :
    (s.averageTau n).cycles kin (ins ++ [last]) =
      (s.averageTau n).cycles kin ins
        ++ [((s.averageTau n).afterCycles kin ins).updateHook kin last] ∧
    (∀ r ∈ (s.averageTau n).cycles kin ins, r.2.log = []) ∧
    (((s.averageTau n).afterCycles kin ins).updateHook kin last).2.log =
      [LogEntry.AverageTau n
        (fun j => (((s.averageTau n).cycles kin ins).map (fun r => r.1.tau j)).sum / (n : ℚ))] ∧
    (((s.averageTau n).afterCycles kin ins).updateHook kin last).1.frames_total = 0 := by
  have h0T : (s.averageTau n).frames_total = n := rfl
  have h0C : (s.averageTau n).frames_counter = 0 := rfl
  have h0S : (s.averageTau n).tau_sum = (fun _ => 0) := rfl
  obtain ⟨aL, aT, aC, aS⟩ := cycles_accumulate kin (s.averageTau n) ins hdata
    (by rw [h0T, h0C, hlen]; simp)
  rw [h0T] at aT
  rw [h0C, hlen, zero_add] at aC
  rw [h0S] at aS
  have hle : ¬ ((s.averageTau n).afterCycles kin ins).frames_total
      > ((s.averageTau n).afterCycles kin ins).frames_counter := by
    rw [aT, aC]
    exact lt_irrefl _
  have hpos : ((s.averageTau n).afterCycles kin ins).frames_total > 0 := by
    rw [aT]
    exact_mod_cast hn
  obtain ⟨-, -, rT, rL⟩ :=
    (updateHook_averaging kin ((s.averageTau n).afterCycles kin ins) last hlast).2.1 hle hpos
  have hlog : (((s.averageTau n).afterCycles kin ins).updateHook kin last).2.log =
      [LogEntry.AverageTau n
        (fun j => (((s.averageTau n).cycles kin ins).map (fun r => r.1.tau j)).sum / (n : ℚ))] := by
    rw [rL, aT, aS]
    congr 2
    funext j
    simp
  exact ⟨cycles_append kin _ ins last, aL, hlog, rT⟩

/-- The report of the averager in rounded arithmetic when all `n` torque vectors
equal `v` and neither `n` nor a sum `k * v` with `k ≤ n` is changed by rounding:
the mean reported is `v`. -/
theorem averagingRun_report_const (fl : ℚ → ℚ) (s : Lwr_testdriver nl nu) (n : ℕ)
    (taus : List (Vec 7)) (last v : Vec 7) (hn : 0 < n) (hlen : taus.length = n)
    (hv : ∀ t ∈ taus, t = v) (hfn : fl (n : ℚ) = n)
    (hexact : ∀ k : ℕ, k ≤ n → ∀ j, fl ((k : ℚ) * v j) = (k : ℚ) * v j) :
    ((s.averageTau n).averagingRun fl (taus ++ [last])).2 =
      List.replicate n [] ++ [[LogEntry.AverageTau n v]] := by
  rw [(averagingRun_report fl s n taus last hn hlen).1]
  congr 4
  funext j
  rw [foldl_rounded_const fl taus v j hv, hlen,
    foldl_rounded_replicate fl (v j) n (fun k hk => hexact k hk j) n le_rfl, hfn]
  have hne : (n : ℚ) ≠ 0 := by exact_mod_cast (Nat.pos_iff_ne_zero.mp hn)
  have e : (n : ℚ) * v j / (n : ℚ) = ((1 : ℕ) : ℚ) * v j := by
    field_simp
  rw [e, hexact 1 hn j]
  simp

/-- C14, amended: for every `n > 0`, every controller state and every run of
`n + 1` consecutive cycles with joint-state data that follows `averageTau(n)`
(the first `n` inputs `ins` followed by the input `last`), cycle `i` computing
the torque vector `tau_i`: the first `n` cycles report nothing, and cycle `n + 1`
reports, as its only message, the quotient by `n` of the running sum
`((0 + tau_1) + tau_2) + ... + tau_n`, and resets the target to 0. With exact
arithmetic the value reported is `(tau_1 + ... + tau_n) / n`; when every addition
and the division are rounded by `fl` (any rounding operator, `roundFloat` for the
float members of the source), it is the rounded quotient of the rounded running
sum. If every `tau_i` equals `v`, the mean reported under rounding is `v` provided
that `n` and the multiples `v, 2v, ..., nv` are not changed by rounding (so for
`[1, ...]` and `n = 3`); without that proviso it need not be `v`. -/
theorem C14_average_report_rounded (fl : ℚ → ℚ) (kin : Kinematics nl nu)
    (s : Lwr_testdriver nl nu) (n : ℕ)
    (ins : List CycleInput) (last : CycleInput) (hn : 0 < n) (hlen : ins.length = n)
    (hdata : ∀ inp ∈ ins, inp.flow ≠ FlowStatus.NoData)
    (hlast : last.flow ≠ FlowStatus.NoData) :
    (s.averageTau n).cycles kin (ins ++ [last]) =
      (s.averageTau n).cycles kin ins
        ++ [((s.averageTau n).afterCycles kin ins).updateHook kin last] ∧
    (∀ r ∈ (s.averageTau n).cycles kin ins, r.2.log = []) ∧
    (((s.averageTau n).afterCycles kin ins).updateHook kin last).2.log =
      [LogEntry.AverageTau n
        (fun j => (((s.averageTau n).cycles kin ins).map (fun r => r.1.tau j)).sum / (n : ℚ))] ∧
    (((s.averageTau n).afterCycles kin ins).updateHook kin last).1.frames_total = 0 ∧
    ((s.averageTau n).averagingRun fl
        (((s.averageTau n).cycles kin ins).map (fun r => r.1.tau)
          ++ [(((s.averageTau n).afterCycles kin ins).updateHook kin last).1.tau])).2 =
      List.replicate n [] ++
        [[LogEntry.AverageTau n
          (fun j => fl ((((s.averageTau n).cycles kin ins).map (fun r => r.1.tau)).foldl
            (fun acc t => fl (acc + t j)) 0 / fl (n : ℚ)))]] ∧
    ((s.averageTau n).averagingRun fl
        (((s.averageTau n).cycles kin ins).map (fun r => r.1.tau)
          ++ [(((s.averageTau n).afterCycles kin ins).updateHook kin last).1.tau])).1.frames_total
      = 0 ∧
    (∀ v : Vec 7, (∀ r ∈ (s.averageTau n).cycles kin ins, r.1.tau = v) →
      fl (n : ℚ) = n → (∀ k : ℕ, k ≤ n → ∀ j, fl ((k : ℚ) * v j) = (k : ℚ) * v j) →
      ((s.averageTau n).averagingRun fl
          (((s.averageTau n).cycles kin ins).map (fun r => r.1.tau)
            ++ [(((s.averageTau n).afterCycles kin ins).updateHook kin last).1.tau])).2 =
        List.replicate n [] ++ [[LogEntry.AverageTau n v]]) := by
  have hl : (((s.averageTau n).cycles kin ins).map (fun r => r.1.tau)).length = n := by
    rw [List.length_map, cycles_length, hlen]
  obtain ⟨c1, c2, c3, c4⟩ := cycles_average_report kin s n ins last hn hlen hdata hlast
  obtain ⟨r1, r2⟩ := averagingRun_report fl s n
    (((s.averageTau n).cycles kin ins).map (fun r => r.1.tau))
    (((s.averageTau n).afterCycles kin ins).updateHook kin last).1.tau hn hl
  refine ⟨c1, c2, c3, c4, r1, r2, ?_⟩
  intro v hv hfn hexact
  refine averagingRun_report_const fl s n _ _ v hn hl ?_ hfn hexact
  intro t ht
  obtain ⟨r, hr, hrt⟩ := List.mem_map.mp ht
  rw [← hrt]
  exact hv r hr

/-- C14, on the driver in position mode with every target at 1 rad: after
`averageTau(3)`, three cycles with all angles at 0.9 rad each command
`[1, ..., 1]` and report nothing, and the fourth cycle reports the mean
`[1, ..., 1]` over 3 frames, in exact arithmetic and in float arithmetic (1, 2
and 3 are floats). -/
theorem C14_average_report_rounded_witness :
    ((positionScenario.averageTau 3).cycles sampleKin
        [sampleInput (9 / 10) 0 0, sampleInput (9 / 10) 0 1,
          sampleInput (9 / 10) 0 2]).map (fun r => r.2.log) = [[], [], []] ∧
    (((positionScenario.averageTau 3).afterCycles sampleKin
        [sampleInput (9 / 10) 0 0, sampleInput (9 / 10) 0 1, sampleInput (9 / 10) 0 2]).updateHook
      sampleKin (sampleInput (9 / 10) 0 3)).1.frames_total = 0 ∧
    ((positionScenario.averageTau 3).averagingRun roundFloat
        (((positionScenario.averageTau 3).cycles sampleKin
            [sampleInput (9 / 10) 0 0, sampleInput (9 / 10) 0 1,
              sampleInput (9 / 10) 0 2]).map (fun r => r.1.tau)
          ++ [(((positionScenario.averageTau 3).afterCycles sampleKin
            [sampleInput (9 / 10) 0 0, sampleInput (9 / 10) 0 1,
              sampleInput (9 / 10) 0 2]).updateHook sampleKin
                (sampleInput (9 / 10) 0 3)).1.tau])).2 =
      [[], [], [], [LogEntry.AverageTau 3 (fun _ => 1)]] := by
  have hdata : ∀ inp ∈
      [sampleInput (9 / 10) 0 0, sampleInput (9 / 10) 0 1, sampleInput (9 / 10) 0 2],
      inp.flow ≠ FlowStatus.NoData := by
    intro inp hinp
    simp only [List.mem_cons, List.mem_singleton, List.not_mem_nil, or_false] at hinp
    rcases hinp with h | h | h <;> rw [h] <;> decide
  have h := C14_average_report_rounded roundFloat sampleKin positionScenario 3
    [sampleInput (9 / 10) 0 0, sampleInput (9 / 10) 0 1, sampleInput (9 / 10) 0 2]
    (sampleInput (9 / 10) 0 3) (by decide) rfl hdata (by decide)
  refine ⟨?_, h.2.2.2.1, ?_⟩
  · have hnone : ∀ r ∈ (positionScenario.averageTau 3).cycles sampleKin
        [sampleInput (9 / 10) 0 0, sampleInput (9 / 10) 0 1, sampleInput (9 / 10) 0 2],
        r.2.log = [] := h.2.1
    rw [map_eq_replicate_of_forall _ _ _ hnone, cycles_length]
    rfl
  · have hv : ∀ r ∈ (positionScenario.averageTau 3).cycles sampleKin
        [sampleInput (9 / 10) 0 0, sampleInput (9 / 10) 0 1, sampleInput (9 / 10) 0 2],
        r.1.tau = fun _ => 1 := by
      intro r hr
      obtain ⟨inp, hinp, ht⟩ := cycles_position sampleKin (positionScenario.averageTau 3) _ rfl
        hdata r hr
      rw [ht]
      funext i
      simp only [List.mem_cons, List.mem_singleton, List.not_mem_nil, or_false] at hinp
      rcases hinp with h | h | h <;> rw [h] <;>
        norm_num [bangBang, positionScenario, Lwr_testdriver.averageTau, fresh,
          Lwr_testdriver.construct, sampleInput]
    have h3 := h.2.2.2.2.2.2 (fun _ => 1) hv
      (by simpa using roundFloat_natCast_small 3 (by norm_num))
      (fun k hk _ => by
        rw [mul_one]
        exact roundFloat_natCast_small k (lt_of_le_of_lt hk (by norm_num)))
    exact h3

/-! ## C18: the accumulated error, in double arithmetic -/

/-- Without rounding, the rounded `controlPID` is the `controlPID` of the source. -/
theorem controlPIDRounded_id (s : Lwr_testdriver nl nu) (target current : Vec nl) :
    s.controlPIDRounded id target current = s.controlPID target current := rfl

/-- Without rounding, a rounded run of calls is the run of calls. -/
theorem controlPIDsRounded_id (s : Lwr_testdriver nl nu) (calls : List (Vec nl × Vec nl)) :
    s.controlPIDsRounded id calls = s.controlPIDs calls := by
  induction calls generalizing s with
  | nil => rfl
  | cons tc rest ih =>
    show (((s.controlPIDRounded id tc.1 tc.2).1.controlPIDsRounded id rest).1,
        (s.controlPIDRounded id tc.1 tc.2).2
          :: ((s.controlPIDRounded id tc.1 tc.2).1.controlPIDsRounded id rest).2) = _
    rw [ih, controlPIDRounded_id]
    rfl

/-- The accumulated error after a rounded run of calls of `controlPID`: the
running sum, from the accumulated error before the run, of the rounded errors
of the calls, rounded after each addition. -/
theorem controlPIDsRounded_e_total (fl : ℚ → ℚ) (s : Lwr_testdriver nl nu)
    (calls : List (Vec nl × Vec nl)) :
    (s.controlPIDsRounded fl calls).1.e_total =
      (fun j => calls.foldl (fun acc tc => fl (acc + fl (tc.1 j - tc.2 j))) (s.e_total j)) := by
  induction calls generalizing s with
  | nil => rfl
  | cons tc rest ih =>
    show ((s.controlPIDRounded fl tc.1 tc.2).1.controlPIDsRounded fl rest).1.e_total = _
    rw [ih]
    rfl

/-- The running sum over calls that all have the same arguments. -/
theorem foldl_rounded_calls_replicate (fl : ℚ → ℚ) {n : Nat} (target current : Vec n)
    (j : Fin n) (m : ℕ) (a : ℚ) :
    (List.replicate m (target, current)).foldl
        (fun acc tc => fl (acc + fl (tc.1 j - tc.2 j))) a
      = (List.replicate m (fl (target j - current j))).foldl (fun acc t => fl (acc + t)) a := by
  induction m generalizing a with
  | zero => rfl
  | succ k ih =>
    rw [List.replicate_succ, List.replicate_succ, List.foldl_cons, List.foldl_cons]
    exact ih _

/-- A running sum that an addition does not change is not changed by any number
of further additions of the same term. -/
theorem foldl_rounded_stall (fl : ℚ → ℚ) (a y : ℚ) (h : fl (a + y) = a) (m : ℕ) :
    (List.replicate m y).foldl (fun acc t => fl (acc + t)) a = a := by
  induction m with
  | zero => rfl
  | succ k ih =>
    rw [List.replicate_succ, List.foldl_cons, h]
    exact ih

/-- The running sum of the errors of a run of calls is their exact sum when
rounding changes no error and no partial sum. -/
theorem foldl_rounded_exact (fl : ℚ → ℚ) {n : Nat} (calls : List (Vec n × Vec n)) (j : Fin n)
    (herr : ∀ tc ∈ calls, fl (tc.1 j - tc.2 j) = tc.1 j - tc.2 j)
    (hsum : ∀ k : ℕ, k ≤ calls.length →
      fl (((calls.take k).map (fun tc => tc.1 j - tc.2 j)).sum)
        = ((calls.take k).map (fun tc => tc.1 j - tc.2 j)).sum) :
    calls.foldl (fun acc tc => fl (acc + fl (tc.1 j - tc.2 j))) 0
      = (calls.map (fun tc => tc.1 j - tc.2 j)).sum := by
  induction calls using List.reverseRecOn with
  | nil => rfl
  | append_singleton l tc ih =>
    have hl : l.foldl (fun acc tc => fl (acc + fl (tc.1 j - tc.2 j))) 0
        = (l.map (fun tc => tc.1 j - tc.2 j)).sum := by
      apply ih
      · intro u hu
        exact herr u (List.mem_append_left _ hu)
      · intro k hk
        have h := hsum k (by rw [List.length_append]; omega)
        rw [List.take_append_of_le_length hk] at h
        exact h
    rw [List.foldl_append, hl, List.foldl_cons, List.foldl_nil,
      herr tc (List.mem_append_right _ (List.mem_singleton_self _))]
    have h := hsum (l ++ [tc]).length le_rfl
    rw [List.take_length, List.map_append, List.sum_append] at h
    rw [List.map_append, List.sum_append]
    simpa using h

/-! ### Absorption and saturation of a double sum -/

/-- The integers up to `2^53` are doubles. -/
theorem roundDouble_natCast_le (n : ℕ) (h : n ≤ 2 ^ 53) : roundDouble (n : ℚ) = n := by
  rcases Nat.lt_or_eq_of_le h with hlt | heq
  · exact roundDouble_natCast_small n hlt
  · have h1 := roundBinary_of_representable 53 1 53 (by norm_num)
    rw [heq]
    unfold roundDouble
    have e : (((2 ^ 53 : ℕ) : ℚ)) = ((1 : ℤ) : ℚ) * (2 : ℚ) ^ (53 : ℤ) := by norm_num
    rw [e]
    exact h1

/-- In double, `2^53 + 1` is `2^53`: the sum lies halfway between two doubles
and goes to the even one. -/
theorem roundDouble_absorb_one : roundDouble (((2 ^ 53 : ℕ) : ℚ) + 1) = ((2 ^ 53 : ℕ) : ℚ) := by
  unfold roundDouble
  rw [roundBinary_eval 53 53 4503599627370496 (by norm_num) (by norm_num)
    (by
      have h := roundEven_tie_even (q := (((2 ^ 53 : ℕ) : ℚ) + 1)
        / (2 : ℚ) ^ ((53 : ℤ) - (((53 : ℕ) : ℤ) - 1)))
        (n := 4503599627370496) (by norm_num) (by norm_num)
      rw [h])]
  norm_num

/-- The number `2^-53` is a double. -/
theorem roundDouble_ulp : roundDouble (1 / 2 ^ 53) = 1 / 2 ^ 53 := by
  have h := roundBinary_of_representable 53 1 (-53) (by norm_num)
  have e : ((1 : ℤ) : ℚ) * (2 : ℚ) ^ (-53 : ℤ) = 1 / 2 ^ 53 := by norm_num
  rw [e] at h
  exact h

/-- In double, `1 + 2^-53` is `1`: the sum lies halfway between two doubles and
goes to the even one. -/
theorem roundDouble_absorb_ulp : roundDouble (1 + 1 / 2 ^ 53) = 1 := by
  unfold roundDouble
  rw [roundBinary_eval 53 0 4503599627370496 (by norm_num) (by norm_num)
    (by
      have h := roundEven_tie_even (q := ((1 : ℚ) + 1 / 2 ^ 53)
        / (2 : ℚ) ^ ((0 : ℤ) - (((53 : ℕ) : ℤ) - 1)))
        (n := 4503599627370496) (by norm_num) (by norm_num)
      rw [h])]
  norm_num

/-- In double, the running sum of `n` ones is `n` up to `2^53` and stays at
`2^53` from there on. -/
theorem roundDouble_sum_ones (n : ℕ) :
    (List.replicate n (1 : ℚ)).foldl (fun acc t => roundDouble (acc + t)) 0
      = ((min n (2 ^ 53) : ℕ) : ℚ) := by
  have hlin : ∀ m : ℕ, m ≤ 2 ^ 53 →
      (List.replicate m (1 : ℚ)).foldl (fun acc t => roundDouble (acc + t)) 0 = (m : ℚ) := by
    intro m hm
    rw [foldl_rounded_replicate roundDouble 1 m
      (fun k hk => by
        rw [mul_one]
        exact roundDouble_natCast_le k (hk.trans hm)) m le_rfl, mul_one]
  by_cases h : n ≤ 2 ^ 53
  · rw [Nat.min_eq_left h]
    exact hlin n h
  · have hn : n = 2 ^ 53 + (n - 2 ^ 53) := by omega
    rw [Nat.min_eq_right (by omega)]
    rw [hn, List.replicate_add, List.foldl_append, hlin (2 ^ 53) le_rfl]
    exact foldl_rounded_stall roundDouble _ 1 roundDouble_absorb_one _

/-- In double, after `startHook` and `n` calls of `controlPID` with error 1, the
accumulated error is `min n 2^53`. -/
theorem controlPIDsRounded_ones (n : ℕ) :
    (fresh.startHook.1.controlPIDsRounded roundDouble
      (List.replicate n (fun _ => 1, fun _ => 0))).1.e_total
      = (fun _ => ((min n (2 ^ 53) : ℕ) : ℚ)) := by
  have hstart : (fresh.startHook.1 : Lwr_testdriver 4 3).e_total = (fun _ => 0) := rfl
  rw [controlPIDsRounded_e_total, hstart]
  funext j
  rw [foldl_rounded_calls_replicate roundDouble (fun _ => 1) (fun _ => 0) j n 0]
  rw [sub_zero, roundDouble_one]
  exact roundDouble_sum_ones n

/-- In double, after `startHook`, a call of `controlPID` with error 1 and a call
with error `2^-53`, the accumulated error is 1. -/
theorem controlPIDsRounded_absorb :
    (fresh.startHook.1.controlPIDsRounded roundDouble
        [(fun _ => 1, fun _ => 0), (fun _ => 1 / 2 ^ 53, fun _ => 0)]).1.e_total
      = (fun _ => 1) := by
  have hstart : (fresh.startHook.1 : Lwr_testdriver 4 3).e_total = (fun _ => 0) := rfl
  rw [controlPIDsRounded_e_total, hstart]
  funext j
  rw [List.foldl_cons, List.foldl_cons, List.foldl_nil]
  beta_reduce
  rw [sub_zero, sub_zero, roundDouble_one, zero_add, roundDouble_one, roundDouble_ulp,
    roundDouble_absorb_ulp]

/-- C18 fails as stated, in the double arithmetic of the source. After
`startHook`, a call of `controlPID` with error 1 followed by a call with error
`2^-53` (both doubles) leaves the accumulated error at 1, which is not the sum
`1 + 2^-53` of the errors. With the constant error 1, the accumulated error after
`n` calls is `min n 2^53`: after `2^53 + 1` calls it is not `n * e`, and it never
exceeds `2^53`, so it does not grow without bound. -/
theorem C18_integral_unbounded_counterexample :
    (fresh.startHook.1.controlPIDsRounded roundDouble
        [(fun _ => 1, fun _ => 0), (fun _ => 1 / 2 ^ 53, fun _ => 0)]).1.e_total
      = (fun _ => 1) ∧
    ((1 : ℚ) - 0) + (1 / 2 ^ 53 - 0) ≠ 1 ∧
    (∀ n : ℕ, (fresh.startHook.1.controlPIDsRounded roundDouble
        (List.replicate n (fun _ => 1, fun _ => 0))).1.e_total
      = (fun _ => ((min n (2 ^ 53) : ℕ) : ℚ))) ∧
    (fresh.startHook.1.controlPIDsRounded roundDouble
        (List.replicate (2 ^ 53 + 1) (fun _ => 1, fun _ => 0))).1.e_total
      ≠ (fun _ => ((2 ^ 53 + 1 : ℕ) : ℚ) * (1 - 0)) ∧
    (∀ (n : ℕ) (j : Fin 4), |(fresh.startHook.1.controlPIDsRounded roundDouble
        (List.replicate n (fun _ => 1, fun _ => 0))).1.e_total j| ≤ 2 ^ 53) := by
  refine ⟨controlPIDsRounded_absorb, by norm_num, controlPIDsRounded_ones, ?_, ?_⟩
  · rw [controlPIDsRounded_ones]
    intro h
    have h0 := congrFun h (0 : Fin 4)
    rw [Nat.min_eq_right (Nat.le_succ _)] at h0
    push_cast at h0
    norm_num at h0
  · intro n j
    rw [controlPIDsRounded_ones]
    show |((min n (2 ^ 53) : ℕ) : ℚ)| ≤ 2 ^ 53
    rw [Nat.abs_cast]
    have hmin : min n (2 ^ 53) ≤ 2 ^ 53 := Nat.min_le_right _ _
    exact_mod_cast hmin

/-- C18, amended: for every rounding operator `fl` (`roundDouble` for the double
members of the source), every controller state and every run of calls
`controlPID(target_i, current_i)` made after `startHook`, the accumulated error
after the last call is the running sum, started at 0, of the rounded errors
`fl (target_i - current_i)`, rounded after each addition; the code applies no
clamp, saturation or reset to it. It equals the exact sum of the errors
whenever rounding changes no error and no partial sum of the run, and, for a
constant error `e`, it equals `n * e` whenever rounding changes none of the
multiples `e, 2e, ..., ne`. It need not grow without bound: once an addition of
the rounded error no longer changes the accumulated error, any number of further
calls with the same arguments leaves it where it is. -/
theorem C18_integral_rounded (fl : ℚ → ℚ) (s : Lwr_testdriver nl nu)
    (calls : List (Vec nl × Vec nl)) :
    (s.startHook.1.controlPIDsRounded fl calls).1.e_total =
      (fun j => calls.foldl (fun acc tc => fl (acc + fl (tc.1 j - tc.2 j))) 0) ∧
    (∀ j : Fin nl, (∀ tc ∈ calls, fl (tc.1 j - tc.2 j) = tc.1 j - tc.2 j) →
      (∀ k : ℕ, k ≤ calls.length →
        fl (((calls.take k).map (fun tc => tc.1 j - tc.2 j)).sum)
          = ((calls.take k).map (fun tc => tc.1 j - tc.2 j)).sum) →
      (s.startHook.1.controlPIDsRounded fl calls).1.e_total j
        = (calls.map (fun tc => tc.1 j - tc.2 j)).sum) ∧
    (∀ (n : ℕ) (target current : Vec nl) (j : Fin nl),
      (∀ k : ℕ, k ≤ n →
        fl ((k : ℚ) * (target j - current j)) = (k : ℚ) * (target j - current j)) →
      (s.startHook.1.controlPIDsRounded fl (List.replicate n (target, current))).1.e_total j
        = (n : ℚ) * (target j - current j)) ∧
    (∀ (m : ℕ) (target current : Vec nl) (j : Fin nl),
      fl ((s.startHook.1.controlPIDsRounded fl calls).1.e_total j
          + fl (target j - current j))
        = (s.startHook.1.controlPIDsRounded fl calls).1.e_total j →
      (s.startHook.1.controlPIDsRounded fl
          (calls ++ List.replicate m (target, current))).1.e_total j
        = (s.startHook.1.controlPIDsRounded fl calls).1.e_total j) := by
  have hstart : s.startHook.1.e_total = (fun _ => 0) := rfl
  have hrun : ∀ l : List (Vec nl × Vec nl),
      (s.startHook.1.controlPIDsRounded fl l).1.e_total =
        (fun j => l.foldl (fun acc tc => fl (acc + fl (tc.1 j - tc.2 j))) 0) := by
    intro l
    rw [controlPIDsRounded_e_total, hstart]
  refine ⟨hrun calls, ?_, ?_, ?_⟩
  · intro j herr hsum
    rw [hrun]
    exact foldl_rounded_exact fl calls j herr hsum
  · intro n target current j hexact
    rw [hrun]
    beta_reduce
    rw [foldl_rounded_calls_replicate fl target current j n 0]
    cases n with
    | zero => simp
    | succ k =>
      have h1 : fl (target j - current j) = target j - current j := by
        have h := hexact 1 (Nat.succ_le_succ (Nat.zero_le k))
        simpa using h
      rw [h1]
      exact foldl_rounded_replicate fl _ (k + 1) hexact (k + 1) le_rfl
  · intro m target current j hst
    rw [hrun (calls ++ List.replicate m (target, current))]
    rw [hrun calls] at hst ⊢
    beta_reduce at hst ⊢
    rw [List.foldl_append, foldl_rounded_calls_replicate fl target current j m]
    exact foldl_rounded_stall fl _ _ hst m

/-- C18, on the constructed driver in double arithmetic: after `startHook`, three
calls of `controlPID` with error 1 leave the accumulated error 3 on joint 0 (1, 2
and 3 are doubles); one call with error 1 leaves 1, the exact sum; and five
further calls with error `2^-53` leave it at 1, since `1 + 2^-53` rounds to 1. -/
theorem C18_integral_rounded_witness :
    (fresh.startHook.1.controlPIDsRounded roundDouble
        (List.replicate 3 (fun _ => 1, fun _ => 0))).1.e_total 0 = 3 ∧
    (fresh.startHook.1.controlPIDsRounded roundDouble
        [(fun _ => 1, fun _ => 0)]).1.e_total 0 = 1 ∧
    (fresh.startHook.1.controlPIDsRounded roundDouble
        ([(fun _ => 1, fun _ => 0)]
          ++ List.replicate 5 (fun _ => 1 / 2 ^ 53, fun _ => 0))).1.e_total 0 = 1 := by
  have h := C18_integral_rounded roundDouble (fresh : Lwr_testdriver 4 3)
    [(fun _ => 1, fun _ => 0)]
  have c1 := h.2.2.1 3 (fun _ => 1) (fun _ => 0) 0
    (fun k hk => by
      rw [sub_zero, mul_one]
      exact roundDouble_natCast_le k (hk.trans (by norm_num)))
  have c2 := h.2.1 0
    (fun tc htc => by
      rw [List.mem_singleton.mp htc]
      rw [sub_zero, roundDouble_one])
    (fun k hk => by
      have hk1 : k = 0 ∨ k = 1 := by
        have : k ≤ 1 := hk
        omega
      rcases hk1 with h0 | h1
      · rw [h0]
        simp only [List.take_zero, List.map_nil, List.sum_nil]
        exact roundDouble_zero
      · rw [h1]
        simp only [List.take_succ_cons, List.take_zero, List.map_cons, List.map_nil,
          List.sum_cons, List.sum_nil, sub_zero, add_zero]
        exact roundDouble_one)
  simp only [List.map_cons, List.map_nil, List.sum_cons, List.sum_nil, sub_zero,
    add_zero] at c2
  have c3 := h.2.2.2 5 (fun _ => 1 / 2 ^ 53) (fun _ => 0) 0
    (by
      rw [c2]
      beta_reduce
      rw [sub_zero, roundDouble_ulp]
      exact roundDouble_absorb_ulp)
  rw [c2] at c3
  refine ⟨?_, c2, c3⟩
  rw [c1]
  norm_num

end LwrSim
